import Mathlib

/-!
# Schema-driven data tree editor: shallow embedding and verification

The development follows the three source files of the repository:

* `treeHelper.js`  : schema-to-tree generation (`generateTreeStructure` and its helpers),
* `DataTree.jsx`   : flattening of the generated tree (`processNode`) and the click handler,
* `HeaderField.jsx`: the add / copy / remove affordances of a header node.

JavaScript values are embedded as the type `JVal`; JavaScript objects that the source mutates
in place are passed and returned explicitly.  Exceptions thrown by the JavaScript runtime are
results of type `Except Err`.
-/

set_option autoImplicit false

/-! ## JavaScript values -/

/-- JavaScript values as they occur in the documents, schemas and tree nodes of the program.
Numbers are restricted to integers; `fn` is a reference to a callback, of which only the name
is kept; `rand` is the number returned by a call of `Math.random()`, of which nothing is
known. -/
inductive JVal where
  | undef : JVal
  | null : JVal
  | bool (b : Bool) : JVal
  | num (n : Int) : JVal
  | str (s : String) : JVal
  | arr (xs : List JVal) : JVal
  | obj (kvs : List (String × JVal)) : JVal
  | fn (tag : String) : JVal
  | rand : JVal

/-- Ways in which an embedded function can fail to return a value. -/
inductive Err where
  /-- a JavaScript `TypeError` (property access on `null`/`undefined`, call of a non-function) -/
  | typeError : Err
  /-- the recursion budget of the embedding was exhausted -/
  | outOfFuel : Err
  /-- the JavaScript behaviour at this point lies outside the embedded fragment -/
  | unmodelled : Err
  deriving DecidableEq, Repr

namespace JS

/-! ### Strings -/

/-- The decimal rendering of an integer, as produced by a template literal. -/
def intToString (n : Int) : String :=
  if n < 0 then "-" ++ Nat.repr n.natAbs else Nat.repr n.toNat

/-- The method `String.prototype.endsWith` for a one-character argument. -/
def endsWith (s : String) (c : Char) : Bool :=
  s.data.getLast? == some c

/-- The method `String.prototype.startsWith`. -/
def startsWith (s pre : String) : Bool :=
  pre.data.isPrefixOf s.data

/-- Position of the last occurrence of `c`, if there is one. -/
def lastIndexOf? (c : Char) : List Char → Option Nat
  | [] => none
  | x :: xs =>
    match lastIndexOf? c xs with
    | some i => some (i + 1)
    | none => if x = c then some 0 else none

/-- The method `String.prototype.lastIndexOf` for a one-character argument (`-1` when absent). -/
def lastIndexOf (s : String) (c : Char) : Int :=
  match lastIndexOf? c s.data with
  | some i => (i : Int)
  | none => -1

/-- Position of the first occurrence of `c`, if there is one. -/
def indexOf? (c : Char) : List Char → Option Nat
  | [] => none
  | x :: xs => if x = c then some 0 else (indexOf? c xs).map (· + 1)

/-- The method `String.prototype.indexOf` for a one-character argument (`-1` when absent). -/
def indexOf (s : String) (c : Char) : Int :=
  match indexOf? c s.data with
  | some i => (i : Int)
  | none => -1

/-- The method `String.prototype.substring(a, b)`: both bounds are clamped to the string and
swapped when out of order. -/
def substring (s : String) (a b : Int) : String :=
  let a := min a.toNat s.data.length
  let b := min b.toNat s.data.length
  String.mk ((s.data.take (max a b)).drop (min a b))

/-- The method `String.prototype.substring(a)` with one argument. -/
def substringFrom (s : String) (a : Int) : String :=
  String.mk (s.data.drop a.toNat)

/-- Splitting of a character list at every occurrence of `sep`; `cur` is the piece being read,
in reverse. -/
def splitAux (sep : Char) : List Char → List Char → List String
  | [], cur => [String.mk cur.reverse]
  | c :: cs, cur =>
    if c = sep then String.mk cur.reverse :: splitAux sep cs [] else splitAux sep cs (c :: cur)

/-- The method `String.prototype.split` for a one-character separator. -/
def split (s : String) (sep : Char) : List String :=
  splitAux sep s.data []

/-- Whether `c` is a decimal digit. -/
def isDigit (c : Char) : Bool :=
  decide (48 ≤ c.toNat) && decide (c.toNat ≤ 57)

/-- Value of the decimal digit `c`. -/
def digitOf (c : Char) : Nat :=
  c.toNat - 48

/-- Value of a run of decimal digits read left to right, starting from `acc`. -/
def digitsValue (acc : Nat) : List Char → Nat
  | [] => acc
  | c :: cs => digitsValue (acc * 10 + digitOf c) cs

/-- Whether `c` is white space skipped by `parseInt`. -/
def isSpace (c : Char) : Bool :=
  c = ' ' || c = '\t' || c = '\n' || c = '\r'

/-- The unsigned part of `parseInt`: the longest run of leading digits, `none` (NaN) when
there is no digit. -/
def parseNat (cs : List Char) : Option Nat :=
  match cs.takeWhile isDigit with
  | [] => none
  | ds => some (digitsValue 0 ds)

/-- The global function `parseInt` in radix 10: leading white space, an optional sign, then the
longest run of digits; `none` stands for NaN.  (Hexadecimal `0x` prefixes are outside the
embedded fragment.) -/
def parseInt (s : String) : Option Int :=
  match s.data.dropWhile isSpace with
  | '-' :: cs => (parseNat cs).map (fun n => -(n : Int))
  | '+' :: cs => (parseNat cs).map (fun n => (n : Int))
  | cs => (parseNat cs).map (fun n => (n : Int))

/-- Rendering of a number that may be NaN (`none`), as produced by a template literal. -/
def numToString : Option Int → String
  | some n => intToString n
  | none => "NaN"

/-- The function `Math.ceil(a / b)` for natural numbers `a` and a positive `b`. -/
def ceilDiv (a b : Nat) : Nat :=
  (a + (b - 1)) / b

end JS

namespace JVal

/-! ### Core operations on values -/

/-- Truthiness (the abstract operation `ToBoolean`). -/
def truthy : JVal → Bool
  | undef => false
  | null => false
  | bool b => b
  | num n => n ≠ 0
  | str s => s ≠ ""
  | _ => true

/-- Strict equality `===`.  Arrays, objects and functions are compared by reference in
JavaScript; the program only ever compares against primitives, so two such values are taken
to be distinct references. -/
def strictEq : JVal → JVal → Bool
  | undef, undef => true
  | null, null => true
  | bool a, bool b => a = b
  | num a, num b => a = b
  | str a, str b => a = b
  | _, _ => false

/-- The test `v === undefined`. -/
def isUndef : JVal → Bool
  | undef => true
  | _ => false

/-- The test `v === null`. -/
def isNull : JVal → Bool
  | null => true
  | _ => false

/-- The test `v == null` (true of `null` and `undefined`). -/
def isNullish : JVal → Bool
  | undef => true
  | null => true
  | _ => false

/-- Own property of an object literal, `undefined` when missing. -/
def lookup : List (String × JVal) → String → JVal
  | [], _ => undef
  | (k, v) :: rest, key => if k = key then v else lookup rest key

/-- Whether a property list has the key. -/
def hasKey : List (String × JVal) → String → Bool
  | [], _ => false
  | (k, _) :: rest, key => k = key || hasKey rest key

/-- The array index a property key stands for: the number whose decimal rendering is the key
(a canonical numeric string), if there is one. -/
def arrayIndex? (key : String) : Option Nat :=
  if Nat.repr (JS.digitsValue 0 key.data) = key then some (JS.digitsValue 0 key.data) else none

/-- Element of an array, `undefined` when out of range. -/
def elemAt : List JVal → Nat → JVal
  | [], _ => undef
  | x :: _, 0 => x
  | _ :: xs, i + 1 => elemAt xs i

/-- Property read `v[key]` on a value that is neither `null` nor `undefined`.  Properties
inherited from the prototypes are not part of the embedding, except `length`.  A string has
its characters at its indices. -/
def getKey : JVal → String → JVal
  | obj kvs, key => lookup kvs key
  | arr xs, key =>
    if key = "length" then num xs.length
    else match arrayIndex? key with
      | some i => elemAt xs i
      | none => undef
  | str s, key =>
    if key = "length" then num s.data.length
    else match arrayIndex? key with
      | some i =>
        match s.data[i]? with
        | some c => str (String.mk [c])
        | none => undef
      | none => undef
  | _, _ => undef

/-- The names of the properties that values inherit from the built-in prototypes of objects,
arrays, strings, numbers, booleans and functions (ECMAScript 2023 with its Annex B).  They
are not part of the embedding, and lodash `set` refuses the keys `__proto__`, `constructor`
and `prototype`; a statement that compares the reads before and after an assignment leaves
paths with these names aside. -/
def inheritedKeys : List String :=
  ["__proto__", "constructor", "prototype", "hasOwnProperty", "isPrototypeOf",
    "propertyIsEnumerable", "toLocaleString", "toString", "valueOf", "__defineGetter__",
    "__defineSetter__", "__lookupGetter__", "__lookupSetter__",
    "at", "concat", "copyWithin", "entries", "every", "fill", "filter", "find", "findIndex",
    "findLast", "findLastIndex", "flat", "flatMap", "forEach", "includes", "indexOf", "join",
    "keys", "lastIndexOf", "map", "pop", "push", "reduce", "reduceRight", "reverse", "shift",
    "slice", "some", "sort", "splice", "toReversed", "toSorted", "toSpliced", "unshift",
    "values", "with",
    "charAt", "charCodeAt", "codePointAt", "endsWith", "isWellFormed", "localeCompare",
    "match", "matchAll", "normalize", "padEnd", "padStart", "repeat", "replace", "replaceAll",
    "search", "split", "startsWith", "substring", "toLocaleLowerCase", "toLocaleUpperCase",
    "toLowerCase", "toUpperCase", "toWellFormed", "trim", "trimEnd", "trimStart", "anchor",
    "big", "blink", "bold", "fixed", "fontcolor", "fontsize", "italics", "link", "small",
    "strike", "sub", "substr", "sup", "trimLeft", "trimRight",
    "toExponential", "toFixed", "toPrecision",
    "apply", "bind", "call"]

/-- Property read `v.key`, which throws on `null` and `undefined`. -/
def prop (v : JVal) (key : String) : Except Err JVal :=
  if v.isNullish then .error .typeError else .ok (v.getKey key)

/-- Optional chaining `v?.key`. -/
def optProp (v : JVal) (key : String) : JVal :=
  if v.isNullish then undef else v.getKey key

/-- The method `hasOwnProperty` of an object. -/
def hasOwnProperty : JVal → String → Except Err Bool
  | obj kvs, key => .ok (hasKey kvs key)
  | arr xs, key =>
    .ok (key = "length" || match arrayIndex? key with
      | some i => decide (i < xs.length)
      | none => false)
  | str s, key =>
    .ok (key = "length" || match arrayIndex? key with
      | some i => decide (i < s.data.length)
      | none => false)
  | undef, _ => .error .typeError
  | null, _ => .error .typeError
  | _, _ => .ok false

/-- Assignment to a property of an object literal: an existing key keeps its place, a new key
goes last. -/
def setField : List (String × JVal) → String → JVal → List (String × JVal)
  | [], key, v => [(key, v)]
  | (k, w) :: rest, key, v => if k = key then (k, v) :: rest else (k, w) :: setField rest key v

/-- Assignment `o[key] = v` on a node or document object.  The source is a module, hence
strict code, in which assignment to a property of a primitive throws. -/
def setProp : JVal → String → JVal → Except Err JVal
  | obj kvs, key, v => .ok (obj (setField kvs key v))
  | arr _, _, _ => .error .unmodelled
  | fn _, _, _ => .error .unmodelled
  | _, _, _ => .error .typeError

/-- The function `Object.keys` (own keys in insertion order). -/
def keys : JVal → Except Err (List String)
  | obj kvs => .ok (kvs.map Prod.fst)
  | arr xs => .ok ((List.range xs.length).map Nat.repr)
  | str s => .ok ((List.range s.data.length).map Nat.repr)
  | undef => .error .typeError
  | null => .error .typeError
  | _ => .ok []

/-- The string a primitive value turns into inside a template literal. -/
def toStr : JVal → Except Err String
  | undef => .ok "undefined"
  | null => .ok "null"
  | bool true => .ok "true"
  | bool false => .ok "false"
  | num n => .ok (JS.intToString n)
  | str s => .ok s
  | _ => .error .unmodelled

/-- The receiver of a string method: anything but a string has no such method. -/
def asStr : JVal → Except Err String
  | str s => .ok s
  | _ => .error .typeError

/-- The receiver of an array method: anything but an array has no such method. -/
def asArr : JVal → Except Err (List JVal)
  | arr xs => .ok xs
  | _ => .error .typeError

/-- The method `Array.prototype.includes`. -/
def arrIncludes (xs : List JVal) (v : JVal) : Bool :=
  xs.any (fun x => strictEq x v)

/-- The call `v.includes(x)` on an array; `undefined` and `null` throw, other receivers are
outside the embedded fragment. -/
def includes : JVal → JVal → Except Err Bool
  | arr xs, v => .ok (arrIncludes xs v)
  | undef, _ => .error .typeError
  | null, _ => .error .typeError
  | _, _ => .error .unmodelled

/-- The operator `a || b`. -/
def or (a b : JVal) : JVal :=
  if a.truthy then a else b

/-- The operator `a ?? b`. -/
def nullish (a b : JVal) : JVal :=
  if a.isNullish then b else a

end JVal

/-! ## The lodash functions `get`, `set` and `cloneDeep` -/

namespace Lodash

/-- Whether `c` separates the segments of a path string. -/
def isDelim (c : Char) : Bool :=
  c = '.' || c = '[' || c = ']'

/-- The segment read so far (kept in reverse), if it is not empty. -/
def flush (cur : List Char) : List String :=
  if cur.isEmpty then [] else [String.mk cur.reverse]

/-- Segments of a path string: the maximal runs of characters other than `.`, `[` and `]`. -/
def stringToPathAux : List Char → List Char → List String
  | [], cur => flush cur
  | c :: cs, cur =>
    if isDelim c then flush cur ++ stringToPathAux cs [] else stringToPathAux cs (c :: cur)

/-- The lodash conversion of a path string into property keys, for paths written with dots and
bracketed indices (`a.b[0].c`).  Quoted keys, bracketed decimals and empty segments, which
lodash also accepts, are outside the embedded fragment; the empty string is the key `""`. -/
def stringToPath (s : String) : List String :=
  if s.data.isEmpty then [""] else stringToPathAux s.data []

/-- The lodash `castPath`: the keys a path argument stands for.  The program passes strings
and, when a path could not be resolved, `undefined`. -/
def castPath : JVal → List String
  | .str s => stringToPath s
  | JVal.undef => ["undefined"]
  | .null => ["null"]
  | .bool true => ["true"]
  | .bool false => ["false"]
  | .num n => [JS.intToString n]
  | _ => []

/-- The lodash `baseGet`: follow the keys while the value is neither `null` nor `undefined`. -/
def baseGet : JVal → List String → JVal
  | v, [] => v
  | v, k :: ks => if v.isNullish then JVal.undef else baseGet (v.getKey k) ks

/-- The lodash `get(object, path)`. -/
def get (object : JVal) (path : JVal) : JVal :=
  match castPath path with
  | [] => JVal.undef
  | ks => baseGet object ks

/-- The lodash `cloneDeep`: values of the embedding are immutable, so a deep copy is the value
itself; what matters is that later updates are made to the copy. -/
def cloneDeep (v : JVal) : JVal := v

/-- The lodash `isObject`. -/
def isObject : JVal → Bool
  | .arr _ => true
  | .obj _ => true
  | .fn _ => true
  | _ => false

/-- Assignment of an array element; the array is extended with `undefined` when needed. -/
def setElem : List JVal → Nat → JVal → List JVal
  | [], 0, v => [v]
  | [], i + 1, v => JVal.undef :: setElem [] i v
  | _ :: xs, 0, v => v :: xs
  | x :: xs, i + 1, v => x :: setElem xs i v

/-- Assignment `nested[key] = v` on an object or array; other values are left as they are. -/
def assignValue : JVal → String → JVal → JVal
  | .obj kvs, key, v => .obj (JVal.setField kvs key v)
  | .arr xs, key, v =>
    match JVal.arrayIndex? key with
    | some i => .arr (setElem xs i v)
    | none => .arr xs
  | o, _, _ => o

/-- The lodash `baseSet`: missing or primitive intermediate values are replaced by a fresh
array (when the next key is an index) or a fresh object. -/
def baseSet : JVal → List String → JVal → JVal
  | o, [], _ => o
  | o, [k], v => if isObject o then assignValue o k v else o
  | o, k :: k2 :: ks, v =>
    if isObject o then
      let cur := o.getKey k
      let child :=
        if isObject cur then cur
        else if (JVal.arrayIndex? k2).isSome then .arr [] else .obj []
      assignValue o k (baseSet child (k2 :: ks) v)
    else o

/-- The lodash `set(object, path, value)`; the updated object is returned. -/
def set (object : JVal) (path : JVal) (value : JVal) : JVal :=
  baseSet object (castPath path) value

/-- Replacement of the value of the first property named `key`. -/
def replaceField (f : JVal → JVal) : List (String × JVal) → String → List (String × JVal)
  | [], _ => []
  | (k, w) :: rest, key =>
    if k = key then (k, f w) :: rest else (k, w) :: replaceField f rest key

/-- Replacement of the element at position `i`. -/
def replaceElem (f : JVal → JVal) : List JVal → Nat → List JVal
  | [], _ => []
  | x :: xs, 0 => f x :: xs
  | x :: xs, i + 1 => x :: replaceElem f xs i

/-- In-place update of the value that `baseGet` reaches along `ks`: the source obtains a
reference with `get` and then mutates it (`splice`, `push`); here the document is rebuilt
around the updated value. -/
def modifyAt (f : JVal → JVal) : JVal → List String → JVal
  | v, [] => f v
  | .obj kvs, k :: ks => .obj (replaceField (fun w => modifyAt f w ks) kvs k)
  | .arr xs, k :: ks =>
    match JVal.arrayIndex? k with
    | some i => .arr (replaceElem (fun w => modifyAt f w ks) xs i)
    | none => .arr xs
  | v, _ :: _ => v

end Lodash

/-! ## Constants of `../constants` -/

/-- The constants `MODES` and `DATA_TYPES` that the source imports from `../constants`. The
module is not part of the sources at hand, so their values are parameters. -/
structure Consts where
  /-- the constant `MODES.EDIT` -/
  EDIT : String
  /-- the constant `DATA_TYPES.STRING`, and likewise below -/
  STRING : String
  NUMBER : String
  BOOLEAN : String
  ENUM : String
  OBJECT : String
  ARRAY : String
  INT32 : String
  INT64 : String
  INTEGER : String
  FLOAT : String
  DATE_TIME : String

/-- A sample instance of the constants, used to run the embedding on concrete inputs. -/
def sampleConsts : Consts where
  EDIT := "edit"
  STRING := "string"
  NUMBER := "number"
  BOOLEAN := "boolean"
  ENUM := "enum"
  OBJECT := "object"
  ARRAY := "array"
  INT32 := "int32"
  INT64 := "int64"
  INTEGER := "integer"
  FLOAT := "float"
  DATE_TIME := "date-time"

/-! ## `HeaderField.jsx` -/

namespace HeaderFieldJsx

/-- The icon buttons of the options menu; `xpath`, `ref` are the values of the attributes
`data-add` / `data-addcopy` / `data-remove` and `data-ref`. -/
inductive Control where
  /-- the button titled `Add`, carrying `data-add`, `data-ref` and `data-prop` -/
  | add (xpath : String) (ref : JVal) : Control
  /-- the button titled `Copy`, carrying `data-addcopy`, `data-ref` and `data-prop` -/
  | copy (xpath : String) (ref : JVal) : Control
  /-- the button titled `Remove`, carrying `data-remove` -/
  | remove (xpath : String) : Control


/-- What `HeaderOptions` returns. -/
inductive Rendered where
  /-- the component returned `null` -/
  | nothing : Rendered
  /-- the closed state: only the `More Options` icon -/
  | moreOptions : Rendered
  /-- the open menu with its buttons, in document order -/
  | menu (controls : List Control) : Rendered


/-- The flags `add` and `remove` that `HeaderField` computes from its node (`props.data`) and
hands to `HeaderOptions`. -/
def headerFlags (C : Consts) (data : JVal) : Bool × Bool :=
  let add := false
  let remove := false
  if (data.getKey "mode").strictEq (.str C.EDIT) then
    let (add, remove) :=
      if (data.getKey "type").strictEq (.str C.ARRAY) && !(data.getKey "data-remove").truthy
          && !(data.getKey "uiUpdateOnly").truthy then (true, true) else (add, remove)
    if (data.getKey "type").strictEq (.str C.OBJECT) && !(data.getKey "required").truthy then
      let add := if (data.getKey "object-add").truthy then true else add
      let remove := if (data.getKey "object-remove").truthy then true else remove
      (add, remove)
    else (add, remove)
  else (add, remove)

/-- The component `HeaderOptions`. -/
def HeaderOptions (add remove showMenu : Bool) (metadata : JVal) : Except Err Rendered := do
  let xpath ← (metadata.getKey "xpath").asStr
  let ref := metadata.getKey "ref"
  let isChild := JS.endsWith xpath ']'
  let showAdd := add && !isChild
  let showCopy := add && isChild
  let showRemove := remove && isChild
  if showAdd || showCopy || showRemove then
    if showMenu then
      return .menu
        ((if showAdd then [Control.add xpath ref] else [])
          ++ (if showCopy then [Control.copy xpath ref] else [])
          ++ (if showRemove then [Control.remove xpath] else []))
    else
      return .moreOptions
  else
    return .nothing

/-- The options part of the component `HeaderField`: the flags computed from the node are
passed to `HeaderOptions` together with the state `showOptions`. -/
def HeaderField (C : Consts) (data : JVal) (showOptions : Bool) : Except Err Rendered :=
  HeaderOptions (headerFlags C data).1 (headerFlags C data).2 showOptions data

/-- Whether the rendered menu holds an `Add` button. -/
def Rendered.hasAdd : Rendered → Bool
  | .menu cs => cs.any (fun c => match c with | .add _ _ => true | _ => false)
  | _ => false

/-- Whether the rendered menu holds a `Copy` button. -/
def Rendered.hasCopy : Rendered → Bool
  | .menu cs => cs.any (fun c => match c with | .copy _ _ => true | _ => false)
  | _ => false

/-- Whether the rendered menu holds a `Remove` button. -/
def Rendered.hasRemove : Rendered → Bool
  | .menu cs => cs.any (fun c => match c with | .remove _ => true | _ => false)
  | _ => false

/-- Whether the component returned `null`. -/
def Rendered.isNothing : Rendered → Bool
  | .nothing => true
  | _ => false

/-- A sample node: an optional object in edit mode whose data is present (`object-remove`),
at the path `a.b`. -/
def optionalObjectNode : JVal :=
  .obj [("mode", .str "edit"), ("type", .str "object"), ("required", .bool false),
    ("object-remove", .bool true), ("xpath", .str "a.b")]

end HeaderFieldJsx

/-! ## `DataTree.jsx`: the click handler -/

namespace DataTreeJsx

/-- The functions that `DataTree.jsx` imports from `../../../utils`, and `JSON.parse`.  The
module is not part of the sources at hand, so the functions are parameters; each may throw. -/
structure Utils where
  /-- the call `getDataxpath(data, xpath)`, the working-copy path of a logical path -/
  getDataxpath : JVal → String → Except Err JVal
  /-- the call `generateObjectFromSchema(schema, currentSchema, additionalProps, null, obj)`;
  the last two arguments are absent (`none`) in the add branch -/
  generateObjectFromSchema : JVal → JVal → JVal → Option JVal → Except Err JVal
  /-- the call `addxpath(obj, xpath)`, which stamps an element with its logical path -/
  addxpath : JVal → String → Except Err JVal
  /-- the call `clearxpath(obj)` -/
  clearxpath : JVal → Except Err JVal
  /-- the call `clearId(obj)`, which updates its argument in place -/
  clearId : JVal → Except Err JVal
  /-- the call `JSON.parse(text)` -/
  jsonParse : String → Except Err JVal

/-- The attributes of `e.currentTarget` that the handler reads; `none` is an absent attribute,
`some v` an attribute with value `v`. -/
structure Attrs where
  dataRemove : Option String := none
  dataAdd : Option String := none
  dataAddcopy : Option String := none
  dataRef : Option String := none
  dataProp : Option String := none
  dataOpen : Option String := none
  dataClose : Option String := none

/-- The props and state of the component that the click handler reads. -/
structure Props where
  projectSchema : JVal
  updatedData : JVal
  storedData : JVal

/-- The calls the handler makes to its environment, in the order made. -/
inductive Effect where
  /-- the call `handleExpand(e)` of the tree view -/
  | handleExpand : Effect
  /-- the call `onUpdate(updatedObj, action)` -/
  | onUpdate (updatedObj : JVal) (action : String) : Effect
  /-- the call `setTreeState(xpath, value)` -/
  | setTreeState (xpath : String) (value : Bool) : Effect

/-- Whether the effect is a call of `onUpdate`. -/
def Effect.isUpdate : Effect → Bool
  | .onUpdate _ _ => true
  | _ => false

/-- What a run of the handler did: the calls made, and the exception that ended it, if any. -/
structure Outcome where
  effects : List Effect
  thrown : Option Err

/-- The value of an attribute that must be present (`attrs[name].value`). -/
def attrValue : Option String → Except Err String
  | some v => .ok v
  | none => .error .typeError

/-- The method `Array.prototype.splice(index, 1)`; `none` (NaN) counts as `0` and a negative
index counts from the end. -/
def splice1 (xs : List JVal) (index : Option Int) : List JVal :=
  match index with
  | none => xs.eraseIdx 0
  | some i => if i < 0 then xs.eraseIdx (xs.length - i.natAbs) else xs.eraseIdx i.toNat

/-- The update `parentObject.splice(index, 1)` of the array reached through `get`. -/
def spliceItem (index : Option Int) : JVal → JVal
  | .arr xs => .arr (splice1 xs index)
  | v => v

/-- The update `parentObject.push(item)` of the array reached through `get`. -/
def appendItem (item : JVal) : JVal → JVal
  | .arr xs => .arr (xs ++ [item])
  | v => v

/-- The comparison `v > 0` on the value of a `length` property. -/
def gtZero : JVal → Except Err Bool
  | .num n => .ok (decide (0 < n))
  | JVal.undef => .ok false
  | .null => .ok false
  | .bool b => .ok b
  | _ => .error .unmodelled

/-- The conversion `ToNumber` on the value `length || 0`; `none` stands for NaN. -/
def toNumber : JVal → Except Err (Option Int)
  | .num n => .ok (some n)
  | JVal.undef => .ok none
  | .null => .ok (some 0)
  | .bool b => .ok (some (if b then 1 else 0))
  | _ => .error .unmodelled

/-- The function `Math.max` of two numbers, NaN if either is NaN. -/
def mathMax : Option Int → Option Int → Option Int
  | some a, some b => some (max a b)
  | _, _ => none

/-- The schema a reference such as `#/definitions/name` points to:
`ref.length === 2 ? projectSchema[ref[1]] : projectSchema[ref[1]][ref[2]]`. -/
def resolveRef (projectSchema : JVal) (ref : List String) : Except Err JVal :=
  let key (i : Nat) : String := (ref.get? i).getD "undefined"
  if ref.length = 2 then projectSchema.prop (key 1)
  else do
    let s ← projectSchema.prop (key 1)
    s.prop (key 2)

/-- The test `currentSchema.hasOwnProperty('enum') && Object.keys(currentSchema).length === 1`. -/
def isEnumOnly (currentSchema : JVal) : Except Err Bool := do
  if ← currentSchema.hasOwnProperty "enum" then
    return (← currentSchema.keys).length = 1
  else
    return false

/-- The index following the logical index of the last element of `parentObject`:
the statements
`let parentindex = 0; if (parentObject.length > 0) { ... parentindex = parseInt(...) + 1; }`
shared by the add and the duplicate branch. -/
def nextParentIndex (parentObject : JVal) : Except Err (Option Int) := do
  let len ← parentObject.prop "length"
  if ← gtZero len then
    let lastKey ← match len with
      | .num n => pure (JS.intToString (n - 1))
      | _ => .error .unmodelled
    let last := parentObject.getKey lastKey
    let propname := ((← last.keys).find? (fun key => JS.startsWith key "xpath_")).getD "undefined"
    let propxpath ← (last.getKey propname).asStr
    return (JS.parseInt (JS.substring propxpath (JS.lastIndexOf propxpath '[' + 1)
      (JS.lastIndexOf propxpath ']'))).map (· + 1)
  else
    return some 0

/-- The call `parentObject.push(item)` on the value found at `path` of `updatedObj`; the
document with the longer array is returned. -/
def pushAt (updatedObj : JVal) (path : JVal) (parentObject : JVal) (item : JVal) :
    Except Err JVal :=
  match parentObject with
  | .arr _ => .ok (Lodash.modifyAt (appendItem item) updatedObj (Lodash.castPath path))
  | _ => .error .typeError

/-- The statements
`let parentObject = get(updatedObj, path); if (!parentObject) { set(updatedObj, path, []);
parentObject = get(updatedObj, path); }`; the document and the array are returned. -/
def ensureArray (updatedObj : JVal) (path : JVal) : JVal × JVal :=
  let parentObject := Lodash.get updatedObj path
  if !parentObject.truthy then
    let updatedObj := Lodash.set updatedObj path (.arr [])
    (updatedObj, Lodash.get updatedObj path)
  else (updatedObj, parentObject)

/-- The branch `REMOVE` of `handleClick` after its guard: the document passed to `onUpdate`. -/
def removeElement (U : Utils) (P : Props) (xpathAttr : String) : Except Err JVal := do
  let updatedObj := Lodash.cloneDeep P.updatedData
  let xpath ← (← U.getDataxpath updatedObj xpathAttr).asStr
  let index := JS.parseInt (JS.substring xpath (JS.lastIndexOf xpath '[' + 1)
    (JS.lastIndexOf xpath ']'))
  let parentxpath := JS.substring xpath 0 (JS.lastIndexOf xpath '[')
  let _parentObject ← (Lodash.get updatedObj (.str parentxpath)).asArr
  return Lodash.modifyAt (spliceItem index) updatedObj (Lodash.castPath (.str parentxpath))

/-- The branch `ADD` of `handleClick` after its guard: the document passed to `onUpdate`. -/
def addElement (C : Consts) (U : Utils) (P : Props) (attrs : Attrs) (xpathAttr : String) :
    Except Err JVal := do
  let updatedObj := Lodash.cloneDeep P.updatedData
  let xpath ← U.getDataxpath updatedObj xpathAttr
  let ref ← attrValue attrs.dataRef
  if JVal.arrIncludes [.str C.NUMBER, .str C.STRING] (.str ref) then
    let (updatedObj, parentObject) := ensureArray updatedObj xpath
    pushAt updatedObj xpath parentObject .null
  else
    let ref := JS.split ref '/'
    let currentSchema ← resolveRef P.projectSchema ref
    let additionalProps ← U.jsonParse (← attrValue attrs.dataProp)
    if ← isEnumOnly currentSchema then
      let parentObject := Lodash.get updatedObj xpath
      pushAt updatedObj xpath parentObject (← (← currentSchema.prop "enum").prop "0")
    else
      let originalindex := ((Lodash.get P.storedData xpath).optProp "length").or (.num 0)
      let (updatedObj, parentObject) := ensureArray updatedObj xpath
      let parentindex ← nextParentIndex parentObject
      let max := mathMax (← toNumber originalindex) parentindex
      let emptyObject ←
        U.generateObjectFromSchema P.projectSchema (Lodash.cloneDeep currentSchema)
          additionalProps none
      let emptyObject ← U.addxpath emptyObject ((← xpath.toStr) ++ "[" ++ JS.numToString max ++ "]")
      pushAt updatedObj xpath parentObject emptyObject

/-- The branch `DUPLICATE` of `handleClick` after its guard: the document passed to
`onUpdate`, or `none` when the handler returns early because there is nothing to copy. -/
def duplicateElement (U : Utils) (P : Props) (attrs : Attrs) (xpathAttr : String) :
    Except Err (Option JVal) := do
  let updatedObj := Lodash.cloneDeep P.updatedData
  let xpath ← U.getDataxpath updatedObj xpathAttr
  let ref ← attrValue attrs.dataRef
  let storedObj := Lodash.cloneDeep (Lodash.get updatedObj xpath)
  if !storedObj.truthy then return none
  let storedObj ← U.clearxpath storedObj
  let storedObj ← U.clearId storedObj
  let xpath ← xpath.asStr
  let parentxpath := JS.substring xpath 0 (JS.lastIndexOf xpath '[')
  let (updatedObj, parentObject) := ensureArray updatedObj (.str parentxpath)
  let originalindex := ((Lodash.get P.storedData (.str parentxpath)).optProp "length").or (.num 0)
  let parentindex ← nextParentIndex parentObject
  let max := mathMax (← toNumber originalindex) parentindex
  let ref := JS.split ref '/'
  let currentSchema ← resolveRef P.projectSchema ref
  let additionalProps ← U.jsonParse (← attrValue attrs.dataProp)
  let dupObj ←
    U.generateObjectFromSchema P.projectSchema (Lodash.cloneDeep currentSchema)
      additionalProps (some storedObj)
  let dupObj ← U.addxpath dupObj (parentxpath ++ "[" ++ JS.numToString max ++ "]")
  return some (← pushAt updatedObj (.str parentxpath) parentObject dupObj)

/-- The outcome of a branch that ends with `onUpdate(updatedObj, action)`. -/
def finish (action : String) : Except Err JVal → Outcome
  | .ok updatedObj => ⟨[.handleExpand, .onUpdate updatedObj action], none⟩
  | .error e => ⟨[.handleExpand], some e⟩

/-- The function `handleClick` of the node renderer; `currentTarget` is `e.currentTarget`. -/
def handleClick (C : Consts) (U : Utils) (P : Props) (currentTarget : Option Attrs) : Outcome :=
  match currentTarget with
  | none => ⟨[], none⟩
  | some attrs =>
    match attrs.dataRemove with
    | some xpathAttr =>
      let isArrayChild := JS.endsWith xpathAttr ']'
      if !isArrayChild then ⟨[.handleExpand], none⟩
      else finish "remove" (removeElement U P xpathAttr)
    | none =>
    match attrs.dataAdd with
    | some xpathAttr =>
      let isContainer := !JS.endsWith xpathAttr ']'
      if !isContainer then ⟨[.handleExpand], none⟩
      else finish "add" (addElement C U P attrs xpathAttr)
    | none =>
    match attrs.dataAddcopy with
    | some xpathAttr =>
      let isArrayChild := JS.endsWith xpathAttr ']'
      if !isArrayChild then ⟨[.handleExpand], none⟩
      else
        match duplicateElement U P attrs xpathAttr with
        | .ok none => ⟨[.handleExpand], none⟩
        | .ok (some updatedObj) => ⟨[.handleExpand, .onUpdate updatedObj "add"], none⟩
        | .error e => ⟨[.handleExpand], some e⟩
    | none =>
    match attrs.dataOpen, attrs.dataClose with
    | some v, _ => ⟨[.handleExpand, .setTreeState v true], none⟩
    | none, some v => ⟨[.handleExpand, .setTreeState v false], none⟩
    | none, none => ⟨[.handleExpand], none⟩

/-- The built-in functions `Number` and `isNaN`.  Numbers other than integers are not values
of the embedding, so the two functions are parameters. -/
structure Builtins where
  /-- the conversion `Number(value)` -/
  number : JVal → JVal
  /-- the test `isNaN(value)` -/
  isNaN : JVal → Bool

/-- The props and state that the form handlers read: the working copy, and whether the
optional callbacks `onUpdate` and `onUserChange` were provided. -/
structure FormProps where
  updatedData : JVal
  onUpdate : Bool
  onUserChange : Bool

/-- The calls the form handlers make to their environment, in the order made. -/
inductive FormEffect where
  /-- the call `onUpdate(updatedObj)` -/
  | onUpdate (updatedObj : JVal) : FormEffect
  /-- the call `onUserChange(xpath, value, validationRes, null)` -/
  | onUserChange (xpath value validationRes : JVal) : FormEffect

/-- The function `handleFormUpdate`; an absent `validationRes` takes the default `null`. -/
def handleFormUpdate (F : FormProps) (xpath dataxpath value validationRes : JVal) :
    List FormEffect :=
  let validationRes := if validationRes.isUndef then JVal.null else validationRes
  let updatedObj := Lodash.cloneDeep F.updatedData
  let updatedObj := Lodash.set updatedObj dataxpath value
  (if F.onUpdate then [FormEffect.onUpdate updatedObj] else [])
    ++ (if F.onUserChange then [FormEffect.onUserChange xpath value validationRes] else [])

/-- The function `handleTextChange`. -/
def handleTextChange (C : Consts) (B : Builtins) (F : FormProps)
    (type xpath value dataxpath validationRes : JVal) : List FormEffect :=
  let value := if value.strictEq (.str "") then JVal.null else value
  let value :=
    if type.strictEq (.str C.NUMBER) then
      if !value.isNull then B.number value else value
    else value
  if type.strictEq (.str C.STRING) || (type.strictEq (.str C.NUMBER) && !B.isNaN value) then
    handleFormUpdate F xpath dataxpath value validationRes
  else []

/-- A sample instance of what `DataTree.jsx` imports, used to run the embedding on concrete
inputs: the working-copy path of a logical path is the path itself, a generated object is
the copied object or else an object with the one field `name`, and `addxpath` stamps the
field `xpath_name`. -/
def sampleUtils : Utils where
  getDataxpath := fun _ xpath => .ok (.str xpath)
  generateObjectFromSchema := fun _ _ _ stored => .ok (stored.getD (.obj [("name", .null)]))
  addxpath := fun o xpath => o.setProp "xpath_name" (.str (xpath ++ ".name"))
  clearxpath := fun o => .ok o
  clearId := fun o => .ok o
  jsonParse := fun _ => .ok (.obj [])

/-- A sample of the props of the component: a list `items` with one stored element and a
second element added in the working copy. -/
def sampleProps : Props where
  projectSchema := .obj [("definitions", .obj [("item", .obj [("type", .str "object"),
    ("properties", .obj [("name", .obj [("type", .str "string")])])])])]
  updatedData := .obj [("items", .arr [
    .obj [("name", .str "a"), ("xpath_name", .str "items[0].name")],
    .obj [("name", .str "b"), ("xpath_name", .str "items[1].name")]])]
  storedData := .obj [("items", .arr [
    .obj [("name", .str "a"), ("xpath_name", .str "items[0].name")]])]

/-- The attributes of the Add button of the container `items`. -/
def sampleAddAttrs : Attrs where
  dataAdd := some "items"
  dataRef := some "#/definitions/item"
  dataProp := some "\x7b\x7d"

/-- The attributes of the Copy button of the element `items[1]`. -/
def sampleCopyAttrs : Attrs where
  dataAddcopy := some "items[1]"
  dataRef := some "#/definitions/item"
  dataProp := some "\x7b\x7d"

end DataTreeJsx

/-! ## `treeHelper.js`: generation of the tree -/

namespace TreeHelper

/-- The constant `ITEMS_PER_PAGE` of `treeHelper.js`: number of array items per page. -/
def ITEMS_PER_PAGE : Nat := 5

/-- The argument `callerProps` of `generateTreeStructure`. -/
structure CallerProps where
  data : JVal
  originalData : JVal
  mode : JVal
  isOpen : JVal := JVal.undef
  hide : JVal := JVal.undef
  showDataType : JVal := JVal.undef
  subtree : JVal := JVal.undef
  xpath : JVal := JVal.undef
  index : JVal := JVal.undef
  forceUpdate : JVal := JVal.undef
  onTextChange : JVal := JVal.undef
  onFormUpdate : JVal := JVal.undef
  onSelectItemChange : JVal := JVal.undef
  onCheckboxChange : JVal := JVal.undef
  onAutocompleteOptionChange : JVal := JVal.undef
  onDateTimeChange : JVal := JVal.undef

/-- What `treeHelper.js` imports from `../utils`.  The module is not part of the sources at
hand, so its constants and functions are parameters; each function may throw. -/
structure Utils where
  /-- the array `primitiveDataTypes` -/
  primitiveDataTypes : List JVal
  /-- the array `fieldProps`, as pairs of `propertyName` and `usageName` -/
  fieldProps : List (String × String)
  /-- the array `complexFieldProps`, as pairs of `propertyName` and `usageName` -/
  complexFieldProps : List (String × String)
  /-- the call `getModelSchema(name, schema)` -/
  getModelSchema : JVal → JVal → Except Err JVal
  /-- the call `getEnumValues(schema, ref, type)` -/
  getEnumValues : JVal → List String → JVal → Except Err JVal
  /-- the call `hasxpath(data, xpath)` -/
  hasxpath : JVal → JVal → Except Err JVal
  /-- the call `setAutocompleteValue(schema, node, dict, key, usageName)`, which updates the
  node in place; the updated node is returned -/
  setAutocompleteValue : JVal → JVal → JVal → JVal → String → Except Err JVal
  /-- the call `getDataxpath(data, xpath)` -/
  getDataxpath : JVal → JVal → Except Err JVal
  /-- the call `isNodeInSubtree(callerProps, xpath, dataxpath)` -/
  isNodeInSubtree : CallerProps → JVal → JVal → Except Err JVal
  /-- the call `getAutocompleteDict(value)` -/
  getAutocompleteDict : JVal → Except Err JVal
  /-- the call `getMetaFieldDict(value)` -/
  getMetaFieldDict : JVal → Except Err JVal
  /-- the call `getMappingSrcDict(value)` -/
  getMappingSrcDict : JVal → Except Err JVal
  /-- the call `compareNodes(originalData, data, dataxpath, propname, xpath)` -/
  compareNodes : JVal → JVal → JVal → JVal → JVal → Except Err JVal

/-- The object `treeState` imported from `../utils`: the recorded open/closed state per path.
The source updates it in place; here it is passed and returned. -/
abbrev TreeState := List (String × JVal)

/-- An array of tree nodes, such as `tree` or the `children` of a header node. -/
abbrev Tree := List JVal

/-- Concatenation inside a template literal: the text of `v` followed by `s`. -/
def tpl (v : JVal) (s : String) : Except Err String := do
  return (← v.toStr) ++ s

/-- The text `[i]` of an index. -/
def bracket (i : String) : String := "[" ++ i ++ "]"

/-- The method `String.prototype.endsWith` for a string argument. -/
def endsWithStr (s suffix : String) : Bool :=
  suffix.data.reverse.isPrefixOf s.data.reverse

/-- The loop `list.forEach(({ propertyName, usageName }) => { if (test) node[usageName] =
source[propertyName]; })` with the test `source[propertyName]` (truthiness). -/
def copyTruthyProps (props : List (String × String)) (source : JVal) (node : JVal) :
    Except Err JVal :=
  props.foldlM (fun node (p : String × String) => do
    let v ← source.prop p.1
    if v.truthy then node.setProp p.2 v else pure node) node

/-- The function `determineHeaderState`. -/
def determineHeaderState (data originalData xpath currentSchema : JVal) : Except Err JVal := do
  let headerState := JVal.obj []
  if (Lodash.get originalData xpath).isUndef then
    if (Lodash.get data xpath).isNull then
      let headerState ← headerState.setProp "add" (.bool true)
      headerState.setProp "remove" (.bool false)
    else
      let headerState ← headerState.setProp "add" (.bool false)
      headerState.setProp "remove" (.bool true)
  else if ← currentSchema.hasOwnProperty "orm_no_update" then
    if !(Lodash.get originalData xpath).isUndef then
      let headerState ← headerState.setProp "add" (.bool false)
      headerState.setProp "remove" (.bool false)
    else
      return headerState
  else if !(← currentSchema.hasOwnProperty "orm_no_update") then
    if (Lodash.get data xpath).isNull then
      let headerState ← headerState.setProp "add" (.bool true)
      headerState.setProp "remove" (.bool false)
    else
      let headerState ← headerState.setProp "add" (.bool false)
      headerState.setProp "remove" (.bool true)
  else
    return headerState

/-- The statements of `addHeaderNode` that keep the expand/collapse state: the new record and
the value of `headerNode.isOpen`. -/
def updateTreeState (treeState : TreeState) (xpath : String) (isOpen : JVal) :
    TreeState × JVal :=
  let treeState :=
    if JVal.hasKey treeState xpath then
      JVal.setField treeState xpath
        (if isOpen.truthy then .bool true
         else if isOpen.strictEq (.bool false) then .bool false
         else JVal.lookup treeState xpath)
    else
      JVal.setField treeState xpath (.bool true)
  (treeState, JVal.lookup treeState xpath)

/-- The header object as `addHeaderNode` builds it, up to the statements that keep the
expand/collapse state.  `objectState` is `undefined` when the argument is absent. -/
def newHeaderNode (U : Utils) (currentSchema propname type : JVal) (callerProps : CallerProps)
    (dataxpath xpath ref objectState : JVal) : Except Err JVal := do
  let headerNode := JVal.obj [
    ("id", .rand),
    ("key", propname),
    ("title", ← currentSchema.prop "title"),
    ("name", propname),
    ("type", type),
    ("ref", ref),
    ("help", ← currentSchema.prop "help"),
    ("mode", callerProps.mode),
    ("xpath", xpath),
    ("children", .arr [])]
  let headerNode ← copyTruthyProps U.fieldProps currentSchema headerNode
  let headerNode ← copyTruthyProps U.complexFieldProps currentSchema headerNode
  let required ←
    if !ref.truthy then pure (JVal.bool true)
    else if (currentSchema.getKey "required").truthy then
      pure (JVal.bool (← (currentSchema.getKey "required").includes propname))
    else pure (JVal.bool true)
  let headerNode ← headerNode.setProp "required" required
  let headerNode ← headerNode.setProp "uiUpdateOnly" (currentSchema.getKey "ui_update_only")
  let headerNode ← if !dataxpath.truthy then headerNode.setProp "data-remove" (.bool true)
    else pure headerNode
  if objectState.truthy then do
    let headerNode ← if (objectState.getKey "add").truthy
      then headerNode.setProp "object-add" (.bool true) else pure headerNode
    if (objectState.getKey "remove").truthy
      then headerNode.setProp "object-remove" (.bool true) else pure headerNode
  else pure headerNode

/-- The function `addHeaderNode`, without its last two statements: the source pushes the new
header onto `node` and returns the array `headerNode.children`, into which the callers then
push; here the header (with its children still empty) is returned and the caller installs the
children and appends the header.  A header whose `children` were replaced through
`fieldProps` is outside the embedded fragment. -/
def addHeaderNode (U : Utils) (currentSchema propname type : JVal) (callerProps : CallerProps)
    (dataxpath xpath ref objectState : JVal) (treeState : TreeState) :
    Except Err (JVal × TreeState) := do
  let headerNode ←
    newHeaderNode U currentSchema propname type callerProps dataxpath xpath ref objectState
  let key ← xpath.toStr
  let headerNode ← headerNode.setProp "isOpen" (updateTreeState treeState key callerProps.isOpen).2
  match headerNode.getKey "children" with
  | .arr [] => return (headerNode, (updateTreeState treeState key callerProps.isOpen).1)
  | _ => .error .unmodelled

/-- Installation of the children of a header once they are all there, and the push of the
header onto the array it belongs to. -/
def pushHeader (tree : Tree) (headerNode : JVal) (children : Tree) : Except Err Tree := do
  return tree ++ [← headerNode.setProp "children" (.arr children)]

/-- The function `addPrimitiveNode`; the array with the new node pushed is returned. -/
def addPrimitiveNode (C : Consts) (tree : Tree) (type dataxpath xpath : JVal)
    (callerProps : CallerProps) (additionalProps : JVal) : Except Err Tree := do
  let node := JVal.obj [
    ("id", dataxpath),
    ("required", .bool true),
    ("xpath", xpath),
    ("dataxpath", dataxpath),
    ("onTextChange", callerProps.onTextChange),
    ("onFormUpdate", callerProps.onFormUpdate),
    ("mode", callerProps.mode),
    ("showDataType", callerProps.showDataType),
    ("type", type),
    ("underlyingtype", ← additionalProps.prop "underlyingtype"),
    ("value", if dataxpath.truthy then Lodash.get callerProps.data dataxpath else JVal.undef)]
  let node ←
    if type.strictEq (.str C.ENUM) then do
      let node ← node.setProp "dropdowndataset" (additionalProps.getKey "options")
      node.setProp "onSelectItemChange" callerProps.onSelectItemChange
    else pure node
  return tree ++ [node]

/-- The function `createSimpleNode`. -/
def createSimpleNode (U : Utils) (propname dataxpath xpath data currentSchema : JVal)
    (callerProps : CallerProps) : Except Err JVal := do
  let key ← propname.toStr
  let required ← (← currentSchema.prop "required").includes propname
  let nodeXpath ← if xpath.truthy then pure (JVal.str ((← xpath.toStr) ++ "." ++ key))
    else pure propname
  let nodeDataxpath ← if dataxpath.truthy then pure (JVal.str ((← dataxpath.toStr) ++ "." ++ key))
    else pure propname
  let parentcollection ← currentSchema.prop "title"
  let value ←
    if dataxpath.truthy then
      if (← U.hasxpath data dataxpath).truthy then (Lodash.get data dataxpath).prop key
      else pure JVal.undef
    else data.prop key
  return JVal.obj [
    ("id", propname),
    ("key", propname),
    ("required", .bool required),
    ("xpath", nodeXpath),
    ("dataxpath", nodeDataxpath),
    ("parentcollection", parentcollection),
    ("onTextChange", callerProps.onTextChange),
    ("onFormUpdate", callerProps.onFormUpdate),
    ("mode", callerProps.mode),
    ("showDataType", callerProps.showDataType),
    ("index", callerProps.index),
    ("forceUpdate", callerProps.forceUpdate),
    ("value", value)]

/-- The function `shouldAddNode`. -/
def shouldAddNode (C : Consts) (node : JVal) (callerProps : CallerProps) : Bool :=
  if ((node.getKey "serverPopulate").truthy && callerProps.mode.strictEq (.str C.EDIT))
      || ((node.getKey "hide").truthy && callerProps.hide.truthy)
      || ((node.getKey "uiUpdateOnly").truthy && (node.getKey "value").isUndef) then
    false
  else if (node.getKey "type").strictEq (.str C.BOOLEAN) && (node.getKey "button").truthy
      && callerProps.mode.strictEq (.str C.EDIT) then
    false
  else
    true

/-- The call `Object.assign(node, props)`. -/
def objectAssign (node : JVal) (props : JVal) : Except Err JVal :=
  match props with
  | .obj kvs => kvs.foldlM (fun node (kv : String × JVal) => node.setProp kv.1 kv.2) node
  | JVal.undef => pure node
  | .null => pure node
  | .bool _ => pure node
  | .num _ => pure node
  | _ => .error .unmodelled

/-- The loop `for (const field in dict) { if (node.xpath.endsWith(field)) node[usageName] =
dict[field]; }` of `addNodeProperties`. -/
def applyMappingDict (node : JVal) (dict : JVal) (usageName : String) : Except Err JVal :=
  match dict with
  | .obj kvs =>
    kvs.foldlM (fun node (kv : String × JVal) => do
      if endsWithStr (← (← node.prop "xpath").asStr) kv.1 then
        node.setProp usageName (JVal.lookup kvs kv.1)
      else pure node) node
  | JVal.undef => pure node
  | .null => pure node
  | .bool _ => pure node
  | .num _ => pure node
  | _ => .error .unmodelled

/-- The branch `propertyName === 'auto_complete'` of `addNodeProperties`. -/
def applyAutocomplete (C : Consts) (U : Utils) (node propertyValue schema data : JVal)
    (callerProps : CallerProps) (usageName : String) : Except Err JVal := do
  let autocompleteDict ← U.getAutocompleteDict propertyValue
  let node ← U.setAutocompleteValue schema node autocompleteDict (← node.prop "key") usageName
  if (← node.prop "options").truthy then
    let node ←
      if ← node.hasOwnProperty "dynamic_autocomplete" then do
        let autocomplete ← (node.getKey "autocomplete").asStr
        let dynamicValuePath := JS.substringFrom autocomplete (JS.indexOf autocomplete '.' + 1)
        let dynamicValue := Lodash.get data (.str dynamicValuePath)
        if dynamicValue.truthy then
          let table ← schema.prop "autocomplete"
          if ← table.hasOwnProperty (← dynamicValue.toStr) then
            let options := table.getKey (← (table.getKey (← dynamicValue.toStr)).toStr)
            let node ← node.setProp "options" options
            if !(← options.includes (node.getKey "value"))
                && callerProps.mode.strictEq (.str C.EDIT)
                && !(node.getKey "ormNoUpdate").truthy
                && !(node.getKey "serverPopulate").truthy then
              node.setProp "value" .null
            else pure node
          else pure node
        else pure node
      else pure node
    let node ← node.setProp "customComponentType" (.str "autocomplete")
    node.setProp "onAutocompleteOptionChange" callerProps.onAutocompleteOptionChange
  else pure node

/-- The option list of an enum leaf, the statements under
`if (attributes.type === DATA_TYPES.ENUM)` in `addNodeProperties`. -/
def applyEnum (C : Consts) (U : Utils) (node attributes schema : JVal)
    (callerProps : CallerProps) : Except Err JVal := do
  let node ← node.setProp "onSelectItemChange" callerProps.onSelectItemChange
  if (attributes.getKey "enum").truthy then
    node.setProp "dropdowndataset" (attributes.getKey "enum")
  else if (attributes.getKey "$ref").truthy then
    let ref := JS.split (← (attributes.getKey "$ref").asStr) '/'
    node.setProp "dropdowndataset" (← U.getEnumValues schema ref (.str C.ENUM))
  else if (attributes.getKey "items").truthy
      && ((attributes.getKey "items").getKey "$ref").truthy then
    let ref := JS.split (← ((attributes.getKey "items").getKey "$ref").asStr) '/'
    node.setProp "dropdowndataset" (← U.getEnumValues schema ref (.str C.ENUM))
  else pure node

/-- The function `addNodeProperties`; the updated node is returned. -/
def addNodeProperties (C : Consts) (U : Utils) (node attributes currentSchema schema data : JVal)
    (callerProps : CallerProps) : Except Err JVal := do
  let node ← U.fieldProps.foldlM (fun node (p : String × String) => do
    if ← attributes.hasOwnProperty p.1 then node.setProp p.2 (attributes.getKey p.1)
    else pure node) node
  let node ← U.complexFieldProps.foldlM (fun node (p : String × String) => do
    let present ← if ← currentSchema.hasOwnProperty p.1 then pure true
      else attributes.hasOwnProperty p.1
    if present then
      let propertyValue := (attributes.getKey p.1).or (currentSchema.getKey p.1)
      if p.1 = "auto_complete" then
        applyAutocomplete C U node propertyValue schema data callerProps p.2
      else if p.1 = "mapping_underlying_meta_field" then
        applyMappingDict node (← U.getMetaFieldDict propertyValue) p.2
      else if p.1 = "mapping_src" then
        applyMappingDict node (← U.getMappingSrcDict propertyValue) p.2
      else node.setProp p.2 propertyValue
    else pure node) node
  let node ← if (attributes.getKey "type").strictEq (.str C.BOOLEAN)
    then node.setProp "onCheckboxChange" callerProps.onCheckboxChange else pure node
  let node ← if (attributes.getKey "type").strictEq (.str C.ENUM)
    then applyEnum C U node attributes schema callerProps else pure node
  if (attributes.getKey "type").strictEq (.str C.DATE_TIME)
    then node.setProp "onDateTimeChange" callerProps.onDateTimeChange else pure node

/-- The guard at the head of `addSimpleNode`: whether the leaf is skipped because its data
is present neither in the modified nor in the original data. -/
def skipSimpleNode (callerProps : CallerProps) (dataxpath xpath : JVal) : Except Err Bool := do
  let bothEmpty ←
    if (← callerProps.data.keys).length = 0 then
      pure (decide ((← callerProps.originalData.keys).length = 0))
    else pure false
  return bothEmpty
    || (dataxpath.truthy && (Lodash.get callerProps.data dataxpath).isUndef
        && (Lodash.get callerProps.originalData xpath).isUndef)

/-- The function `addSimpleNode`; the array with the pushed node (if any) is returned.  An
absent argument `additionalProps` is the empty object. -/
def addSimpleNode (C : Consts) (U : Utils) (tree : Tree) (schema currentSchema propname : JVal)
    (callerProps : CallerProps) (dataxpath xpath : JVal) (additionalProps : JVal) :
    Except Err Tree := do
  if ← skipSimpleNode callerProps dataxpath xpath then return tree
  if JVal.arrIncludes U.primitiveDataTypes currentSchema then
    addPrimitiveNode C tree currentSchema dataxpath xpath callerProps additionalProps
  else
    let attributes ← (← currentSchema.prop "properties").prop (← propname.toStr)
    if !(attributes.optProp "type").truthy
        || !JVal.arrIncludes U.primitiveDataTypes (attributes.getKey "type") then
      return tree
    let node ← createSimpleNode U propname dataxpath xpath callerProps.data currentSchema
      callerProps
    let node ← addNodeProperties C U node attributes currentSchema schema callerProps.data
      callerProps
    let comparedProps ← U.compareNodes callerProps.originalData callerProps.data dataxpath
      propname xpath
    let node ← objectAssign node comparedProps
    if !shouldAddNode C node callerProps then return tree
    return tree ++ [node]

/-- The function `processMetadata`; the updated copy of the metadata is returned. -/
def processMetadata (metadata currentSchema : JVal) : Except Err JVal :=
  ["orm_no_update", "server_populate", "ui_update_only", "auto_complete"].foldlM
    (fun metadata (prop : String) => do
      let present ← if ← currentSchema.hasOwnProperty prop then pure true
        else metadata.hasOwnProperty prop
      if present then
        metadata.setProp prop ((← metadata.prop prop).or (currentSchema.getKey prop))
      else pure metadata) metadata

/-- The schema a reference points to:
`ref.length === 2 ? schema[ref[1]] : schema[ref[1]][ref[2]]`. -/
def resolveRef (schema : JVal) (ref : List String) : Except Err JVal :=
  DataTreeJsx.resolveRef schema ref

/-- The function `getArrayDataType`. -/
def getArrayDataType (C : Consts) (currentSchema : JVal) : Except Err JVal := do
  let arrayDataType ← currentSchema.prop "underlying_type"
  if JVal.arrIncludes [.str C.INT32, .str C.INT64, .str C.INTEGER, .str C.FLOAT] arrayDataType
  then return .str C.NUMBER
  else return arrayDataType

/-- The function `buildArrayAdditionalProps`. -/
def buildArrayAdditionalProps (C : Consts) (schema currentSchema : JVal) : Except Err JVal := do
  let additionalProps := JVal.obj [("underlyingtype", ← currentSchema.prop "underlying_type")]
  if (currentSchema.getKey "underlying_type").strictEq (.str C.ENUM) then
    let ref ← (← (← currentSchema.prop "items").prop "$ref").asStr
    let metadata ← resolveRef schema (JS.split ref '/')
    additionalProps.setProp "options" (← metadata.prop "enum")
  else
    return additionalProps

/-- The comparison `v.length === 0` on a truthy value `v`. -/
def lengthIsZero (v : JVal) : Bool :=
  (v.getKey "length").strictEq (.num 0)

/-- The function `isEmptyArrayData`, as the truthiness of what it returns. -/
def isEmptyArrayData (data originalData dataxpath xpath : JVal) : Except Err Bool := do
  let d := Lodash.get data dataxpath
  let o := Lodash.get originalData xpath
  let left ←
    if d.truthy && lengthIsZero d then pure true
    else pure (decide ((← data.keys).length > 0) && !d.truthy)
  return left && ((o.truthy && lengthIsZero o) || !o.truthy)

/-- The type of the function `addNode`, with arguments `tree, schema, currentSchema, propname,
callerProps, dataxpath, type, xpath`; the array `tree` and the record `treeState`, which the
source updates in place, are returned. -/
abbrev AddNode :=
  Tree → JVal → JVal → JVal → CallerProps → JVal → JVal → JVal → TreeState →
    Except Err (Tree × TreeState)

/-- The function `processMetadataProperties`.  The recursive call of `addNode` is the
argument `addNode`.  The loop updates the property schemas inside `metadata` in place, so
`metadata` is part of the loop state. -/
def processMetadataProperties (C : Consts) (U : Utils) (addNode : AddNode)
    (metadata : JVal) (childNode : Tree) (schema : JVal) (callerProps : CallerProps)
    (dataxpath xpath : JVal) (treeState : TreeState) : Except Err (Tree × TreeState) := do
  let props ← (← metadata.prop "properties").keys
  let (_, childNode, treeState) ← props.foldlM
    (fun (st : JVal × Tree × TreeState) (prop : String) => do
      let (metadata, childNode, treeState) := st
      let metadataProp ← (← metadata.prop "properties").prop prop
      let metadataProp ←
        if !(← (← metadata.prop "required").includes (.str prop)) then
          metadataProp.setProp "required" (.arr [])
        else pure metadataProp
      let metadataProp ←
        ["ui_update_only", "server_populate", "orm_no_update", "auto_complete"].foldlM
          (fun metadataProp (property : String) => do
            if ← metadata.hasOwnProperty property then
              metadataProp.setProp property
                ((← metadataProp.prop property).nullish (metadata.getKey property))
            else pure metadataProp) metadataProp
      let metadata ← metadata.setProp "properties"
        (← (← metadata.prop "properties").setProp prop metadataProp)
      let childxpath ← if dataxpath.truthy
        then pure (JVal.str ((← dataxpath.toStr) ++ "." ++ prop)) else pure (JVal.str prop)
      let updatedxpath := JVal.str ((← xpath.toStr) ++ "." ++ prop)
      if (← metadataProp.prop "type").strictEq (.str C.OBJECT) then
        let (childNode, treeState) ←
          addNode childNode schema metadataProp (.str prop) callerProps childxpath .null
            updatedxpath treeState
        pure (metadata, childNode, treeState)
      else if JVal.arrIncludes U.primitiveDataTypes (metadataProp.getKey "type") then
        let childNode ←
          addSimpleNode C U childNode schema metadata (.str prop) callerProps dataxpath xpath
            (.obj [])
        pure (metadata, childNode, treeState)
      else
        let (childNode, treeState) ←
          addNode childNode schema metadataProp (.str prop) callerProps childxpath .null
            updatedxpath treeState
        pure (metadata, childNode, treeState))
    (metadata, childNode, treeState)
  return (childNode, treeState)

/-- The function `handleObjectWithItems`. -/
def handleObjectWithItems (C : Consts) (U : Utils) (addNode : AddNode) : AddNode :=
  fun tree schema currentSchema propname callerProps dataxpath _type xpath treeState => do
  let data := callerProps.data
  let originalData := callerProps.originalData
  if (Lodash.get data dataxpath).isUndef && (Lodash.get originalData xpath).isUndef then
    return (tree, treeState)
  let headerState ← determineHeaderState data originalData xpath currentSchema
  let serverPopulate ← if callerProps.mode.strictEq (.str C.EDIT)
    then pure (← currentSchema.prop "server_populate").truthy else pure false
  if serverPopulate then return (tree, treeState)
  let (headerNode, treeState) ←
    addHeaderNode U currentSchema propname (← currentSchema.prop "type") callerProps dataxpath
      xpath (← (← currentSchema.prop "items").prop "$ref") headerState treeState
  if (Lodash.get data dataxpath).isNull
      && (!(Lodash.get originalData xpath).truthy || (Lodash.get originalData xpath).isNull) then
    return (← pushHeader tree headerNode [], treeState)
  let ref := JS.split (← (← (← currentSchema.prop "items").prop "$ref").asStr) '/'
  let metadata ← resolveRef schema ref
  let metadata ← processMetadata (Lodash.cloneDeep metadata) currentSchema
  if (← metadata.prop "properties").truthy then
    let (childNode, treeState) ←
      processMetadataProperties C U addNode metadata [] schema callerProps dataxpath xpath
        treeState
    return (← pushHeader tree headerNode childNode, treeState)
  else
    return (← pushHeader tree headerNode [], treeState)

/-- An entry of the list `itemsToProcess` of `processArrayItems`. -/
structure Item where
  index : Nat
  childxpath : JVal
  updatedxpath : String
  fromOriginal : Bool

/-- The bound `v.length` of a counting loop over a truthy value `v`. -/
def loopBound (v : JVal) : Except Err Nat :=
  match v.getKey "length" with
  | .num n => .ok n.toNat
  | JVal.undef => .ok 0
  | _ => .error .unmodelled

/-- The first loop of `processArrayItems`: the items of the original data.  The lists
`paths` and `itemsToProcess` are returned. -/
def collectOriginalItems (U : Utils) (callerProps : CallerProps) (xpath : JVal) :
    Except Err (List String × List Item) := do
  let original := Lodash.get callerProps.originalData xpath
  if original.truthy then
    (List.range (← loopBound original)).foldlM
      (fun (st : List String × List Item) (i : Nat) => do
        let (paths, itemsToProcess) := st
        let updatedxpath ← tpl xpath (bracket (Nat.repr i))
        let childxpath ← U.getDataxpath callerProps.data (.str updatedxpath)
        let paths := paths ++ [updatedxpath]
        if !(← U.isNodeInSubtree callerProps xpath (.str updatedxpath)).truthy then
          pure (paths, itemsToProcess)
        else
          pure (paths, itemsToProcess ++ [⟨i, childxpath, updatedxpath, true⟩]))
      ([], [])
  else
    return ([], [])

/-- The second loop of `processArrayItems`: the items of the modified data that are not
items of the original data. -/
def collectModifiedItems (U : Utils) (callerProps : CallerProps) (dataxpath xpath : JVal)
    (st : List String × List Item) : Except Err (List String × List Item) := do
  let modified := Lodash.get callerProps.data dataxpath
  if modified.truthy then
    (← modified.asArr).enum.foldlM
      (fun (st : List String × List Item) (entry : Nat × JVal) => do
        let (paths, itemsToProcess) := st
        let (i, childobject) := entry
        match (← childobject.keys).find? (fun key => JS.startsWith key "xpath_") with
        | none => pure (paths, itemsToProcess)
        | some subpropname =>
          let propxpath ← (childobject.getKey subpropname).asStr
          let propindex := JS.substring propxpath (JS.lastIndexOf propxpath '[' + 1)
            (JS.lastIndexOf propxpath ']')
          let updatedxpath ← tpl xpath (bracket propindex)
          if paths.contains updatedxpath then pure (paths, itemsToProcess)
          else
            let childxpath ← tpl dataxpath (bracket (Nat.repr i))
            if !(← U.isNodeInSubtree callerProps xpath (.str updatedxpath)).truthy then
              pure (paths, itemsToProcess)
            else
              pure (paths ++ [childxpath],
                itemsToProcess ++ [⟨i, .str childxpath, updatedxpath, false⟩]))
      st
  else
    return st

/-- The search `for (let i = tree.length - 1; i >= 0; i--) if (tree[i].xpath === xpath)` of
`processArrayItems`: position of the last node of `tree` whose path is `xpath`. -/
def findParentNode (tree : Tree) (xpath : JVal) : Except Err (Option Nat) :=
  (List.range tree.length).reverse.foldlM
    (fun (found : Option Nat) (i : Nat) => do
      match found with
      | some j => pure (some j)
      | none =>
        if (← (JVal.elemAt tree i).prop "xpath").strictEq xpath then pure (some i)
        else pure none)
    none

/-- The object `pagination` recorded on a paginated header. -/
def paginationInfo (totalItems : Nat) (xpath : JVal) : Except Err JVal := do
  return JVal.obj [
    ("totalItems", .num totalItems),
    ("totalPages", .num (JS.ceilDiv totalItems ITEMS_PER_PAGE)),
    ("currentPage", .num 0),
    ("paginationId", .str ("pagination_" ++ (← xpath.toStr)))]

/-- The synthetic node `paginationNode` holding the pagination controls. -/
def paginationNode (pagination : JVal) (xpath : JVal) : Except Err JVal := do
  return JVal.obj [
    ("id", pagination.getKey "paginationId"),
    ("key", .str "pagination"),
    ("name", .str ("Page 1 of " ++ (← (pagination.getKey "totalPages").toStr))),
    ("isPagination", .bool true),
    ("xpath", .str ((← xpath.toStr) ++ "_pagination")),
    ("prevPage", .num 0),
    ("nextPage", .num 1),
    ("onPageChange", .bool true)]

/-- The loop `items.forEach(item => addNode(tree, schema, currentSchema, propname, callerProps,
item.childxpath, DATA_TYPES.OBJECT, item.updatedxpath))` of `processArrayItems`. -/
def addItemNodes (C : Consts) (addNode : AddNode) (items : List Item) (tree : Tree)
    (schema currentSchema propname : JVal) (callerProps : CallerProps) (treeState : TreeState) :
    Except Err (Tree × TreeState) :=
  items.foldlM
    (fun (st : Tree × TreeState) (item : Item) =>
      addNode st.1 schema currentSchema propname callerProps item.childxpath (.str C.OBJECT)
        (.str item.updatedxpath) st.2)
    (tree, treeState)

/-- The function `processArrayItems`; `tree` is the array the function was called with. -/
def processArrayItems (C : Consts) (U : Utils) (addNode : AddNode) (tree : Tree)
    (schema currentSchema propname : JVal) (callerProps : CallerProps) (dataxpath xpath : JVal)
    (treeState : TreeState) : Except Err (Tree × TreeState) := do
  let st ← collectOriginalItems U callerProps xpath
  let (_, itemsToProcess) ← collectModifiedItems U callerProps dataxpath xpath st
  let totalItems := itemsToProcess.length
  let needsPagination := decide (totalItems > ITEMS_PER_PAGE)
  if needsPagination then
    match ← findParentNode tree xpath with
    | some i =>
      let pagination ← paginationInfo totalItems xpath
      let parentNode ← (JVal.elemAt tree i).setProp "pagination" pagination
      let tree := tree.set i parentNode
      let tree := tree ++ [← paginationNode pagination xpath]
      let startIndex := 0
      let endIndex := min ITEMS_PER_PAGE totalItems
      addItemNodes C addNode ((itemsToProcess.take endIndex).drop startIndex) tree schema
        currentSchema propname callerProps treeState
    | none =>
      addItemNodes C addNode itemsToProcess tree schema currentSchema propname callerProps
        treeState
  else
    addItemNodes C addNode itemsToProcess tree schema currentSchema propname callerProps
      treeState

/-- The function `handleArrayWithItems`.  The array `containerNode` handed to
`processArrayItems` is the `children` array of the container header just created, which is
empty at that point. -/
def handleArrayWithItems (C : Consts) (U : Utils) (addNode : AddNode) : AddNode :=
  fun tree schema currentSchema propname callerProps dataxpath _type xpath treeState => do
  let serverPopulate ← if callerProps.mode.strictEq (.str C.EDIT)
    then pure (← currentSchema.prop "server_populate").truthy else pure false
  if serverPopulate then return (tree, treeState)
  let hasEmptyData ←
    isEmptyArrayData callerProps.data callerProps.originalData dataxpath xpath
  let (containerHeader, treeState) ←
    addHeaderNode U currentSchema propname (.str C.ARRAY) callerProps dataxpath xpath
      ((← currentSchema.prop "items").optProp "$ref") JVal.undef treeState
  let containerNode : Tree := []
  if hasEmptyData then
    let childxpath ← tpl dataxpath "[-1]"
    let updatedxpath ← tpl xpath "[-1]"
    let (childHeader, treeState) ←
      addHeaderNode U currentSchema propname (← currentSchema.prop "type") callerProps
        (.str childxpath) (.str updatedxpath) (← (← currentSchema.prop "items").prop "$ref")
        JVal.undef treeState
    let containerNode ← pushHeader containerNode childHeader []
    return (← pushHeader tree containerHeader containerNode, treeState)
  let (containerNode, treeState) ←
    processArrayItems C U addNode containerNode schema currentSchema propname callerProps
      dataxpath xpath treeState
  return (← pushHeader tree containerHeader containerNode, treeState)

/-- The items of a primitive array as `handleSimpleArray` needs them: the elements of an
array; other truthy values have no method `forEach`. -/
def simpleArrayItems : JVal → Except Err (List JVal)
  | .arr xs => .ok xs
  | .str _ => .error .unmodelled
  | .obj kvs => if JVal.hasKey kvs "length" then .error .unmodelled else .error .typeError
  | _ => .error .typeError

/-- The loops of `handleSimpleArray` that create the leaves of the items at the positions
`indices`. -/
def addItemLeaves (C : Consts) (U : Utils) (indices : List Nat) (childNode : Tree)
    (schema arrayDataType : JVal) (callerProps : CallerProps) (dataxpath xpath : JVal)
    (additionalProps : JVal) : Except Err Tree :=
  indices.foldlM
    (fun (childNode : Tree) (i : Nat) => do
      let itemXpath ← tpl dataxpath (bracket (Nat.repr i))
      let updatedItemXpath ← tpl xpath (bracket (Nat.repr i))
      addSimpleNode C U childNode schema arrayDataType .null callerProps (.str itemXpath)
        (.str updatedItemXpath) additionalProps)
    childNode

/-- The function `handleSimpleArray`. -/
def handleSimpleArray (C : Consts) (U : Utils) : AddNode :=
  fun tree schema currentSchema propname callerProps dataxpath _type xpath treeState => do
  if (Lodash.get callerProps.originalData xpath).isUndef
      && (Lodash.get callerProps.data dataxpath).isUndef then
    return (tree, treeState)
  let arrayDataType ← getArrayDataType C currentSchema
  let additionalProps ← buildArrayAdditionalProps C schema currentSchema
  let (containerHeader, treeState) ←
    addHeaderNode U currentSchema propname (.str C.ARRAY) callerProps dataxpath xpath
      ((← currentSchema.prop "items").optProp "$ref") JVal.undef treeState
  let childxpath ← tpl dataxpath "[-1]"
  let updatedxpath ← tpl xpath "[-1]"
  let objectState := JVal.obj [("add", .bool true), ("remove", .bool false)]
  let (childHeader, treeState) ←
    addHeaderNode U currentSchema propname (← currentSchema.prop "type") callerProps
      (.str childxpath) (.str updatedxpath) arrayDataType objectState treeState
  let childNode : Tree := []
  if (Lodash.get callerProps.data dataxpath).truthy then
    let items ← simpleArrayItems (Lodash.get callerProps.data dataxpath)
    let totalItems := items.length
    let needsPagination := decide (totalItems > ITEMS_PER_PAGE)
    if needsPagination then
      let pagination ← paginationInfo totalItems xpath
      let childHeader ← childHeader.setProp "pagination" pagination
      let paginationNode ← paginationNode pagination xpath
      let startIndex := 0
      let endIndex := min ITEMS_PER_PAGE totalItems
      let childNode ←
        addItemLeaves C U ((List.range endIndex).drop startIndex) childNode schema
          arrayDataType callerProps dataxpath xpath additionalProps
      let containerNode ← pushHeader [] childHeader childNode
      let containerNode := containerNode ++ [paginationNode]
      return (← pushHeader tree containerHeader containerNode, treeState)
    else
      let childNode ←
        addItemLeaves C U (List.range totalItems) childNode schema arrayDataType callerProps
          dataxpath xpath additionalProps
      let containerNode ← pushHeader [] childHeader childNode
      return (← pushHeader tree containerHeader containerNode, treeState)
  else
    let containerNode ← pushHeader [] childHeader childNode
    return (← pushHeader tree containerHeader containerNode, treeState)

/-- The body of the function `addNode`; its recursive calls are made through the argument
`addNode`. -/
def addNodeBody (C : Consts) (U : Utils) (addNode : AddNode) : AddNode :=
  fun tree schema currentSchema propname callerProps dataxpath type xpath treeState => do
  let currentSchemaType ← if type.truthy then pure type else currentSchema.prop "type"
  let items ← currentSchema.prop "items"
  if items.truthy && currentSchemaType.strictEq (.str C.OBJECT) then
    handleObjectWithItems C U addNode tree schema currentSchema propname callerProps dataxpath
      type xpath treeState
  else if items.truthy && (currentSchema.getKey "type").strictEq (.str C.ARRAY) then
    handleArrayWithItems C U addNode tree schema currentSchema propname callerProps dataxpath
      type xpath treeState
  else if (currentSchema.getKey "type").strictEq (.str C.ARRAY) then
    handleSimpleArray C U tree schema currentSchema propname callerProps dataxpath type xpath
      treeState
  else
    return (tree, treeState)

/-- The function `addNode`.  The recursion of the source follows the schema references for as
long as there is data; `fuel` bounds the depth of the nesting of calls. -/
def addNode (C : Consts) (U : Utils) : Nat → AddNode
  | 0 => fun _ _ _ _ _ _ _ _ _ => .error .outOfFuel
  | fuel + 1 => addNodeBody C U (addNode C U fuel)

/-- The function `generateTreeStructure`; the tree and the record `treeState` are returned.
The loop assigns `metadataProp.required` in place, which is visible through `currentSchema`;
`currentSchema` is therefore part of the loop state.  (Whether the assignment is also visible
through `schema` depends on `getModelSchema`; `schema` is passed on as it was given.) -/
def generateTreeStructure (C : Consts) (U : Utils) (fuel : Nat) (schema currentSchemaName : JVal)
    (callerProps : CallerProps) (treeState : TreeState) : Except Err (Tree × TreeState) := do
  if !schema.truthy then return ([], treeState)
  if (← schema.keys).length = 0 then return ([], treeState)
  let currentSchema ← U.getModelSchema currentSchemaName schema
  let (rootHeader, treeState) ←
    addHeaderNode U currentSchema currentSchemaName (.str C.OBJECT) callerProps currentSchemaName
      currentSchemaName JVal.undef JVal.undef treeState
  let props ← (← currentSchema.prop "properties").keys
  let (_, childNode, treeState) ← props.foldlM
    (fun (st : JVal × Tree × TreeState) (propname : String) => do
      let (currentSchema, childNode, treeState) := st
      if callerProps.xpath.truthy && !callerProps.xpath.strictEq (.str propname) then pure st
      else
        let metadataProp ← (← currentSchema.prop "properties").prop propname
        let required ←
          if ← (← currentSchema.prop "required").includes (.str propname) then
            metadataProp.prop "required"
          else pure (JVal.arr [])
        let metadataProp ← metadataProp.setProp "required" required
        let currentSchema ← currentSchema.setProp "properties"
          (← (← currentSchema.prop "properties").setProp propname metadataProp)
        if (metadataProp.getKey "type").truthy
            && JVal.arrIncludes U.primitiveDataTypes (metadataProp.getKey "type") then
          let childNode ←
            addSimpleNode C U childNode schema currentSchema (.str propname) callerProps
              JVal.undef JVal.undef (.obj [])
          pure (currentSchema, childNode, treeState)
        else
          let (childNode, treeState) ←
            addNode C U fuel childNode schema metadataProp (.str propname) callerProps
              (.str propname) .null (.str propname) treeState
          pure (currentSchema, childNode, treeState))
    (currentSchema, [], treeState)
  return (← pushHeader [] rootHeader childNode, treeState)

/-- A sample instance of what `treeHelper.js` imports, used to run the embedding on concrete
inputs: the working-copy path of a logical path is the path itself, every node lies in the
requested subtree, and the comparison with the baseline adds no property. -/
def sampleUtils : Utils where
  primitiveDataTypes := [.str "string", .str "boolean", .str "number", .str "enum",
    .str "date-time"]
  fieldProps := [("type", "type"), ("title", "title"), ("hide", "hide"), ("help", "help"),
    ("button", "button")]
  complexFieldProps := [("server_populate", "serverPopulate"),
    ("ui_update_only", "uiUpdateOnly"), ("orm_no_update", "ormNoUpdate"),
    ("auto_complete", "autocomplete")]
  getModelSchema := fun name schema => do schema.prop (← name.toStr)
  getEnumValues := fun schema ref _ => do (← resolveRef schema ref).prop "enum"
  hasxpath := fun data xpath => .ok (.bool (!(Lodash.get data xpath).isUndef))
  setAutocompleteValue := fun _ node _ _ _ => .ok node
  getDataxpath := fun _ xpath => .ok xpath
  isNodeInSubtree := fun _ _ _ => .ok (.bool true)
  getAutocompleteDict := fun _ => .ok JVal.undef
  getMetaFieldDict := fun _ => .ok JVal.undef
  getMappingSrcDict := fun _ => .ok JVal.undef
  compareNodes := fun _ _ _ _ _ => .ok (.obj [])

/-- The children array of a header node. -/
def childrenOf (node : JVal) : List JVal :=
  match node.getKey "children" with
  | .arr xs => xs
  | _ => []

/-- Whether a node is a synthetic pagination node. -/
def isPaginationNode (node : JVal) : Bool :=
  (node.getKey "isPagination").strictEq (.bool true)

end TreeHelper

/-! ## `DataTree.jsx`: flattening of the generated tree -/

namespace DataTreeJsx

/-- The constant `ITEMS_PER_PAGE` of `DataTree.jsx`: number of children shown per page. -/
def ITEMS_PER_PAGE : Nat := 8

/-- An entry of the state `paginatedNodes`.  The component only ever stores natural numbers
with `totalPages` at least one; `totalItems` is absent from the default entry of
`handlePageChange`. -/
structure PageState where
  page : Nat
  totalPages : Nat
  totalItems : Option Nat

/-- The state `paginatedNodes`, keyed by node id. -/
abbrev PaginatedNodes := List (String × PageState)

/-- The entry of a node id in the state `paginatedNodes`, if there is one. -/
def pageStateOf (paginatedNodes : PaginatedNodes) (key : String) : Option PageState :=
  (paginatedNodes.find? (fun e => e.1 = key)).map Prod.snd

/-- An entry `treeNode` of the flat list handed to the tree view. -/
structure TreeNode where
  name : JVal
  children : List JVal
  id : JVal
  parent : JVal
  metadata : JVal

/-- What the effect changes besides the flat list: the number of calls of `Math.random()` made
so far, and the state `paginatedNodes` as the queued `setPaginatedNodes` updaters leave it. -/
structure FlattenState where
  randomCalls : Nat
  nextPaginated : PaginatedNodes

/-- The result of `processNode`: the id it returns, the node after the updates made to it in
place, the entries pushed onto `flattenedNodes`, and the state. -/
structure Processed where
  id : JVal
  node : JVal
  entries : List TreeNode
  state : FlattenState

/-- The type of the function `processNode` with arguments `node` and `parentId`. -/
abbrev ProcessNode := JVal → JVal → FlattenState → Except Err Processed

/-- The method `Array.prototype.slice(start, end)` for bounds that are natural numbers. -/
def slice (xs : List JVal) (startIndex endIndex : Nat) : List JVal :=
  (xs.take endIndex).drop startIndex

/-- The loop `list.forEach(childNode => { const childId = processNode(childNode, currentId);
treeNode.children.push(childId); })`: the ids pushed, the children after the updates made to
them in place, the entries pushed onto `flattenedNodes`, and the state. -/
def processChildren (processNode : ProcessNode) (currentId : JVal) (list : List JVal)
    (st : FlattenState) : Except Err (List JVal × List JVal × List TreeNode × FlattenState) :=
  list.foldlM
    (fun (acc : List JVal × List JVal × List TreeNode × FlattenState) (childNode : JVal) => do
      let (ids, nodes, entries, st) := acc
      let r ← processNode childNode currentId st
      pure (ids ++ [r.id], nodes ++ [r.node], entries ++ r.entries, r.state))
    ([], [], [], st)

/-- The updater handed to `setPaginatedNodes` by `processNode`. -/
def initPagination (prev : PaginatedNodes) (key : String) (count : Nat) : PaginatedNodes :=
  match pageStateOf prev key with
  | some _ => prev
  | none => prev ++ [(key, ⟨0, JS.ceilDiv count ITEMS_PER_PAGE, some count⟩)]

/-- The object written to `treeNode.metadata.pagination`. -/
def paginationMeta (pageIndex count : Nat) : JVal :=
  .obj [
    ("currentPage", .num pageIndex),
    ("totalPages", .num (JS.ceilDiv count ITEMS_PER_PAGE)),
    ("totalItems", .num count),
    ("onPageChange", .fn "(direction) => handlePageChange(currentId, direction)")]

/-- The body of the function `processNode` of the flattening effect; its recursive calls are
made through the argument `processNode`.  `random k` is the text of the number returned by
call number `k` of `Math.random()`, and `paginatedNodes` the state of the current render. -/
def processNodeBody (random : Nat → String) (paginatedNodes : PaginatedNodes)
    (processNode : ProcessNode) : ProcessNode :=
  fun node parentId st => do
  let xpath ← node.prop "xpath"
  let (currentId, st) :=
    if xpath.truthy then (xpath, st)
    else (JVal.str (random st.randomCalls), { st with randomCalls := st.randomCalls + 1 })
  let name := ((node.getKey "name").or (node.getKey "key")).or (.str "")
  let treeNode (children : List JVal) (metadata : JVal) : TreeNode :=
    ⟨name, children, currentId, parentId, metadata⟩
  match node.getKey "children" with
  | .arr children =>
    if children.length > ITEMS_PER_PAGE then
      let key ← currentId.toStr
      let st := { st with nextPaginated := initPagination st.nextPaginated key children.length }
      let pageIndex := ((pageStateOf paginatedNodes key).map PageState.page).getD 0
      let startIndex := pageIndex * ITEMS_PER_PAGE
      let endIndex := min (startIndex + ITEMS_PER_PAGE) children.length
      let visibleChildren := slice children startIndex endIndex
      let (ids, nodes, entries, st) ← processChildren processNode currentId visibleChildren st
      let node ← node.setProp "children"
        (.arr (children.take startIndex ++ nodes ++ children.drop (max startIndex endIndex)))
      let node ← node.setProp "pagination" (paginationMeta pageIndex children.length)
      return ⟨currentId, node, treeNode ids node :: entries, st⟩
    else if children.length > 0 then
      let (ids, nodes, entries, st) ← processChildren processNode currentId children st
      let node ← node.setProp "children" (.arr nodes)
      return ⟨currentId, node, treeNode ids node :: entries, st⟩
    else
      return ⟨currentId, node, [treeNode [] node], st⟩
  | other =>
    if other.truthy then .error .unmodelled
    else return ⟨currentId, node, [treeNode [] node], st⟩

/-- The function `processNode`; `fuel` bounds the depth of the nesting of calls, which in the
source is the depth of the node. -/
def processNode (random : Nat → String) (paginatedNodes : PaginatedNodes) : Nat → ProcessNode
  | 0 => fun _ _ _ => .error .outOfFuel
  | fuel + 1 => processNodeBody random paginatedNodes (processNode random paginatedNodes fuel)

/-- The flat list `flattenedNodes` that the effect builds from `generatedTree`: the synthetic
root entry followed by the entries of the top-level nodes, and the state. -/
def flattenTree (random : Nat → String) (paginatedNodes : PaginatedNodes) (fuel : Nat)
    (modelName : JVal) (generatedTree : List JVal) (st : FlattenState) :
    Except Err (List TreeNode × FlattenState) := do
  let rootId := JVal.str "root"
  let (ids, _, entries, st) ←
    processChildren (processNode random paginatedNodes fuel) rootId generatedTree st
  return (⟨modelName, ids, rootId, .null, .null⟩ :: entries, st)

/-- Nodes on which `processNode` runs without an exception, down to depth `depth`: objects
whose `xpath` is a string or absent and whose `children` are absent or an array of such
nodes. -/
def wellFormedNode : Nat → JVal → Bool
  | 0, _ => false
  | depth + 1, .obj kvs =>
    (match JVal.lookup kvs "xpath" with
      | .str _ => true
      | .undef => true
      | .null => true
      | _ => false)
    && (match JVal.lookup kvs "children" with
      | .arr children => children.all (wellFormedNode depth)
      | other => !other.truthy)
  | _ + 1, _ => false

/-- The id `processNode` gives to a node: its `xpath` when truthy, else the text of a random
number. -/
def IsIdOf (random : Nat → String) (id node : JVal) : Prop :=
  ((node.getKey "xpath").truthy = true ∧ id = node.getKey "xpath")
    ∨ ((node.getKey "xpath").truthy = false ∧ ∃ k, id = .str (random k))

end DataTreeJsx

namespace Lodash

/-- Whether the embedded `assignValue` assigns the key: on an object always, on an array for
an index.  (JavaScript also accepts other keys on an array; the embedding does not.) -/
def assignable : JVal → String → Bool
  | .obj _, _ => true
  | .arr _, k => (JVal.arrayIndex? k).isSome
  | _, _ => false

/-- The paths along which the embedded `baseSet` makes its assignment: the document and every
existing container on the way is an object or an array, and an array is only entered by an
index. -/
def settable : JVal → List String → Bool
  | _, [] => false
  | o, [k] => assignable o k
  | o, k :: k2 :: ks =>
    assignable o k
    && settable
      (if isObject (o.getKey k) then o.getKey k
        else if (JVal.arrayIndex? k2).isSome then .arr [] else .obj [])
      (k2 :: ks)

end Lodash

namespace DataTreeJsx

/-- The page number that `handlePageChange` computes, as a JavaScript number. -/
def newPage (nodeState : PageState) (direction : String) : Int :=
  if direction = "next" then
    min ((nodeState.page : Int) + 1) ((nodeState.totalPages : Int) - 1)
  else if direction = "prev" then
    max ((nodeState.page : Int) - 1) 0
  else nodeState.page

/-- The object spread `{ ...prev, [nodeId]: nodeState }`: an existing key keeps its place, a
new key goes last. -/
def setPageState : PaginatedNodes → String → PageState → PaginatedNodes
  | [], nodeId, nodeState => [(nodeId, nodeState)]
  | (k, s) :: rest, nodeId, nodeState =>
    if k = nodeId then (k, nodeState) :: rest else (k, s) :: setPageState rest nodeId nodeState

/-- The updater that `handlePageChange(nodeId, direction)` hands to `setPaginatedNodes`.  The
new page is stored as a natural number; it is negative in JavaScript only for an entry with
`totalPages` zero, which the component never stores. -/
def handlePageChange (prev : PaginatedNodes) (nodeId direction : String) : PaginatedNodes :=
  let nodeState := (pageStateOf prev nodeId).getD ⟨0, 1, none⟩
  setPageState prev nodeId { nodeState with page := (newPage nodeState direction).toNat }

/-- Sample props: the list `colors` of enum values is absent from the working copy. -/
def enumProps : Props where
  projectSchema := .obj [("definitions", .obj [("color", .obj [("enum",
    .arr [.str "RED", .str "GREEN"])])])]
  updatedData := .obj []
  storedData := .obj []

/-- The attributes of the Add button of the container `colors`, whose elements are of the
enum-only type `color`. -/
def enumAddAttrs : Attrs where
  dataAdd := some "colors"
  dataRef := some "#/definitions/color"
  dataProp := some "\x7b\x7d"

/-- The attributes of the Add button of a container `colors` of strings. -/
def stringAddAttrs : Attrs where
  dataAdd := some "colors"
  dataRef := some "string"
  dataProp := some "\x7b\x7d"

/-- Sample form props: the working copy holds the empty list `a`; both callbacks are given. -/
def sampleFormProps : FormProps where
  updatedData := .obj [("a", .arr [])]
  onUpdate := true
  onUserChange := true

/-- Sample form props: the working copy holds the string `str` at `a`. -/
def stringFormProps : FormProps where
  updatedData := .obj [("a", .str "str")]
  onUpdate := true
  onUserChange := true

end DataTreeJsx

/-! ## Sample inputs -/

namespace TreeHelper

/-- Caller props in edit mode over one document used both as working copy and as baseline. -/
def sampleCallerProps (document : JVal) : CallerProps :=
  { data := document, originalData := document, mode := .str "edit" }

/-- A sample type schema: an object with the optional string property `p`. -/
def sampleTypeSchema : JVal :=
  .obj [("title", .str "A"), ("required", .arr []),
    ("properties", .obj [("p", .obj [("type", .str "string")])])]

/-- A sample document: the object `a` is present, its property `p` is not. -/
def sampleDocument : JVal :=
  .obj [("a", .obj [("x", .num 1)])]

/-- A sample schema document with the element type `item`. -/
def sampleSchema : JVal :=
  .obj [("definitions", .obj [("item", .obj [("title", .str "item"), ("required", .arr []),
    ("properties", .obj [("name", .obj [("type", .str "string")])])])])]

/-- The schema of the property `items`, an array of `item` objects. -/
def sampleArraySchema : JVal :=
  .obj [("type", .str "array"), ("title", .str "items"),
    ("items", .obj [("$ref", .str "#/definitions/item")])]

/-- The element of `items` with logical index `i`. -/
def sampleItem (i : Nat) : JVal :=
  .obj [("name", .str "n"), ("xpath_name", .str ("items[" ++ Nat.repr i ++ "].name"))]

/-- A document whose list `items` has six elements. -/
def sixItemsDocument : JVal :=
  .obj [("items", .arr ((List.range 6).map sampleItem))]

/-- The schema of the property `tags`, a primitive array marked `server_populate`. -/
def serverPopulateArraySchema : JVal :=
  .obj [("type", .str "array"), ("title", .str "tags"), ("underlying_type", .str "string"),
    ("server_populate", .bool true)]

/-- A document whose list `tags` has two strings. -/
def tagsDocument : JVal :=
  .obj [("tags", .arr [.str "x", .str "y"])]

end TreeHelper

namespace TreeHelper

/-- An autocomplete leaf after `setAutocompleteValue`: it has options, its own
`dynamic_autocomplete` property, and a value that is not among the cities of `IN`. -/
def autocompleteNode : List (String × JVal) :=
  [("key", .str "city"), ("options", .arr [.str "X"]), ("dynamic_autocomplete", .bool true),
    ("autocomplete", .str "CityList.country"), ("value", .str "Z")]

/-- A schema document whose `autocomplete` table maps the country `IN` to a list name. -/
def autocompleteSchema : JVal :=
  .obj [("autocomplete", .obj [("IN", .str "IN_cities"), ("IN_cities", .arr [.str "Delhi"])])]

/-- A document whose property `country` is `IN`. -/
def countryDocument : JVal :=
  .obj [("country", .str "IN")]

end TreeHelper

namespace TreeHelper

/-- The schema of the property `tags`, a primitive array of strings. -/
def tagsSchema : JVal :=
  .obj [("type", .str "array"), ("title", .str "tags"), ("underlying_type", .str "string")]

/-- The six strings of the list `tags` in `sixTagsDocument`. -/
def sixTags : List JVal :=
  [.str "a", .str "b", .str "c", .str "d", .str "e", .str "f"]

/-- A document whose list `tags` has six strings. -/
def sixTagsDocument : JVal :=
  .obj [("tags", .arr sixTags)]

end TreeHelper

namespace TreeHelper

/-- Caller props of an edited list: the baseline `items` has the elements with logical
indices 0 and 1; in the working copy the element 0 was removed and an element with logical
index 2 was added, so the working copy holds the logical elements 1 and 2 at the positions
0 and 1. -/
def editedCallerProps : CallerProps :=
  { data := .obj [("items", .arr [sampleItem 1, sampleItem 2])],
    originalData := .obj [("items", .arr [sampleItem 0, sampleItem 1])],
    mode := .str "edit" }

/-- The items of the baseline of `editedCallerProps`. -/
def editedOriginalItems : List Item :=
  [⟨0, .str "items[0]", "items[0]", true⟩, ⟨1, .str "items[1]", "items[1]", true⟩]

/-- The item of the element added in the working copy of `editedCallerProps`. -/
def editedAddedItem : Item :=
  ⟨1, .str "items[1]", "items[2]", false⟩

end TreeHelper

namespace DataTreeJsx

/-- The invariant of the flattening for the entries pushed while the children of a node with
id `parentId` are processed, `ids` being the ids pushed onto the children list of that node:
every entry is either a child of `parentId`, with its id among `ids`, or has its parent among
the entries before it, with its id in the children list of that parent; and there are as many
entries as there are ids in `ids` and in the children lists of the entries. -/
def WellNested (parentId : JVal) (ids : List JVal) (entries : List TreeNode) : Prop :=
  (∀ i e, entries[i]? = some e →
      (e.parent = parentId ∧ e.id ∈ ids)
        ∨ ∃ f ∈ entries.take i, f.id = e.parent ∧ e.id ∈ f.children)
    ∧ entries.length = ids.length + (entries.map (fun e => e.children.length)).sum

end DataTreeJsx

namespace DataTreeJsx

/-- A sample of `Math.random()`: call number `k` returns the text `0.k`. -/
def sampleRandom (k : Nat) : String := "0." ++ Nat.repr k

/-- Nine leaves, with the paths `list[0]` to `list[8]`. -/
def nineChildren : List JVal :=
  (List.range 9).map (fun i => .obj [("xpath", .str ("list[" ++ Nat.repr i ++ "]"))])

/-- A header node at the path `list` with nine children. -/
def listNode : List (String × JVal) :=
  [("xpath", .str "list"), ("name", .str "list"), ("children", .arr nineChildren)]

/-- A state `paginatedNodes` in which the node `list` is on its second page. -/
def secondPage : PaginatedNodes := [("list", ⟨1, 2, some 9⟩)]

end DataTreeJsx

namespace TreeHelper

/-- The sample `sampleUtils` with `auto_complete` as the only listed property. -/
def autocompleteUtils : Utils :=
  { sampleUtils with fieldProps := [], complexFieldProps := [("auto_complete", "autocomplete")] }

/-- The schema of a string property with the annotation `auto_complete`. -/
def autocompleteAttributes : JVal :=
  .obj [("type", .str "string"), ("auto_complete", .str "CityList.country")]

end TreeHelper

namespace TreeHelper

/-- Caller props of a list that has no baseline: the working copy holds the element with
logical index 1 at position 0 and the element with logical index 0 at position 1. -/
def swappedCallerProps : CallerProps :=
  { data := .obj [("items", .arr [sampleItem 1, sampleItem 0])],
    originalData := .obj [("other", .null)],
    mode := .str "edit" }

end TreeHelper

/-! # Verification -/

/-! ## Strings, numerals and paths -/

namespace JS

theorem digitsValue_append (acc : Nat) (xs ys : List Char) :
    digitsValue acc (xs ++ ys) = digitsValue (digitsValue acc xs) ys := by
  induction xs generalizing acc with
  | nil => rfl
  | cons x xs ih => exact ih _

theorem digitChar_value : ∀ (d : Nat), d < 10 →
    digitOf (Nat.digitChar d) = d ∧ isDigit (Nat.digitChar d) = true
  | 0, _ => ⟨rfl, rfl⟩
  | 1, _ => ⟨rfl, rfl⟩
  | 2, _ => ⟨rfl, rfl⟩
  | 3, _ => ⟨rfl, rfl⟩
  | 4, _ => ⟨rfl, rfl⟩
  | 5, _ => ⟨rfl, rfl⟩
  | 6, _ => ⟨rfl, rfl⟩
  | 7, _ => ⟨rfl, rfl⟩
  | 8, _ => ⟨rfl, rfl⟩
  | 9, _ => ⟨rfl, rfl⟩
  | n + 10, h => absurd h (by omega)

theorem toDigitsCore_acc (fuel n : Nat) (ds : List Char) :
    Nat.toDigitsCore 10 fuel n ds = Nat.toDigitsCore 10 fuel n [] ++ ds := by
  induction fuel generalizing n ds with
  | zero => simp [Nat.toDigitsCore]
  | succ fuel ih =>
    simp only [Nat.toDigitsCore]
    split
    · simp
    · rw [ih (n / 10) (Nat.digitChar (n % 10) :: ds), ih (n / 10) [Nat.digitChar (n % 10)]]
      simp

theorem toDigitsCore_spec (fuel n : Nat) (h : n < fuel) :
    digitsValue 0 (Nat.toDigitsCore 10 fuel n []) = n
      ∧ (∀ c ∈ Nat.toDigitsCore 10 fuel n [], isDigit c = true)
      ∧ Nat.toDigitsCore 10 fuel n [] ≠ [] := by
  induction fuel generalizing n with
  | zero => omega
  | succ fuel ih =>
    have hd := digitChar_value (n % 10) (Nat.mod_lt _ (by decide))
    generalize hx : Nat.digitChar (n % 10) = x at hd
    have hstep : Nat.toDigitsCore 10 (fuel + 1) n []
        = if n / 10 = 0 then [x] else Nat.toDigitsCore 10 fuel (n / 10) [x] := by
      rw [← hx]; rfl
    rw [hstep]
    split
    · rename_i h0
      refine ⟨?_, ?_, List.cons_ne_nil _ _⟩
      · show 0 * 10 + digitOf x = n
        rw [hd.1]; omega
      · intro c hc
        rw [List.mem_singleton.1 hc]; exact hd.2
    · rename_i h0
      have hlt : n / 10 < fuel := by omega
      obtain ⟨h1, h2, h3⟩ := ih (n / 10) hlt
      rw [toDigitsCore_acc]
      refine ⟨?_, ?_, ?_⟩
      · rw [digitsValue_append, h1]
        show n / 10 * 10 + digitOf x = n
        rw [hd.1]; omega
      · intro c hc
        rcases List.mem_append.1 hc with hc | hc
        · exact h2 c hc
        · rw [List.mem_singleton.1 hc]; exact hd.2
      · intro hnil
        exact h3 (List.append_eq_nil.1 hnil).1

/-- The decimal rendering of a natural number reads back as the number, and consists of
digits only. -/
theorem repr_spec (n : Nat) :
    digitsValue 0 (Nat.repr n).data = n
      ∧ (∀ c ∈ (Nat.repr n).data, isDigit c = true)
      ∧ (Nat.repr n).data ≠ [] := by
  have h := toDigitsCore_spec (n + 1) n (Nat.lt_succ_self n)
  simpa [Nat.repr, Nat.toDigits, List.asString] using h

theorem repr_injective (m n : Nat) (h : Nat.repr m = Nat.repr n) : m = n := by
  rw [← (repr_spec m).1, ← (repr_spec n).1, h]

theorem isDigit_ne_bracket (c : Char) (h : isDigit c = true) :
    c ≠ '[' ∧ c ≠ ']' ∧ c ≠ '.' ∧ c ≠ '-' ∧ c ≠ '+' ∧ isSpace c = false := by
  refine ⟨?_, ?_, ?_, ?_, ?_, ?_⟩ <;>
    first
    | (intro hc; subst hc; revert h; decide)
    | (simp only [isSpace, Bool.or_eq_false_iff, decide_eq_false_iff_not]
       refine ⟨⟨⟨?_, ?_⟩, ?_⟩, ?_⟩ <;> (intro hc; subst hc; revert h; decide))

theorem parseInt_repr (n : Nat) : parseInt (Nat.repr n) = some (n : Int) := by
  obtain ⟨hv, hd, hne⟩ := repr_spec n
  unfold parseInt
  cases hcs : (Nat.repr n).data with
  | nil => exact absurd hcs hne
  | cons c cs =>
    have hc : isDigit c = true := hd c (by rw [hcs]; simp)
    obtain ⟨_, _, _, hm, hp, hs⟩ := isDigit_ne_bracket c hc
    have htw : (c :: cs).takeWhile isDigit = c :: cs := by
      rw [List.takeWhile_eq_self_iff]; intro x hx; exact hd x (by rw [hcs]; exact hx)
    have hdw : (c :: cs).dropWhile isSpace = c :: cs := by
      simp [List.dropWhile, hs]
    rw [hdw]
    have hval : parseNat (c :: cs) = some n := by
      simp only [parseNat, htw]; rw [← hcs, hv]
    split
    · rename_i heq; injection heq with h1 _; exact absurd h1 hm
    · rename_i heq; injection heq with h1 _; exact absurd h1 hp
    · rename_i heq _ _; simp [hval]

end JS

namespace JVal

theorem arrayIndex_repr (i : Nat) : arrayIndex? (Nat.repr i) = some i := by
  simp [arrayIndex?, (JS.repr_spec i).1]

theorem arrayIndex_eq_some (key : String) (i : Nat) (h : arrayIndex? key = some i) :
    key = Nat.repr i := by
  unfold arrayIndex? at h
  split at h
  · rename_i hk; injection h with h; rw [← h, hk]
  · cases h

end JVal

namespace JS

theorem lastIndexOf?_eq_none (c : Char) (l : List Char) (h : c ∉ l) :
    lastIndexOf? c l = none := by
  induction l with
  | nil => rfl
  | cons x xs ih =>
    have hx : x ≠ c := fun e => h (by rw [e]; exact List.mem_cons_self _ _)
    have hxs : c ∉ xs := fun e => h (List.mem_cons_of_mem _ e)
    simp [lastIndexOf?, ih hxs, hx]

theorem lastIndexOf?_append_some (c : Char) (a b : List Char) (i : Nat)
    (h : lastIndexOf? c b = some i) : lastIndexOf? c (a ++ b) = some (a.length + i) := by
  induction a with
  | nil => simpa using h
  | cons x xs ih =>
    show (match lastIndexOf? c (xs ++ b) with
      | some i => some (i + 1)
      | none => if x = c then some 0 else none) = _
    rw [ih]
    simp only [List.length_cons]
    congr 1; omega

/-- Positions of the last brackets of `p[d]` when `d` holds no bracket. -/
theorem lastIndexOf_brackets (p d : List Char) (hd : ∀ c ∈ d, c ≠ '[' ∧ c ≠ ']') :
    lastIndexOf? '[' (p ++ '[' :: (d ++ [']'])) = some p.length
      ∧ lastIndexOf? ']' (p ++ '[' :: (d ++ [']'])) = some (p.length + 1 + d.length) := by
  constructor
  · have h1 : lastIndexOf? '[' (d ++ [']']) = none := by
      apply lastIndexOf?_eq_none
      intro hm
      rcases List.mem_append.1 hm with hm | hm
      · exact (hd _ hm).1 rfl
      · have := List.mem_singleton.1 hm; revert this; decide
    have h2 : lastIndexOf? '[' ('[' :: (d ++ [']'])) = some 0 := by
      simp [lastIndexOf?, h1]
    simpa using lastIndexOf?_append_some '[' p _ 0 h2
  · have h1 : lastIndexOf? ']' [']'] = some 0 := rfl
    have h2 := lastIndexOf?_append_some ']' (p ++ '[' :: d) [']'] 0 h1
    have e : (p ++ '[' :: d).length + 0 = p.length + 1 + d.length := by simp; omega
    rw [e] at h2
    simpa using h2

/-- The two substrings the program cuts out of a path `p[d]`: the index text `d` and the
parent path `p`. -/
theorem substring_brackets (p d : String) (hd : ∀ c ∈ d.data, c ≠ '[' ∧ c ≠ ']') :
    substring (p ++ "[" ++ d ++ "]") (lastIndexOf (p ++ "[" ++ d ++ "]") '[' + 1)
        (lastIndexOf (p ++ "[" ++ d ++ "]") ']') = d
      ∧ substring (p ++ "[" ++ d ++ "]") 0 (lastIndexOf (p ++ "[" ++ d ++ "]") '[') = p := by
  have hdata : (p ++ "[" ++ d ++ "]").data = p.data ++ '[' :: (d.data ++ [']']) := by
    simp [String.data_append]
  obtain ⟨h1, h2⟩ := lastIndexOf_brackets p.data d.data hd
  have hl1 : lastIndexOf (p ++ "[" ++ d ++ "]") '[' = (p.data.length : Int) := by
    simp only [lastIndexOf, hdata, h1]
  have hl2 : lastIndexOf (p ++ "[" ++ d ++ "]") ']' = ((p.data.length + 1 + d.data.length : Nat) : Int) := by
    simp only [lastIndexOf, hdata, h2]
  have hlen : (p.data ++ '[' :: (d.data ++ [']'])).length = p.data.length + 1 + d.data.length + 1 := by
    simp; omega
  constructor
  · rw [hl1, hl2]
    simp only [substring, hdata, hlen]
    have e1 : ((p.data.length : Int) + 1).toNat = p.data.length + 1 := by omega
    have e2 : (((p.data.length + 1 + d.data.length : Nat) : Int)).toNat
        = p.data.length + 1 + d.data.length := by omega
    rw [e1, e2]
    have m1 : min (p.data.length + 1) (p.data.length + 1 + d.data.length + 1)
        = p.data.length + 1 := by omega
    have m2 : min (p.data.length + 1 + d.data.length) (p.data.length + 1 + d.data.length + 1)
        = p.data.length + 1 + d.data.length := by omega
    rw [m1, m2]
    have m3 : max (p.data.length + 1) (p.data.length + 1 + d.data.length)
        = p.data.length + 1 + d.data.length := by omega
    have m4 : min (p.data.length + 1) (p.data.length + 1 + d.data.length)
        = p.data.length + 1 := by omega
    rw [m3, m4]
    apply String.ext
    show List.drop (p.data.length + 1)
      (List.take (p.data.length + 1 + d.data.length) (p.data ++ '[' :: (d.data ++ [']']))) = d.data
    have : p.data ++ '[' :: (d.data ++ [']']) = (p.data ++ ['[']) ++ (d.data ++ [']']) := by simp
    rw [this, List.take_append_eq_append_take, List.drop_append_eq_append_drop]
    simp
  · rw [hl1]
    simp only [substring, hdata, hlen]
    apply String.ext
    have e1 : ((p.data.length : Int)).toNat = p.data.length := by omega
    have e0 : (0 : Int).toNat = 0 := rfl
    have m : min p.data.length (p.data.length + 1 + d.data.length + 1) = p.data.length := by
      omega
    rw [e0, e1, m, Nat.zero_min, Nat.zero_max]
    show List.drop (min 0 p.data.length) (List.take p.data.length _) = p.data
    rw [Nat.zero_min, List.drop_zero]
    exact List.take_left' rfl

end JS

namespace Lodash

theorem baseGet_undef (ks : List String) : baseGet JVal.undef ks = JVal.undef := by
  cases ks <;> rfl

theorem baseGet_cons (v : JVal) (k : String) (ks : List String) :
    baseGet v (k :: ks) = if v.isNullish then JVal.undef else baseGet (v.getKey k) ks := rfl

/-- A value without properties of its own is not the start of a path to an array. -/
theorem baseGet_leaf_ne_arr (v : JVal) (k : String) (ks : List String) (xs : List JVal)
    (hv : ∀ key, v.getKey key = JVal.undef ∨ ∃ n, v.getKey key = .num n) :
    baseGet v (k :: ks) ≠ .arr xs := by
  rw [baseGet_cons]
  split
  · intro h; cases h
  · rcases hv k with h | ⟨n, h⟩
    · rw [h, baseGet_undef]; intro h; cases h
    · rw [h]
      cases ks with
      | nil => intro h; cases h
      | cons k2 ks2 =>
        rw [baseGet_cons]
        simp only [JVal.isNullish, JVal.getKey, baseGet_undef]
        intro h; simp at h

/-- Below a string there are only characters and numbers, never an array. -/
theorem baseGet_str_ne_arr (ks : List String) (s : String) (xs : List JVal) :
    baseGet (.str s) ks ≠ .arr xs := by
  induction ks generalizing s with
  | nil => intro h; cases h
  | cons k ks ih =>
    rw [baseGet_cons]
    simp only [JVal.isNullish, Bool.false_eq_true, if_false, JVal.getKey]
    split
    · cases ks with
      | nil => intro h; cases h
      | cons k2 ks2 => exact baseGet_leaf_ne_arr _ _ _ _ (fun _ => Or.inl rfl)
    · split
      · split
        · exact ih _
        · rw [baseGet_undef]; intro h; cases h
      · rw [baseGet_undef]; intro h; cases h

theorem lookup_replaceField_same (g : JVal → JVal) (kvs : List (String × JVal)) (k : String)
    (h : JVal.hasKey kvs k = true) :
    JVal.lookup (replaceField g kvs k) k = g (JVal.lookup kvs k) := by
  induction kvs with
  | nil => simp [JVal.hasKey] at h
  | cons kv rest ih =>
    obtain ⟨k', w⟩ := kv
    by_cases hk : k' = k
    · simp [replaceField, JVal.lookup, hk]
    · have hr : JVal.hasKey rest k = true := by simpa [JVal.hasKey, hk] using h
      simp [replaceField, JVal.lookup, hk, ih hr]

theorem replaceField_absent (g : JVal → JVal) (kvs : List (String × JVal)) (k : String)
    (h : JVal.hasKey kvs k = false) :
    replaceField g kvs k = kvs ∧ JVal.lookup kvs k = JVal.undef := by
  induction kvs with
  | nil => exact ⟨rfl, rfl⟩
  | cons kv rest ih =>
    obtain ⟨k', w⟩ := kv
    have hk : k' ≠ k := by intro e; simp [JVal.hasKey, e] at h
    have hr : JVal.hasKey rest k = false := by simpa [JVal.hasKey, hk] using h
    simp [replaceField, JVal.lookup, hk, ih hr]

theorem lookup_replaceField_other (g : JVal → JVal) (kvs : List (String × JVal))
    (k q : String) (h : q ≠ k) :
    JVal.lookup (replaceField g kvs k) q = JVal.lookup kvs q := by
  induction kvs with
  | nil => rfl
  | cons kv rest ih =>
    obtain ⟨k', w⟩ := kv
    by_cases hk : k' = k
    · have hq : ¬ k = q := fun e => h e.symm
      subst hk
      simp [replaceField, JVal.lookup, hq]
    · by_cases hq : k' = q
      · subst hq
        simp [replaceField, JVal.lookup, hk]
      · simp [replaceField, JVal.lookup, hk, hq, ih]

theorem length_replaceElem (g : JVal → JVal) (xs : List JVal) (i : Nat) :
    (replaceElem g xs i).length = xs.length := by
  induction xs generalizing i with
  | nil => rfl
  | cons x xs ih => cases i <;> simp [replaceElem, ih]

theorem elemAt_replaceElem_same (g : JVal → JVal) (xs : List JVal) (i : Nat)
    (h : i < xs.length) : JVal.elemAt (replaceElem g xs i) i = g (JVal.elemAt xs i) := by
  induction xs generalizing i with
  | nil => simp at h
  | cons x xs ih =>
    cases i with
    | zero => rfl
    | succ i => exact ih i (by simpa using h)

theorem replaceElem_beyond (g : JVal → JVal) (xs : List JVal) (i : Nat)
    (h : xs.length ≤ i) : replaceElem g xs i = xs ∧ JVal.elemAt xs i = JVal.undef := by
  induction xs generalizing i with
  | nil => exact ⟨rfl, rfl⟩
  | cons x xs ih =>
    cases i with
    | zero => simp at h
    | succ i =>
      have := ih i (by simpa using h)
      simp [replaceElem, JVal.elemAt, this]

theorem elemAt_replaceElem_other (g : JVal → JVal) (xs : List JVal) (i j : Nat)
    (h : j ≠ i) : JVal.elemAt (replaceElem g xs i) j = JVal.elemAt xs j := by
  induction xs generalizing i j with
  | nil => rfl
  | cons x xs ih =>
    cases i with
    | zero =>
      cases j with
      | zero => exact absurd rfl h
      | succ j => rfl
    | succ i =>
      cases j with
      | zero => rfl
      | succ j => exact ih i j (fun e => h (by rw [e]))

theorem elemAt_eq_getElem (xs : List JVal) (i : Nat) (h : i < xs.length) :
    JVal.elemAt xs i = xs[i] := by
  induction xs generalizing i with
  | nil => simp at h
  | cons x xs ih =>
    cases i with
    | zero => rfl
    | succ i => simpa [JVal.elemAt] using ih i (by simpa using h)

/-- The value found along a path is the one that `modifyAt` updates, when it is an array. -/
theorem baseGet_modifyAt (f : JVal → JVal) (ks : List String) (v : JVal) (xs : List JVal)
    (h : baseGet v ks = .arr xs) : baseGet (modifyAt f v ks) ks = f (.arr xs) := by
  induction ks generalizing v with
  | nil =>
    have hv : v = .arr xs := h
    subst hv; rfl
  | cons k ks ih =>
    cases v with
    | undef => exact absurd h (by simp [baseGet, JVal.isNullish])
    | null => exact absurd h (by simp [baseGet, JVal.isNullish])
    | bool b => exact absurd h (baseGet_leaf_ne_arr _ _ _ _ (fun _ => Or.inl rfl))
    | num n => exact absurd h (baseGet_leaf_ne_arr _ _ _ _ (fun _ => Or.inl rfl))
    | fn t => exact absurd h (baseGet_leaf_ne_arr _ _ _ _ (fun _ => Or.inl rfl))
    | rand => exact absurd h (baseGet_leaf_ne_arr _ _ _ _ (fun _ => Or.inl rfl))
    | str s => exact absurd h (baseGet_str_ne_arr _ _ _)
    | obj kvs =>
      have h' : baseGet (JVal.lookup kvs k) ks = .arr xs := by
        simpa [baseGet, JVal.isNullish, JVal.getKey] using h
      show baseGet (.obj (replaceField (fun w => modifyAt f w ks) kvs k)) (k :: ks) = _
      rw [baseGet_cons]
      simp only [JVal.isNullish, JVal.getKey, Bool.false_eq_true, if_false]
      cases hk : JVal.hasKey kvs k with
      | true => rw [lookup_replaceField_same _ _ _ hk]; exact ih _ h'
      | false =>
        rw [(replaceField_absent id kvs k hk).2, baseGet_undef] at h'
        cases h'
    | arr ys =>
      rw [baseGet_cons] at h
      simp only [JVal.isNullish, Bool.false_eq_true, if_false] at h
      by_cases hlen : k = "length"
      · simp only [JVal.getKey, hlen, if_true] at h
        cases ks with
        | nil => cases h
        | cons k2 ks2 =>
          exact absurd h (baseGet_leaf_ne_arr _ _ _ _ (fun _ => Or.inl rfl))
      · simp only [JVal.getKey, hlen, if_false] at h
        cases hi : JVal.arrayIndex? k with
        | none => rw [hi] at h; simp only [baseGet_undef] at h; cases h
        | some i =>
          rw [hi] at h
          simp only at h
          show baseGet (match JVal.arrayIndex? k with
            | some i => .arr (replaceElem (fun w => modifyAt f w ks) ys i)
            | none => .arr ys) (k :: ks) = _
          rw [hi, baseGet_cons]
          simp only [JVal.isNullish, JVal.getKey, hlen, hi, Bool.false_eq_true, if_false]
          by_cases hlt : i < ys.length
          · rw [elemAt_replaceElem_same _ _ _ hlt]; exact ih _ h
          · rw [(replaceElem_beyond id ys i (Nat.le_of_not_lt hlt)).2, baseGet_undef] at h
            cases h

/-- Frame condition of `modifyAt`: a path that neither extends nor is extended by the updated
path reads the same value afterwards. -/
theorem baseGet_modifyAt_other (f : JVal → JVal) (ks : List String) (v : JVal)
    (qs : List String) (h1 : ¬ ks <+: qs) (h2 : ¬ qs <+: ks) :
    baseGet (modifyAt f v ks) qs = baseGet v qs := by
  induction ks generalizing v qs with
  | nil => exact absurd (List.nil_prefix) h1
  | cons k ks ih =>
    cases qs with
    | nil => exact absurd (List.nil_prefix) h2
    | cons q qs =>
      have htail : q = k → ¬ ks <+: qs ∧ ¬ qs <+: ks := by
        intro e; subst e
        exact ⟨fun h => h1 ((List.prefix_cons_inj q).2 h),
          fun h => h2 ((List.prefix_cons_inj q).2 h)⟩
      cases v with
      | undef => rfl
      | null => rfl
      | bool b => rfl
      | num n => rfl
      | fn t => rfl
      | rand => rfl
      | str s => rfl
      | obj kvs =>
        show baseGet (.obj (replaceField (fun w => modifyAt f w ks) kvs k)) (q :: qs) = _
        rw [baseGet_cons, baseGet_cons]
        simp only [JVal.isNullish, JVal.getKey, Bool.false_eq_true, if_false]
        by_cases hq : q = k
        · obtain ⟨t1, t2⟩ := htail hq
          subst hq
          cases hk : JVal.hasKey kvs q with
          | true => rw [lookup_replaceField_same _ _ _ hk]; exact ih _ _ t1 t2
          | false => rw [(replaceField_absent _ kvs q hk).1]
        · rw [lookup_replaceField_other _ _ _ _ hq]
      | arr ys =>
        show baseGet (match JVal.arrayIndex? k with
          | some i => .arr (replaceElem (fun w => modifyAt f w ks) ys i)
          | none => .arr ys) (q :: qs) = _
        cases hi : JVal.arrayIndex? k with
        | none => rfl
        | some i =>
          simp only
          rw [baseGet_cons, baseGet_cons]
          simp only [JVal.isNullish, JVal.getKey, Bool.false_eq_true, if_false,
            length_replaceElem]
          by_cases hlen : q = "length"
          · simp [hlen]
          · simp only [hlen, if_false]
            cases hj : JVal.arrayIndex? q with
            | none => rfl
            | some j =>
              simp only
              by_cases hij : j = i
              · subst hij
                have hq : q = k := by
                  rw [JVal.arrayIndex_eq_some q j hj, JVal.arrayIndex_eq_some k j hi]
                obtain ⟨t1, t2⟩ := htail hq
                by_cases hlt : j < ys.length
                · rw [elemAt_replaceElem_same _ _ _ hlt]; exact ih _ _ t1 t2
                · rw [(replaceElem_beyond _ ys j (Nat.le_of_not_lt hlt)).1]
              · rw [elemAt_replaceElem_other _ _ _ _ hij]

theorem baseGet_append_one (v : JVal) (ks : List String) (k : String) :
    baseGet v (ks ++ [k])
      = if (baseGet v ks).isNullish then JVal.undef else (baseGet v ks).getKey k := by
  induction ks generalizing v with
  | nil =>
    show (if v.isNullish then JVal.undef else baseGet (v.getKey k) []) = _
    rfl
  | cons k2 ks ih =>
    show baseGet v (k2 :: (ks ++ [k])) = _
    rw [baseGet_cons, baseGet_cons]
    by_cases hv : v.isNullish = true
    · rw [if_pos hv, if_pos hv]; rfl
    · rw [if_neg hv, if_neg hv]; exact ih _

/-- A bracketed segment without separators, read after the start of the segment `acc`. -/
theorem stringToPathAux_segment (d acc : List Char) (hd : ∀ c ∈ d, isDelim c = false)
    (hne : acc.reverse ++ d ≠ []) :
    stringToPathAux (d ++ [']']) acc = [String.mk (acc.reverse ++ d)] := by
  induction d generalizing acc with
  | nil =>
    have hacc : acc ≠ [] := by simpa using hne
    have he : acc.isEmpty = false := by cases acc <;> simp at hacc ⊢
    simp [stringToPathAux, isDelim, flush, he]
  | cons c d ih =>
    have hc : isDelim c = false := hd c (List.mem_cons_self _ _)
    have := ih (c :: acc) (fun x hx => hd x (List.mem_cons_of_mem _ hx)) (by simp)
    simp only [List.cons_append, stringToPathAux, hc, Bool.false_eq_true, if_false,
      List.append_eq]
    rw [this]; simp

/-- The keys of the path `p[d]` are the keys of `p` followed by `d`. -/
theorem stringToPathAux_index (p d cur : List Char) (hd : ∀ c ∈ d, isDelim c = false)
    (hne : d ≠ []) :
    stringToPathAux (p ++ '[' :: (d ++ [']'])) cur = stringToPathAux p cur ++ [String.mk d] := by
  induction p generalizing cur with
  | nil =>
    have := stringToPathAux_segment d [] hd (by simpa using hne)
    simp only [List.nil_append, stringToPathAux]
    have hb : isDelim '[' = true := by decide
    simp [hb, this]
  | cons c p ih =>
    simp only [List.cons_append, stringToPathAux, List.append_eq]
    split
    · rw [ih []]; simp
    · rw [ih (c :: cur)]

theorem stringToPath_index (p d : String) (hp : p.data ≠ []) (hd : ∀ c ∈ d.data, isDelim c = false)
    (hne : d.data ≠ []) :
    stringToPath (p ++ "[" ++ d ++ "]") = stringToPath p ++ [d] := by
  have hdata : (p ++ "[" ++ d ++ "]").data = p.data ++ '[' :: (d.data ++ [']']) := by
    simp [String.data_append]
  have e1 : (p.data ++ '[' :: (d.data ++ [']'])).isEmpty = false := by
    cases p.data <;> simp
  have e2 : p.data.isEmpty = false := by
    cases h : p.data <;> simp [h] at hp ⊢
  simp only [stringToPath, hdata, e1, e2, Bool.false_eq_true, if_false]
  rw [stringToPathAux_index _ _ _ hd hne]

end Lodash


/-! ## Affordances of a header node (`HeaderField.jsx`) -/

namespace HeaderFieldJsx

/-- What `HeaderOptions` returns, in terms of the three visibility flags it computes. -/
theorem headerOptions_eq (add remove showMenu : Bool) (metadata : JVal) (xpath : String)
    (hx : metadata.getKey "xpath" = .str xpath) :
    HeaderOptions add remove showMenu metadata = .ok
      (if (add && !JS.endsWith xpath ']') || (add && JS.endsWith xpath ']')
          || (remove && JS.endsWith xpath ']') then
        if showMenu then
          .menu ((if add && !JS.endsWith xpath ']'
              then [Control.add xpath (metadata.getKey "ref")] else [])
            ++ (if add && JS.endsWith xpath ']'
              then [Control.copy xpath (metadata.getKey "ref")] else [])
            ++ (if remove && JS.endsWith xpath ']' then [Control.remove xpath] else []))
        else .moreOptions
      else .nothing) := by
  unfold HeaderOptions
  rw [hx]
  simp only [JVal.asStr, bind, Except.bind, pure, Except.pure]
  split <;> rename_i h
  · split <;> rfl
  · rfl

/-- The buttons of the open menu, in terms of the flags handed to `HeaderOptions`. -/
theorem headerOptions_menu (add remove : Bool) (metadata : JVal) (xpath : String)
    (hx : metadata.getKey "xpath" = .str xpath) :
    ∃ r, HeaderOptions add remove true metadata = .ok r
      ∧ r.hasAdd = (add && !JS.endsWith xpath ']')
      ∧ r.hasCopy = (add && JS.endsWith xpath ']')
      ∧ r.hasRemove = (remove && JS.endsWith xpath ']') := by
  refine ⟨_, headerOptions_eq add remove true metadata xpath hx, ?_⟩
  cases add <;> cases remove <;> cases JS.endsWith xpath ']' <;>
    simp [Rendered.hasAdd, Rendered.hasCopy, Rendered.hasRemove]

end HeaderFieldJsx

namespace HeaderFieldJsx

/-- C7: in `HeaderOptions`, for all flags `add`, `remove` and every path, the Add button is
only shown on a container (path not ending in `]`), the Copy and Remove buttons only on an
array element (path ending in `]`), so Add never appears together with Copy or Remove; and
the component returns `null` exactly when none of `showAdd`, `showCopy`, `showRemove` holds. -/
theorem headerOptions_visibility (add remove showMenu : Bool) (metadata : JVal) (xpath : String)
    (hx : metadata.getKey "xpath" = .str xpath) :
    ∃ r, HeaderOptions add remove showMenu metadata = .ok r
      ∧ (r.hasAdd = true → JS.endsWith xpath ']' = false)
      ∧ (r.hasCopy = true → JS.endsWith xpath ']' = true)
      ∧ (r.hasRemove = true → JS.endsWith xpath ']' = true)
      ∧ ¬ (r.hasAdd = true ∧ (r.hasCopy = true ∨ r.hasRemove = true))
      ∧ r.isNothing = !((add && !JS.endsWith xpath ']') || (add && JS.endsWith xpath ']')
          || (remove && JS.endsWith xpath ']')) := by
  refine ⟨_, headerOptions_eq add remove showMenu metadata xpath hx, ?_⟩
  cases add <;> cases remove <;> cases showMenu <;> cases JS.endsWith xpath ']' <;>
    simp [Rendered.hasAdd, Rendered.hasCopy, Rendered.hasRemove, Rendered.isNothing]

/-- Witness of C7: an array element with both flags set shows Copy and Remove, not Add. -/
theorem headerOptions_visibility_witness :
    ∃ r, HeaderOptions true true true (.obj [("xpath", .str "a[0]")]) = .ok r
      ∧ (r.hasAdd = true → JS.endsWith "a[0]" ']' = false)
      ∧ (r.hasCopy = true → JS.endsWith "a[0]" ']' = true)
      ∧ (r.hasRemove = true → JS.endsWith "a[0]" ']' = true)
      ∧ ¬ (r.hasAdd = true ∧ (r.hasCopy = true ∨ r.hasRemove = true))
      ∧ r.isNothing = !((true && !JS.endsWith "a[0]" ']') || (true && JS.endsWith "a[0]" ']')
          || (true && JS.endsWith "a[0]" ']')) :=
  headerOptions_visibility true true true (.obj [("xpath", .str "a[0]")]) "a[0]" rfl

/-- C4, the code at a failing input: an optional object node in edit mode that carries
`object-remove` (its data is present in the working copy) and whose path is `a.b`.
`HeaderField` computes the flag `remove` from `object-remove`, but `HeaderOptions` shows the
Remove button only at a path that ends in `]`: the node is offered no Remove button, and
`HeaderOptions` returns `null` whether the menu is open or not. -/
theorem headerField_remove_counterexample :
    (optionalObjectNode.getKey "mode").strictEq (.str sampleConsts.EDIT) = true
      ∧ (optionalObjectNode.getKey "type").strictEq (.str sampleConsts.OBJECT) = true
      ∧ (optionalObjectNode.getKey "required").truthy = false
      ∧ (optionalObjectNode.getKey "object-remove").truthy = true
      ∧ (headerFlags sampleConsts optionalObjectNode).2 = true
      ∧ (HeaderField sampleConsts optionalObjectNode true).toOption.map Rendered.hasRemove
          = some false
      ∧ (HeaderField sampleConsts optionalObjectNode true).toOption.map Rendered.isNothing
          = some true
      ∧ (HeaderField sampleConsts optionalObjectNode false).toOption.map Rendered.isNothing
          = some true := by
  decide

end HeaderFieldJsx

/-! ## Header state and frame conditions (`treeHelper.js`) -/

namespace TreeHelper

/-- C5: `determineHeaderState` returns a state in which `add` and `remove` are both defined
and never both true: they are both false when the baseline value at `xpath` is defined and
the schema has its own property `orm_no_update`; otherwise `add` holds exactly when the
working-copy value at `xpath` is `null`, and `remove` exactly when it is not. -/
theorem determineHeaderState_spec (data originalData xpath currentSchema : JVal) (own : Bool)
    (hown : currentSchema.hasOwnProperty "orm_no_update" = .ok own) :
    ∃ add remove : Bool,
      determineHeaderState data originalData xpath currentSchema
          = .ok (.obj [("add", .bool add), ("remove", .bool remove)])
        ∧ ¬ (add = true ∧ remove = true)
        ∧ ((Lodash.get originalData xpath).isUndef = false → own = true →
            add = false ∧ remove = false)
        ∧ (¬ ((Lodash.get originalData xpath).isUndef = false ∧ own = true) →
            add = (Lodash.get data xpath).isNull ∧ remove = !(Lodash.get data xpath).isNull) := by
  unfold determineHeaderState
  cases ho : (Lodash.get originalData xpath).isUndef <;>
    cases hd : (Lodash.get data xpath).isNull <;> cases own <;>
    simp [hown, ho, hd, bind, Except.bind, pure, Except.pure, JVal.setProp, JVal.setField]

/-- Witness of C5: a schema marked `orm_no_update` whose baseline value is defined. -/
theorem determineHeaderState_spec_witness :
    ∃ add remove : Bool,
      determineHeaderState (.obj [("a", .null)]) (.obj [("a", .num 1)]) (.str "a")
          (.obj [("orm_no_update", .bool true)])
          = .ok (.obj [("add", .bool add), ("remove", .bool remove)])
        ∧ ¬ (add = true ∧ remove = true)
        ∧ ((Lodash.get (.obj [("a", .num 1)]) (.str "a")).isUndef = false → true = true →
            add = false ∧ remove = false)
        ∧ (¬ ((Lodash.get (.obj [("a", .num 1)]) (.str "a")).isUndef = false ∧ true = true) →
            add = (Lodash.get (.obj [("a", .null)]) (.str "a")).isNull
              ∧ remove = !(Lodash.get (.obj [("a", .null)]) (.str "a")).isNull) :=
  determineHeaderState_spec (.obj [("a", .null)]) (.obj [("a", .num 1)]) (.str "a")
    (.obj [("orm_no_update", .bool true)]) true rfl

/-- C6: when the value of an object property is `undefined` both in the working copy (at
`dataxpath`) and in the baseline (at `xpath`), `handleObjectWithItems` returns at once: the
tree and the recorded tree state it was given come back unchanged. -/
theorem handleObjectWithItems_absent (C : Consts) (U : Utils) (addNode : AddNode) (tree : Tree)
    (schema currentSchema propname : JVal) (callerProps : CallerProps)
    (dataxpath type xpath : JVal) (treeState : TreeState)
    (hdata : Lodash.get callerProps.data dataxpath = JVal.undef)
    (horig : Lodash.get callerProps.originalData xpath = JVal.undef) :
    handleObjectWithItems C U addNode tree schema currentSchema propname callerProps dataxpath
      type xpath treeState = .ok (tree, treeState) := by
  simp [handleObjectWithItems, hdata, horig, JVal.isUndef, pure, Except.pure]

/-- Witness of C6: the property `b` is absent from both documents. -/
theorem handleObjectWithItems_absent_witness :
    handleObjectWithItems sampleConsts
      ⟨[], [], [], fun _ _ => .ok JVal.undef, fun _ _ _ => .ok JVal.undef,
        fun _ _ => .ok JVal.undef, fun _ n _ _ _ => .ok n, fun _ x => .ok x,
        fun _ _ _ => .ok (.bool true), fun _ => .ok JVal.undef, fun _ => .ok JVal.undef,
        fun _ => .ok JVal.undef, fun _ _ _ _ _ => .ok JVal.undef⟩
      (fun _ _ _ _ _ _ _ _ _ => .error .outOfFuel)
      [.obj [("xpath", .str "a")]] (.obj []) (.obj []) (.str "b")
      { data := .obj [("a", .num 1)], originalData := .obj [("a", .num 1)], mode := .str "edit" }
      (.str "b") .null (.str "b") [("a", .bool true)]
      = .ok ([.obj [("xpath", .str "a")]], [("a", .bool true)]) :=
  handleObjectWithItems_absent _ _ _ _ _ _ _ _ _ _ _ _ rfl rfl

end TreeHelper

/-! ## The click handler (`DataTree.jsx`) -/

namespace DataTreeJsx

/-- C8: `handleClick` rejects misdirected actions: a `data-remove` whose path does not end in
`]`, a `data-add` whose path ends in `]`, and a `data-addcopy` whose path does not end in
`]` make the handler return after `handleExpand`, without a call of `onUpdate` and without
an exception. -/
theorem handleClick_rejects (C : Consts) (U : Utils) (P : Props) (attrs : Attrs) (x : String) :
    (attrs.dataRemove = some x → JS.endsWith x ']' = false →
        handleClick C U P (some attrs) = ⟨[.handleExpand], none⟩)
      ∧ (attrs.dataRemove = none → attrs.dataAdd = some x → JS.endsWith x ']' = true →
        handleClick C U P (some attrs) = ⟨[.handleExpand], none⟩)
      ∧ (attrs.dataRemove = none → attrs.dataAdd = none → attrs.dataAddcopy = some x →
        JS.endsWith x ']' = false →
        handleClick C U P (some attrs) = ⟨[.handleExpand], none⟩) := by
  refine ⟨?_, ?_, ?_⟩
  · intro h1 h2; simp [handleClick, h1, h2]
  · intro h1 h2 h3; simp [handleClick, h1, h2, h3]
  · intro h1 h2 h3 h4; simp [handleClick, h1, h2, h3, h4]

end DataTreeJsx

namespace Lodash

theorem get_def (o path : JVal) :
    get o path = if castPath path = [] then JVal.undef else baseGet o (castPath path) := by
  unfold get
  cases castPath path <;> simp

theorem get_modifyAt (f : JVal → JVal) (o path : JVal) (xs : List JVal)
    (h : get o path = .arr xs) : get (modifyAt f o (castPath path)) path = f (.arr xs) := by
  rw [get_def] at h ⊢
  by_cases hp : castPath path = []
  · rw [if_pos hp] at h; cases h
  · rw [if_neg hp] at h ⊢; exact baseGet_modifyAt f _ _ _ h

theorem get_modifyAt_other (f : JVal → JVal) (o path q : JVal)
    (h1 : ¬ castPath path <+: castPath q) (h2 : ¬ castPath q <+: castPath path) :
    get (modifyAt f o (castPath path)) q = get o q := by
  rw [get_def, get_def]
  by_cases hq : castPath q = []
  · rw [if_pos hq, if_pos hq]
  · rw [if_neg hq, if_neg hq]; exact baseGet_modifyAt_other f _ _ _ h1 h2

end Lodash

namespace JS

theorem repr_no_bracket (i : Nat) : ∀ c ∈ (Nat.repr i).data, c ≠ '[' ∧ c ≠ ']' := by
  intro c hc
  have := isDigit_ne_bracket c ((repr_spec i).2.1 c hc)
  exact ⟨this.1, this.2.1⟩

end JS

namespace DataTreeJsx

/-- C9: a remove click on an array element whose resolved data path is `p[i]`, with `i`
within the working-copy array at `p`, makes exactly one call of `onUpdate`, with action
`remove` and a document in which the array at `p` is the previous array without its element
`i` (one element fewer, the others in their order), and which agrees with the previous
working copy at every path that neither extends `p` nor is extended by it.  The update is
made on the copy returned by `cloneDeep`; the working copy itself is only read. -/
theorem handleClick_remove (C : Consts) (U : Utils) (P : Props) (attrs : Attrs)
    (xpathAttr p : String) (i : Nat) (xs : List JVal)
    (hattr : attrs.dataRemove = some xpathAttr)
    (hchild : JS.endsWith xpathAttr ']' = true)
    (hres : U.getDataxpath P.updatedData xpathAttr
      = .ok (.str (p ++ "[" ++ Nat.repr i ++ "]")))
    (harr : Lodash.get P.updatedData (.str p) = .arr xs)
    (hi : i < xs.length) :
    ∃ updatedObj,
      handleClick C U P (some attrs)
          = ⟨[.handleExpand, .onUpdate updatedObj "remove"], none⟩
        ∧ Lodash.get updatedObj (.str p) = .arr (xs.eraseIdx i)
        ∧ (xs.eraseIdx i).length + 1 = xs.length
        ∧ ∀ q : JVal, ¬ Lodash.castPath (.str p) <+: Lodash.castPath q →
            ¬ Lodash.castPath q <+: Lodash.castPath (.str p) →
            Lodash.get updatedObj q = Lodash.get P.updatedData q := by
  obtain ⟨hs1, hs2⟩ := JS.substring_brackets p (Nat.repr i) (JS.repr_no_bracket i)
  have hrun : removeElement U P xpathAttr
      = .ok (Lodash.modifyAt (spliceItem (some (i : Int))) P.updatedData
          (Lodash.castPath (.str p))) := by
    simp only [removeElement, Lodash.cloneDeep, hres, bind, Except.bind, JVal.asStr, hs1, hs2,
      JS.parseInt_repr, harr, JVal.asArr, pure, Except.pure]
  have hsplice : spliceItem (some (i : Int)) (.arr xs) = .arr (xs.eraseIdx i) := by
    simp [spliceItem, splice1]
  refine ⟨Lodash.modifyAt (spliceItem (some (i : Int))) P.updatedData
    (Lodash.castPath (.str p)), ?_, ?_, ?_, ?_⟩
  · simp only [handleClick, hattr, hchild, hrun, finish]; rfl
  · rw [Lodash.get_modifyAt _ _ _ _ harr, hsplice]
  · rw [List.length_eraseIdx, if_pos hi]; omega
  · intro q h1 h2
    exact Lodash.get_modifyAt_other _ _ _ _ h1 h2

end DataTreeJsx

namespace JVal

theorem repr_ne_length (i : Nat) : Nat.repr i ≠ "length" := by
  intro h
  have hd := (JS.repr_spec i).2.1 'l' (by rw [h]; decide)
  revert hd; decide

theorem getKey_arr_repr (xs : List JVal) (i : Nat) :
    (JVal.arr xs).getKey (Nat.repr i) = elemAt xs i := by
  simp [getKey, repr_ne_length, arrayIndex_repr]

end JVal

namespace DataTreeJsx

theorem intToString_pred (n : Nat) (h : 0 < n) :
    JS.intToString ((n : Int) - 1) = Nat.repr (n - 1) := by
  have h1 : ¬ ((n : Int) - 1 < 0) := by omega
  have h2 : ((n : Int) - 1).toNat = n - 1 := by omega
  simp [JS.intToString, h1, h2]

theorem nextParentIndex_nil : nextParentIndex (.arr []) = .ok (some 0) := rfl

/-- The index that follows the logical index of the last element: one more than the number
read between the last brackets of its first `xpath_` property. -/
theorem nextParentIndex_last (xs : List JVal) (keys : List String) (key v : String) (k : Int)
    (hne : xs ≠ [])
    (hkeys : (JVal.elemAt xs (xs.length - 1)).keys = .ok keys)
    (hkey : keys.find? (fun key => JS.startsWith key "xpath_") = some key)
    (hv : (JVal.elemAt xs (xs.length - 1)).getKey key = .str v)
    (hk : JS.parseInt (JS.substring v (JS.lastIndexOf v '[' + 1) (JS.lastIndexOf v ']'))
      = some k) :
    nextParentIndex (.arr xs) = .ok (some (k + 1)) := by
  have hpos : 0 < xs.length := List.length_pos.2 hne
  have hlen : (JVal.arr xs).prop "length" = .ok (.num xs.length) := by
    simp [JVal.prop, JVal.isNullish, JVal.getKey]
  have hgt : gtZero (.num xs.length) = .ok true := by
    simp [gtZero, hpos]
  have hlast : (JVal.arr xs).getKey (JS.intToString ((xs.length : Int) - 1))
      = JVal.elemAt xs (xs.length - 1) := by
    rw [intToString_pred _ hpos, JVal.getKey_arr_repr]
  simp only [nextParentIndex, hlen, hgt, bind, Except.bind, pure, Except.pure, if_true, hlast,
    hkeys, hkey, Option.getD, hv, JVal.asStr, hk, Option.map]

theorem baseline_length_arr (ys : List JVal) :
    toNumber (((JVal.arr ys).optProp "length").or (.num 0)) = .ok (some (ys.length : Int)) := by
  by_cases h : ys.length = 0
  · simp [JVal.optProp, JVal.isNullish, JVal.getKey, JVal.or, JVal.truthy, toNumber, h]
  · have h' : ¬ ((ys.length : Int) = 0) := by omega
    simp [JVal.optProp, JVal.isNullish, JVal.getKey, JVal.or, JVal.truthy, toNumber, h']

theorem baseline_length_absent :
    toNumber ((JVal.undef.optProp "length").or (.num 0)) = .ok (some 0) := rfl

theorem ensureArray_snd (o path : JVal) :
    (ensureArray o path).2 = Lodash.get (ensureArray o path).1 path := by
  simp only [ensureArray]
  cases (Lodash.get o path).truthy <;> rfl

theorem ensureArray_present (o path : JVal) (xs : List JVal)
    (h : Lodash.get o path = .arr xs) : ensureArray o path = (o, .arr xs) := by
  simp [ensureArray, h, JVal.truthy]

end DataTreeJsx

namespace DataTreeJsx

theorem pushAt_arr (doc path item : JVal) (xs : List JVal)
    (h : Lodash.get doc path = .arr xs) :
    pushAt doc path (.arr xs) item
        = .ok (Lodash.modifyAt (appendItem item) doc (Lodash.castPath path))
      ∧ Lodash.get (Lodash.modifyAt (appendItem item) doc (Lodash.castPath path)) path
        = .arr (xs ++ [item]) := by
  refine ⟨rfl, ?_⟩
  rw [Lodash.get_modifyAt _ _ _ _ h]; rfl

/-- C10: an add click on an array-of-objects container with resolved data path `p` appends
the new element as the last element of the working-copy array (created empty when absent)
and stamps it through `addxpath` with the path `p[m]`, where `m` is the maximum of the
baseline length at `p` (0 when absent) and `next`, the index parsed from the `xpath_`
property of the last working-copy element plus one (0 for an empty array).  Hence `m` is at
least the baseline length, exceeds the last element's logical index, and is no baseline
index; paths unrelated to `p` keep their values. -/
theorem handleClick_add (C : Consts) (U : Utils) (P : Props) (attrs : Attrs)
    (xpathAttr p ref propText : String)
    (currentSchema additionalProps doc emptyObject stamped : JVal)
    (xs ys : List JVal) (next : Int)
    (hrem : attrs.dataRemove = none) (hattr : attrs.dataAdd = some xpathAttr)
    (hcont : JS.endsWith xpathAttr ']' = false)
    (hres : U.getDataxpath P.updatedData xpathAttr = .ok (.str p))
    (href : attrs.dataRef = some ref)
    (hobj : JVal.arrIncludes [.str C.NUMBER, .str C.STRING] (.str ref) = false)
    (hschema : resolveRef P.projectSchema (JS.split ref '/') = .ok currentSchema)
    (hprop : attrs.dataProp = some propText)
    (hparse : U.jsonParse propText = .ok additionalProps)
    (henum : isEnumOnly currentSchema = .ok false)
    (hens : ensureArray P.updatedData (.str p) = (doc, .arr xs))
    (hbase : Lodash.get P.storedData (.str p) = .arr ys
      ∨ (Lodash.get P.storedData (.str p) = JVal.undef ∧ ys = []))
    (hlast : (xs = [] ∧ next = 0) ∨ ∃ keys key v k, xs ≠ []
      ∧ (JVal.elemAt xs (xs.length - 1)).keys = .ok keys
      ∧ keys.find? (fun key => JS.startsWith key "xpath_") = some key
      ∧ (JVal.elemAt xs (xs.length - 1)).getKey key = .str v
      ∧ JS.parseInt (JS.substring v (JS.lastIndexOf v '[' + 1) (JS.lastIndexOf v ']')) = some k
      ∧ next = k + 1)
    (hgen : U.generateObjectFromSchema P.projectSchema currentSchema additionalProps none
      = .ok emptyObject)
    (hstamp : U.addxpath emptyObject
      (p ++ "[" ++ JS.intToString (max (ys.length : Int) next) ++ "]") = .ok stamped) :
    ∃ updatedObj,
      handleClick C U P (some attrs) = ⟨[.handleExpand, .onUpdate updatedObj "add"], none⟩
        ∧ Lodash.get updatedObj (.str p) = .arr (xs ++ [stamped])
        ∧ (ys.length : Int) ≤ max (ys.length : Int) next
        ∧ next - 1 < max (ys.length : Int) next
        ∧ (∀ j : Nat, j < ys.length → (j : Int) ≠ max (ys.length : Int) next)
        ∧ ∀ q : JVal, ¬ Lodash.castPath (.str p) <+: Lodash.castPath q →
            ¬ Lodash.castPath q <+: Lodash.castPath (.str p) →
            Lodash.get updatedObj q = Lodash.get doc q := by
  have hget : Lodash.get doc (.str p) = .arr xs := by
    have := ensureArray_snd P.updatedData (.str p)
    rw [hens] at this; exact this.symm
  have hnext : nextParentIndex (.arr xs) = .ok (some next) := by
    rcases hlast with ⟨h1, h2⟩ | ⟨keys, key, v, k, h1, h2, h3, h4, h5, h6⟩
    · subst h1; subst h2; rfl
    · rw [h6]; exact nextParentIndex_last xs keys key v k h1 h2 h3 h4 h5
  have horig : toNumber (((Lodash.get P.storedData (.str p)).optProp "length").or (.num 0))
      = .ok (some (ys.length : Int)) := by
    rcases hbase with h | ⟨h, hy⟩
    · rw [h]; exact baseline_length_arr ys
    · rw [h, hy]; rfl
  obtain ⟨hpush, hresult⟩ := pushAt_arr doc (.str p) stamped xs hget
  have hrun : addElement C U P attrs xpathAttr
      = .ok (Lodash.modifyAt (appendItem stamped) doc (Lodash.castPath (.str p))) := by
    simp only [addElement, Lodash.cloneDeep, hres, href, attrValue, hobj, hschema, hprop, hparse,
      henum, hens, hnext, horig, hgen, mathMax, JS.numToString, JVal.toStr, hstamp, hpush,
      bind, Except.bind, pure, Except.pure, Bool.false_eq_true, if_false]
  refine ⟨Lodash.modifyAt (appendItem stamped) doc (Lodash.castPath (.str p)), ?_, hresult,
    le_max_left _ _, ?_, ?_, ?_⟩
  · simp only [handleClick, hrem, hattr, hcont, hrun, finish]; rfl
  · have := le_max_right (ys.length : Int) next; omega
  · intro j hj; have := le_max_left (ys.length : Int) next; omega
  · intro q h1 h2
    exact Lodash.get_modifyAt_other _ _ _ _ h1 h2

end DataTreeJsx

namespace DataTreeJsx

/-- C11: a duplicate click on an array element with resolved data path `p[i]`.  If the
working copy holds a truthy value there, `onUpdate` is called once, with action `add` and a
document in which the array at `p` is the previous array followed by one new element, the
copy stamped through `addxpath` with the path `p[m]`, `m` being the maximum of the baseline
length at `p` and the last element's logical index plus one; the previous elements keep
their values and positions and unrelated paths keep their values.  If the value at `p[i]` is
falsy or missing, `onUpdate` is not called. -/
theorem handleClick_duplicate (C : Consts) (U : Utils) (P : Props) (attrs : Attrs)
    (xpathAttr p : String) (i : Nat)
    (hrem : attrs.dataRemove = none) (hadd : attrs.dataAdd = none)
    (hattr : attrs.dataAddcopy = some xpathAttr)
    (hchild : JS.endsWith xpathAttr ']' = true)
    (hres : U.getDataxpath P.updatedData xpathAttr
      = .ok (.str (p ++ "[" ++ Nat.repr i ++ "]"))) :
    (∀ (ref propText : String) (currentSchema additionalProps cleared withoutId dupObj
        stamped : JVal) (xs ys : List JVal) (next : Int),
      attrs.dataRef = some ref →
      (Lodash.get P.updatedData (.str (p ++ "[" ++ Nat.repr i ++ "]"))).truthy = true →
      U.clearxpath (Lodash.get P.updatedData (.str (p ++ "[" ++ Nat.repr i ++ "]")))
        = .ok cleared →
      U.clearId cleared = .ok withoutId →
      Lodash.get P.updatedData (.str p) = .arr xs →
      (Lodash.get P.storedData (.str p) = .arr ys
        ∨ (Lodash.get P.storedData (.str p) = JVal.undef ∧ ys = [])) →
      ((xs = [] ∧ next = 0) ∨ ∃ keys key v k, xs ≠ []
        ∧ (JVal.elemAt xs (xs.length - 1)).keys = .ok keys
        ∧ keys.find? (fun key => JS.startsWith key "xpath_") = some key
        ∧ (JVal.elemAt xs (xs.length - 1)).getKey key = .str v
        ∧ JS.parseInt (JS.substring v (JS.lastIndexOf v '[' + 1) (JS.lastIndexOf v ']'))
          = some k
        ∧ next = k + 1) →
      resolveRef P.projectSchema (JS.split ref '/') = .ok currentSchema →
      attrs.dataProp = some propText →
      U.jsonParse propText = .ok additionalProps →
      U.generateObjectFromSchema P.projectSchema currentSchema additionalProps (some withoutId)
        = .ok dupObj →
      U.addxpath dupObj (p ++ "[" ++ JS.intToString (max (ys.length : Int) next) ++ "]")
        = .ok stamped →
      ∃ updatedObj,
        handleClick C U P (some attrs) = ⟨[.handleExpand, .onUpdate updatedObj "add"], none⟩
          ∧ Lodash.get updatedObj (.str p) = .arr (xs ++ [stamped])
          ∧ (xs ++ [stamped]).length = xs.length + 1
          ∧ (∀ j, j < xs.length → (xs ++ [stamped])[j]? = xs[j]?)
          ∧ ∀ q : JVal, ¬ Lodash.castPath (.str p) <+: Lodash.castPath q →
              ¬ Lodash.castPath q <+: Lodash.castPath (.str p) →
              Lodash.get updatedObj q = Lodash.get P.updatedData q)
      ∧ ((Lodash.get P.updatedData (.str (p ++ "[" ++ Nat.repr i ++ "]"))).truthy = false →
          (handleClick C U P (some attrs)).effects = [.handleExpand]) := by
  obtain ⟨_, hs2⟩ := JS.substring_brackets p (Nat.repr i) (JS.repr_no_bracket i)
  constructor
  · intro ref propText currentSchema additionalProps cleared withoutId dupObj stamped xs ys next
      href htruthy hclear hclearId harr hbase hlast hschema hprop hparse hgen hstamp
    have hens := ensureArray_present P.updatedData (.str p) xs harr
    have hnext : nextParentIndex (.arr xs) = .ok (some next) := by
      rcases hlast with ⟨h1, h2⟩ | ⟨keys, key, v, k, h1, h2, h3, h4, h5, h6⟩
      · subst h1; subst h2; rfl
      · rw [h6]; exact nextParentIndex_last xs keys key v k h1 h2 h3 h4 h5
    have horig : toNumber (((Lodash.get P.storedData (.str p)).optProp "length").or (.num 0))
        = .ok (some (ys.length : Int)) := by
      rcases hbase with h | ⟨h, hy⟩
      · rw [h]; exact baseline_length_arr ys
      · rw [h, hy]; rfl
    obtain ⟨hpush, hresult⟩ := pushAt_arr P.updatedData (.str p) stamped xs harr
    have hrun : duplicateElement U P attrs xpathAttr
        = .ok (some (Lodash.modifyAt (appendItem stamped) P.updatedData
            (Lodash.castPath (.str p)))) := by
      simp only [duplicateElement, Lodash.cloneDeep, hres, href, attrValue, htruthy, hclear,
        hclearId, JVal.asStr, hs2, hens, hnext, horig, hschema, hprop, hparse, hgen, mathMax,
        JS.numToString, hstamp, hpush, bind, Except.bind, pure, Except.pure, Bool.not_true,
        Bool.false_eq_true, if_false]
    refine ⟨Lodash.modifyAt (appendItem stamped) P.updatedData (Lodash.castPath (.str p)),
      ?_, hresult, by simp, ?_, ?_⟩
    · simp only [handleClick, hrem, hadd, hattr, hchild, hrun]; rfl
    · intro j hj; exact List.getElem?_append_left hj
    · intro q h1 h2
      exact Lodash.get_modifyAt_other _ _ _ _ h1 h2
  · intro hfalsy
    cases href : attrs.dataRef with
    | none =>
      have hrun : duplicateElement U P attrs xpathAttr = .error .typeError := by
        simp only [duplicateElement, Lodash.cloneDeep, hres, href, attrValue, bind, Except.bind]
      simp only [handleClick, hrem, hadd, hattr, hchild, hrun]; rfl
    | some ref =>
      have hrun : duplicateElement U P attrs xpathAttr = .ok none := by
        simp only [duplicateElement, Lodash.cloneDeep, hres, href, attrValue, hfalsy, bind,
          Except.bind, pure, Except.pure, Bool.not_false, if_true]
      simp only [handleClick, hrem, hadd, hattr, hchild, hrun]; rfl

end DataTreeJsx

namespace DataTreeJsx

/-- Witness of C8: a remove click on the container `items` is rejected. -/
theorem handleClick_rejects_witness :
    handleClick sampleConsts sampleUtils sampleProps (some { dataRemove := some "items" })
      = ⟨[.handleExpand], none⟩ :=
  (handleClick_rejects sampleConsts sampleUtils sampleProps { dataRemove := some "items" }
    "items").1 rfl (by decide)

/-- Witness of C9: removing the first of the two elements of `items`. -/
theorem handleClick_remove_witness :
    ∃ updatedObj,
      handleClick sampleConsts sampleUtils sampleProps (some { dataRemove := some "items[0]" })
          = ⟨[.handleExpand, .onUpdate updatedObj "remove"], none⟩
        ∧ Lodash.get updatedObj (.str "items")
          = .arr [.obj [("name", .str "b"), ("xpath_name", .str "items[1].name")]] :=
  let ⟨o, h1, h2, _⟩ := handleClick_remove sampleConsts sampleUtils sampleProps
    { dataRemove := some "items[0]" } "items[0]" "items" 0
    [.obj [("name", .str "a"), ("xpath_name", .str "items[0].name")],
      .obj [("name", .str "b"), ("xpath_name", .str "items[1].name")]]
    rfl (by decide) rfl rfl (by decide)
  ⟨o, h1, h2⟩

/-- Witness of C10: adding to `items`, whose baseline has one element and whose last
working-copy element has logical index 1, stamps the new element with index 2. -/
theorem handleClick_add_witness :
    ∃ updatedObj,
      handleClick sampleConsts sampleUtils sampleProps
          (some sampleAddAttrs)
          = ⟨[.handleExpand, .onUpdate updatedObj "add"], none⟩
        ∧ Lodash.get updatedObj (.str "items")
          = .arr [.obj [("name", .str "a"), ("xpath_name", .str "items[0].name")],
              .obj [("name", .str "b"), ("xpath_name", .str "items[1].name")],
              .obj [("name", .null), ("xpath_name", .str "items[2].name")]] :=
  let ⟨o, h1, h2, _⟩ := handleClick_add sampleConsts sampleUtils sampleProps
    sampleAddAttrs
    "items" "items" "#/definitions/item" "\x7b\x7d"
    (.obj [("type", .str "object"),
      ("properties", .obj [("name", .obj [("type", .str "string")])])])
    (.obj []) sampleProps.updatedData (.obj [("name", .null)])
    (.obj [("name", .null), ("xpath_name", .str "items[2].name")])
    [.obj [("name", .str "a"), ("xpath_name", .str "items[0].name")],
      .obj [("name", .str "b"), ("xpath_name", .str "items[1].name")]]
    [.obj [("name", .str "a"), ("xpath_name", .str "items[0].name")]]
    2 rfl rfl (by decide) rfl rfl (by decide) rfl rfl rfl rfl rfl (Or.inl rfl)
    (Or.inr ⟨["name", "xpath_name"], "xpath_name", "items[1].name", 1, by simp, rfl,
      by decide, rfl, by decide, rfl⟩)
    rfl rfl
  ⟨o, h1, h2⟩

/-- Witness of C11: duplicating the second element of `items` appends a copy stamped with
index 2. -/
theorem handleClick_duplicate_witness :
    ∃ updatedObj,
      handleClick sampleConsts sampleUtils sampleProps
          (some sampleCopyAttrs)
          = ⟨[.handleExpand, .onUpdate updatedObj "add"], none⟩
        ∧ Lodash.get updatedObj (.str "items")
          = .arr [.obj [("name", .str "a"), ("xpath_name", .str "items[0].name")],
              .obj [("name", .str "b"), ("xpath_name", .str "items[1].name")],
              .obj [("name", .str "b"), ("xpath_name", .str "items[2].name")]] :=
  let ⟨o, h1, h2, _⟩ := (handleClick_duplicate sampleConsts sampleUtils sampleProps
    sampleCopyAttrs
    "items[1]" "items" 1 rfl rfl rfl (by decide) rfl).1
    "#/definitions/item" "\x7b\x7d"
    (.obj [("type", .str "object"),
      ("properties", .obj [("name", .obj [("type", .str "string")])])])
    (.obj [])
    (.obj [("name", .str "b"), ("xpath_name", .str "items[1].name")])
    (.obj [("name", .str "b"), ("xpath_name", .str "items[1].name")])
    (.obj [("name", .str "b"), ("xpath_name", .str "items[1].name")])
    (.obj [("name", .str "b"), ("xpath_name", .str "items[2].name")])
    [.obj [("name", .str "a"), ("xpath_name", .str "items[0].name")],
      .obj [("name", .str "b"), ("xpath_name", .str "items[1].name")]]
    [.obj [("name", .str "a"), ("xpath_name", .str "items[0].name")]]
    2 rfl rfl rfl rfl rfl (Or.inl rfl)
    (Or.inr ⟨["name", "xpath_name"], "xpath_name", "items[1].name", 1, by simp, rfl,
      by decide, rfl, by decide, rfl⟩)
    rfl rfl rfl rfl rfl
  ⟨o, h1, h2⟩

end DataTreeJsx

/-! ## Exceptions and object properties -/

theorem Except.bind_eq_ok' {ε α β : Type} {x : Except ε α} {f : α → Except ε β} {b : β}
    (h : (x >>= f) = .ok b) : ∃ a, x = .ok a ∧ f a = .ok b := by
  cases x with
  | error e => cases h
  | ok a => exact ⟨a, rfl, h⟩

namespace JVal

theorem lookup_setField_same (kvs : List (String × JVal)) (k : String) (v : JVal) :
    lookup (setField kvs k v) k = v := by
  induction kvs with
  | nil => simp [setField, lookup]
  | cons kv rest ih =>
    obtain ⟨k', w⟩ := kv
    by_cases hk : k' = k
    · simp [setField, lookup, hk]
    · simp [setField, lookup, hk, ih]

theorem lookup_setField_other (kvs : List (String × JVal)) (k q : String) (v : JVal)
    (h : q ≠ k) : lookup (setField kvs k v) q = lookup kvs q := by
  induction kvs with
  | nil => simp [setField, lookup]; intro e; exact absurd e.symm h
  | cons kv rest ih =>
    obtain ⟨k', w⟩ := kv
    by_cases hk : k' = k
    · subst hk
      have hq : ¬ k' = q := fun e => h e.symm
      simp [setField, lookup, hq]
    · by_cases hq : k' = q
      · subst hq; simp [setField, lookup, hk]
      · simp [setField, lookup, hk, hq, ih]

theorem hasKey_setField_same (kvs : List (String × JVal)) (k : String) (v : JVal) :
    hasKey (setField kvs k v) k = true := by
  induction kvs with
  | nil => simp [setField, hasKey]
  | cons kv rest ih =>
    obtain ⟨k', w⟩ := kv
    by_cases hk : k' = k
    · simp [setField, hasKey, hk]
    · simp [setField, hasKey, hk, ih]

theorem hasKey_setField_other (kvs : List (String × JVal)) (k q : String) (v : JVal)
    (h : q ≠ k) : hasKey (setField kvs k v) q = hasKey kvs q := by
  induction kvs with
  | nil => simp [setField, hasKey]; intro e; exact absurd e.symm h
  | cons kv rest ih =>
    obtain ⟨k', w⟩ := kv
    by_cases hk : k' = k
    · subst hk
      have hq : ¬ k' = q := fun e => h e.symm
      simp [setField, hasKey, hq]
    · by_cases hq : k' = q
      · subst hq; simp [setField, hasKey, hk]
      · simp [setField, hasKey, hk, hq, ih]

theorem setProp_obj (kvs : List (String × JVal)) (k : String) (v : JVal) :
    (JVal.obj kvs).setProp k v = .ok (.obj (setField kvs k v)) := rfl

/-- A successful property assignment was made on an object, and leaves the other properties
as they were. -/
theorem setProp_ok {o o' : JVal} {k : String} {v : JVal} (h : o.setProp k v = .ok o') :
    (∃ kvs, o = .obj kvs ∧ o' = .obj (setField kvs k v))
      ∧ o'.getKey k = v ∧ ∀ q, q ≠ k → o'.getKey q = o.getKey q := by
  cases o <;> simp [setProp] at h
  rename_i kvs
  subst h
  exact ⟨⟨kvs, rfl, rfl⟩, lookup_setField_same kvs k v,
    fun q hq => lookup_setField_other kvs k q v hq⟩

end JVal

/-! ## Generation of the tree (`treeHelper.js`) -/

namespace TreeHelper

/-- What `addHeaderNode` returns, in terms of the header it builds first: the header with
`isOpen` set from the updated tree state, and that tree state. -/
theorem addHeaderNode_ok {U : Utils} {currentSchema propname type : JVal}
    {callerProps : CallerProps} {dataxpath xpath ref objectState : JVal}
    {treeState treeState' : TreeState} {H : JVal}
    (h : addHeaderNode U currentSchema propname type callerProps dataxpath xpath ref objectState
      treeState = .ok (H, treeState')) :
    ∃ base key,
      newHeaderNode U currentSchema propname type callerProps dataxpath xpath ref objectState
          = .ok base
        ∧ xpath.toStr = .ok key
        ∧ base.setProp "isOpen" (updateTreeState treeState key callerProps.isOpen).2 = .ok H
        ∧ treeState' = (updateTreeState treeState key callerProps.isOpen).1
        ∧ H.getKey "children" = .arr [] := by
  simp only [addHeaderNode] at h
  obtain ⟨base, e0, h⟩ := Except.bind_eq_ok' h
  obtain ⟨key, e1, h⟩ := Except.bind_eq_ok' h
  obtain ⟨H1, e2, h⟩ := Except.bind_eq_ok' h
  refine ⟨base, key, e0, e1, ?_⟩
  split at h
  · rename_i hc
    simp only [pure, Except.pure, Except.ok.injEq, Prod.mk.injEq] at h
    obtain ⟨h1, h2⟩ := h
    subst h1
    exact ⟨e2, h2.symm, hc⟩
  · cases h

/-- C20: the expand/collapse state kept by `addHeaderNode`.  For a header with path `x`: when
`x` has no recorded state the header is created open; when it has one, the header is open if
`callerProps.isOpen` is truthy, closed if it is exactly `false`, and as recorded if it is
`undefined`.  Afterwards the recorded state of `x` is the header's `isOpen`, and the state of
every other path is as before. -/
theorem addHeaderNode_treeState (U : Utils) (currentSchema propname type : JVal)
    (callerProps : CallerProps) (dataxpath xpath ref objectState : JVal)
    (treeState treeState' : TreeState) (H : JVal) (x : String)
    (hx : xpath.toStr = .ok x)
    (h : addHeaderNode U currentSchema propname type callerProps dataxpath xpath ref objectState
      treeState = .ok (H, treeState')) :
    (JVal.hasKey treeState x = false → H.getKey "isOpen" = .bool true)
      ∧ (JVal.hasKey treeState x = true → callerProps.isOpen.truthy = true →
          H.getKey "isOpen" = .bool true)
      ∧ (JVal.hasKey treeState x = true → callerProps.isOpen = .bool false →
          H.getKey "isOpen" = .bool false)
      ∧ (JVal.hasKey treeState x = true → callerProps.isOpen = JVal.undef →
          H.getKey "isOpen" = JVal.lookup treeState x)
      ∧ JVal.lookup treeState' x = H.getKey "isOpen"
      ∧ JVal.hasKey treeState' x = true
      ∧ ∀ y, y ≠ x → JVal.lookup treeState' y = JVal.lookup treeState y
          ∧ JVal.hasKey treeState' y = JVal.hasKey treeState y := by
  obtain ⟨base, key, _, e1, e2, e3, _⟩ := addHeaderNode_ok h
  rw [hx] at e1
  injection e1 with e1
  subst e1
  have hopen : H.getKey "isOpen" = (updateTreeState treeState x callerProps.isOpen).2 :=
    (JVal.setProp_ok e2).2.1
  rw [hopen, e3]
  simp only [updateTreeState]
  refine ⟨?_, ?_, ?_, ?_, trivial, ?_, ?_⟩
  · intro hk; simp [hk, JVal.lookup_setField_same]
  · intro hk ho; simp [hk, ho, JVal.lookup_setField_same]
  · intro hk ho; simp [hk, ho, JVal.lookup_setField_same, JVal.truthy, JVal.strictEq]
  · intro hk ho; simp [hk, ho, JVal.lookup_setField_same, JVal.truthy, JVal.strictEq]
  · split <;> exact JVal.hasKey_setField_same _ _ _
  · intro y hy
    split <;>
      exact ⟨JVal.lookup_setField_other _ _ _ _ hy, JVal.hasKey_setField_other _ _ _ _ hy⟩

/-- Witness of C20: a header at the path `a`, collapsed before, with `isOpen` not given. -/
theorem addHeaderNode_treeState_witness :
    ∃ H treeState',
      addHeaderNode sampleUtils (.obj [("title", .str "A")]) (.str "a") (.str "object")
          { data := .obj [], originalData := .obj [], mode := .str "edit" }
          (.str "a") (.str "a") JVal.undef JVal.undef [("a", .bool false)]
        = .ok (H, treeState')
      ∧ H.getKey "isOpen" = .bool false ∧ JVal.lookup treeState' "a" = .bool false :=
  ⟨_, _, rfl,
    (addHeaderNode_treeState sampleUtils (.obj [("title", .str "A")]) (.str "a")
      (.str "object") { data := .obj [], originalData := .obj [], mode := .str "edit" }
      (.str "a") (.str "a") JVal.undef JVal.undef [("a", .bool false)] _ _ "a" rfl rfl).2.2.2.1
      rfl rfl,
    rfl⟩

end TreeHelper

namespace TreeHelper

/-- C1, the code at a failing input: an array of six objects generated through `addNode`.
The container's children are the six element headers, at the paths `items[0]` to `items[5]`,
and no pagination node is among them. -/
theorem handleArrayWithItems_six_items :
    (addNode sampleConsts sampleUtils 3 [] sampleSchema sampleArraySchema (.str "items")
        (sampleCallerProps sixItemsDocument) (.str "items") .null (.str "items") []).toOption.map
      (fun r => (r.1.length, (r.1.map childrenOf).map (fun cs =>
        (cs.length, cs.any isPaginationNode, cs.map (fun c => (c.getKey "xpath").strictEq
          (.str "items[5]"))))))
      = some (1, [(6, false, [false, false, false, false, false, true])]) := by
  decide

end TreeHelper

namespace TreeHelper

/-- Called with an empty array, as `handleArrayWithItems` does, `processArrayItems` finds no
parent node and never paginates: all collected items are processed. -/
theorem processArrayItems_empty_tree (C : Consts) (U : Utils) (addNode : AddNode)
    (schema currentSchema propname : JVal) (callerProps : CallerProps) (dataxpath xpath : JVal)
    (treeState : TreeState) :
    processArrayItems C U addNode [] schema currentSchema propname callerProps dataxpath xpath
        treeState
      = (do
          let st ← collectOriginalItems U callerProps xpath
          let (_, itemsToProcess) ← collectModifiedItems U callerProps dataxpath xpath st
          addItemNodes C addNode itemsToProcess [] schema currentSchema propname callerProps
            treeState) := by
  have hfind : findParentNode [] xpath = .ok none := rfl
  simp only [processArrayItems, hfind]
  cases collectOriginalItems U callerProps xpath with
  | error e => rfl
  | ok st =>
    simp only [bind, Except.bind]
    cases collectModifiedItems U callerProps dataxpath xpath st with
    | error e => rfl
    | ok r =>
      obtain ⟨paths, items⟩ := r
      simp only
      split <;> rfl

/-- C25, the code at a failing input: in edit mode, `handleSimpleArray` on a primitive array
marked `server_populate` still adds the container header, the item header and one leaf per
item, whereas `handleArrayWithItems` adds nothing for a property so marked. -/
theorem handleSimpleArray_server_populate :
    (handleSimpleArray sampleConsts sampleUtils [] (.obj []) serverPopulateArraySchema
        (.str "tags") (sampleCallerProps tagsDocument) (.str "tags") .null (.str "tags")
        []).toOption.map
      (fun r => (r.1.length, r.1.map (fun c => (c.getKey "serverPopulate").truthy),
        (r.1.map childrenOf).map (fun cs => cs.map (fun c => (childrenOf c).length))))
      = some (1, [true], [[2]])
    ∧ (handleArrayWithItems sampleConsts sampleUtils (addNode sampleConsts sampleUtils 3) []
        (.obj []) serverPopulateArraySchema (.str "tags") (sampleCallerProps tagsDocument)
        (.str "tags") .null (.str "tags") []).toOption.map (fun r => r.1.length) = some 0 := by
  decide

/-- C27, the code at a failing input: a referenced type that sets `orm_no_update` to `false`
itself gets the value `true` of the referring property from `processMetadata`, because the
own value is combined with `||`. -/
theorem processMetadata_own_false :
    processMetadata (.obj [("orm_no_update", .bool false)])
        (.obj [("orm_no_update", .bool true)])
      = .ok (.obj [("orm_no_update", .bool true)]) := by
  rfl

/-- C17, counterexample: the property `p` of the object `a` is absent from the working copy
and from the baseline, yet `addSimpleNode` adds its leaf (path `a.p`, value `undefined`),
because the guard looks at the paths of the parent object. -/
theorem addSimpleNode_absent_leaf_counterexample :
    (Lodash.get sampleDocument (.str "a.p")).isUndef = true
      ∧ (addSimpleNode sampleConsts sampleUtils [] (.obj []) sampleTypeSchema (.str "p")
          (sampleCallerProps sampleDocument) (.str "a") (.str "a") (.obj [])).toOption.map
        (fun tree => tree.map (fun n =>
          ((n.getKey "xpath").strictEq (.str "a.p"), (n.getKey "value").isUndef)))
        = some [(true, true)] := by
  decide

/-- C17, amended: `addSimpleNode` adds no node when the working data and the baseline both
have no keys, or when it is given a truthy `dataxpath` and the values at `dataxpath` in the
working data and at `xpath` in the baseline are both `undefined`.  (The guard reads the keys
of the baseline only when the working data has none.) -/
theorem addSimpleNode_skips (C : Consts) (U : Utils) (tree : Tree)
    (schema currentSchema propname : JVal) (callerProps : CallerProps)
    (dataxpath xpath additionalProps : JVal) (dataKeys originalKeys : List String)
    (hkeys : callerProps.data.keys = .ok dataKeys)
    (horig : dataKeys = [] → callerProps.originalData.keys = .ok originalKeys) :
    (dataKeys = [] → originalKeys = [] →
        addSimpleNode C U tree schema currentSchema propname callerProps dataxpath xpath
          additionalProps = .ok tree)
      ∧ (dataxpath.truthy = true →
        Lodash.get callerProps.data dataxpath = JVal.undef →
        Lodash.get callerProps.originalData xpath = JVal.undef →
        addSimpleNode C U tree schema currentSchema propname callerProps dataxpath xpath
          additionalProps = .ok tree) := by
  constructor
  · intro h1 h2
    have h3 := horig h1
    subst h1 h2
    simp [addSimpleNode, skipSimpleNode, hkeys, h3, bind, Except.bind, pure, Except.pure]
  · intro h2 h3 h4
    by_cases h1 : dataKeys = []
    · have h5 := horig h1
      subst h1
      simp [addSimpleNode, skipSimpleNode, hkeys, h5, h2, h3, h4, JVal.isUndef, bind,
        Except.bind, pure, Except.pure]
    · have hlen : ¬ dataKeys.length = 0 := fun e => h1 (List.length_eq_zero.1 e)
      simp [addSimpleNode, skipSimpleNode, hkeys, hlen, h2, h3, h4, JVal.isUndef, bind,
        Except.bind, pure, Except.pure]

/-- Witness of the amended C17: the object `b` is absent from both documents, of which the
working copy is empty and the baseline is not. -/
theorem addSimpleNode_skips_witness :
    addSimpleNode sampleConsts sampleUtils [] (.obj []) sampleTypeSchema (.str "p")
      { data := .obj [], originalData := sampleDocument, mode := .str "edit" }
      (.str "b") (.str "b") (.obj []) = .ok [] :=
  (addSimpleNode_skips sampleConsts sampleUtils [] (.obj []) sampleTypeSchema (.str "p")
    { data := .obj [], originalData := sampleDocument, mode := .str "edit" }
    (.str "b") (.str "b") (.obj []) [] ["a"] rfl (fun _ => rfl)).2 rfl rfl rfl

end TreeHelper

namespace DataTreeJsx

/-- C24, the code at a failing input: an add click on the container `colors` of enum values,
absent from the working copy.  The enum-only branch calls `push` on the value returned by
`get`, which is `undefined`: the handler throws and `onUpdate` is not called.  The branch for
a list of strings, on the same document, creates the array and appends `null`. -/
theorem handleClick_add_enum_absent :
    (Lodash.get enumProps.updatedData (.str "colors")).isUndef = true
      ∧ (handleClick sampleConsts sampleUtils enumProps (some enumAddAttrs)).thrown
        = some Err.typeError
      ∧ (handleClick sampleConsts sampleUtils enumProps (some enumAddAttrs)).effects.any
        Effect.isUpdate = false
      ∧ (handleClick sampleConsts sampleUtils enumProps (some stringAddAttrs)).thrown = none
      ∧ (handleClick sampleConsts sampleUtils enumProps (some stringAddAttrs)).effects.map
          (fun e => match e with
            | .onUpdate updatedObj _ =>
              ((Lodash.get updatedObj (.str "colors")).getKey "length").strictEq (.num 1)
            | _ => false)
        = [false, true] := by
  decide

end DataTreeJsx

namespace DataTreeJsx

/-- C18: how `handleTextChange` forwards an edit.  The empty string is replaced by `null`.
For type string the value is always written through `handleFormUpdate`.  For type number a
value other than `null` is converted with `Number` and written exactly when the result is
not NaN, and `null` is written as `null`.  For any other type nothing is written and neither
callback is called. -/
theorem handleTextChange_spec (C : Consts) (B : Builtins) (F : FormProps)
    (type xpath value dataxpath validationRes : JVal)
    (hdistinct : C.STRING ≠ C.NUMBER) (hnull : B.isNaN .null = false) :
    (type = .str C.STRING →
        handleTextChange C B F type xpath value dataxpath validationRes
          = handleFormUpdate F xpath dataxpath
              (if value.strictEq (.str "") then JVal.null else value) validationRes)
      ∧ (type = .str C.NUMBER →
        (value.strictEq (.str "") = true ∨ value = .null →
          handleTextChange C B F type xpath value dataxpath validationRes
            = handleFormUpdate F xpath dataxpath .null validationRes)
        ∧ (value.strictEq (.str "") = false → value.isNull = false →
          handleTextChange C B F type xpath value dataxpath validationRes
            = if B.isNaN (B.number value) then []
              else handleFormUpdate F xpath dataxpath (B.number value) validationRes))
      ∧ (type.strictEq (.str C.STRING) = false → type.strictEq (.str C.NUMBER) = false →
        handleTextChange C B F type xpath value dataxpath validationRes = []) := by
  have hne : ¬ C.NUMBER = C.STRING := fun e => hdistinct e.symm
  have hstr : ∀ a b : String, (JVal.str a).strictEq (.str b) = decide (a = b) := fun _ _ => rfl
  have hnn : (JVal.null).isNull = true := rfl
  refine ⟨?_, ?_, ?_⟩
  · intro ht
    subst ht
    simp only [handleTextChange, hstr, hdistinct, decide_True, decide_False, Bool.true_or,
      Bool.false_eq_true, if_false, if_true]
  · intro ht
    subst ht
    constructor
    · intro hv
      rcases hv with hv | hv
      · simp only [handleTextChange, hv, if_true, hstr, hne, decide_True, decide_False, hnn,
          Bool.not_true, Bool.false_eq_true, if_false, hnull, Bool.not_false, Bool.and_self,
          Bool.or_true, Bool.false_or]
      · subst hv
        have h0 : (JVal.null).strictEq (.str "") = false := rfl
        simp only [handleTextChange, h0, if_true, hstr, hne, decide_True, decide_False, hnn,
          Bool.not_true, Bool.false_eq_true, if_false, hnull, Bool.not_false, Bool.and_self,
          Bool.or_true, Bool.false_or]
    · intro h1 h2
      simp only [handleTextChange, h1, Bool.false_eq_true, if_false, hstr, h2,
        decide_True, Bool.not_false, if_true, hne, decide_False, Bool.false_or, Bool.true_and]
      cases B.isNaN (B.number value) <;> simp
  · intro h1 h2
    simp only [handleTextChange, h1, h2, Bool.false_and, Bool.or_self, Bool.false_eq_true,
      if_false]

/-- Witness of C18: the text `abc` entered into a number field is not written. -/
theorem handleTextChange_spec_witness :
    handleTextChange sampleConsts ⟨fun _ => JVal.undef, fun v => v.isUndef⟩ sampleFormProps
        (.str "number") (.str "a") (.str "abc") (.str "a") JVal.undef
      = if (JVal.undef).isUndef then []
        else handleFormUpdate sampleFormProps (.str "a") (.str "a") JVal.undef JVal.undef :=
  ((handleTextChange_spec sampleConsts ⟨fun _ => JVal.undef, fun v => v.isUndef⟩
    sampleFormProps (.str "number") (.str "a") (.str "abc") (.str "a") JVal.undef
    (by decide) rfl).2.1 rfl).2 rfl rfl

end DataTreeJsx

namespace DataTreeJsx

theorem pageStateOf_cons (k : String) (s : PageState) (rest : PaginatedNodes) (key : String) :
    pageStateOf ((k, s) :: rest) key = if k = key then some s else pageStateOf rest key := by
  by_cases h : k = key <;> simp [pageStateOf, List.find?, h]

theorem pageStateOf_setPageState_same (prev : PaginatedNodes) (nodeId : String)
    (s : PageState) : pageStateOf (setPageState prev nodeId s) nodeId = some s := by
  induction prev with
  | nil => simp [setPageState, pageStateOf_cons, pageStateOf]
  | cons e rest ih =>
    obtain ⟨k, t⟩ := e
    by_cases h : k = nodeId
    · simp [setPageState, pageStateOf_cons, h]
    · simp [setPageState, pageStateOf_cons, h, ih]

theorem pageStateOf_setPageState_other (prev : PaginatedNodes) (nodeId other : String)
    (s : PageState) (h : other ≠ nodeId) :
    pageStateOf (setPageState prev nodeId s) other = pageStateOf prev other := by
  induction prev with
  | nil =>
    have h' : ¬ nodeId = other := fun e => h e.symm
    simp [setPageState, pageStateOf_cons, pageStateOf, h']
  | cons e rest ih =>
    obtain ⟨k, t⟩ := e
    by_cases hk : k = nodeId
    · subst hk
      have h' : ¬ k = other := fun e => h e.symm
      simp [setPageState, pageStateOf_cons, h']
    · by_cases ho : k = other
      · subst ho
        simp [setPageState, pageStateOf_cons, hk]
      · simp [setPageState, pageStateOf_cons, hk, ho, ih]

/-- C22: `handlePageChange` keeps the page in range.  If the recorded state `s` of the node
has `page < totalPages`, the new page is `min(page + 1, totalPages - 1)` for `next`,
`max(page - 1, 0)` for `prev` and `page` for any other direction, so it is again below
`totalPages`; `totalPages` and `totalItems` stay, and so does the entry of every other node.
For a node without recorded state the result is page 0 of 1 page, whatever the direction. -/
theorem handlePageChange_in_range (prev : PaginatedNodes) (nodeId direction : String) :
    (∀ s, pageStateOf prev nodeId = some s → s.page < s.totalPages →
        ∃ s', pageStateOf (handlePageChange prev nodeId direction) nodeId = some s'
          ∧ (s'.page : Int) = newPage s direction
          ∧ (direction = "next" →
              (s'.page : Int) = min ((s.page : Int) + 1) ((s.totalPages : Int) - 1))
          ∧ (direction = "prev" → (s'.page : Int) = max ((s.page : Int) - 1) 0)
          ∧ (direction ≠ "next" → direction ≠ "prev" → s'.page = s.page)
          ∧ s'.page < s'.totalPages
          ∧ s'.totalPages = s.totalPages ∧ s'.totalItems = s.totalItems)
      ∧ (pageStateOf prev nodeId = none →
          pageStateOf (handlePageChange prev nodeId direction) nodeId = some ⟨0, 1, none⟩)
      ∧ ∀ other, other ≠ nodeId →
          pageStateOf (handlePageChange prev nodeId direction) other = pageStateOf prev other := by
  refine ⟨?_, ?_, ?_⟩
  · intro s hs hlt
    have hnonneg : 0 ≤ newPage s direction := by
      unfold newPage; split
      · omega
      · split <;> omega
    have hpage : ((newPage s direction).toNat : Int) = newPage s direction :=
      Int.toNat_of_nonneg hnonneg
    refine ⟨{ s with page := (newPage s direction).toNat }, ?_, hpage, ?_, ?_, ?_, ?_, rfl, rfl⟩
    · simp only [handlePageChange, hs, Option.getD]
      exact pageStateOf_setPageState_same _ _ _
    · intro hd; rw [hpage]; simp [newPage, hd]
    · intro hd
      have hd' : ¬ direction = "next" := by rw [hd]; decide
      rw [hpage]; simp [newPage, hd, hd']
    · intro h1 h2
      show (newPage s direction).toNat = s.page
      simp [newPage, h1, h2]
    · show (newPage s direction).toNat < s.totalPages
      have : newPage s direction < (s.totalPages : Int) := by
        unfold newPage; split
        · omega
        · split <;> omega
      omega
  · intro hnone
    simp only [handlePageChange, hnone, Option.getD]
    have hp : (newPage ⟨0, 1, none⟩ direction).toNat = 0 := by
      unfold newPage; split
      · rfl
      · split <;> rfl
    rw [hp]
    exact pageStateOf_setPageState_same _ _ _
  · intro other ho
    exact pageStateOf_setPageState_other _ _ _ _ ho

/-- Witness of C22: going on from the last of three pages stays on the last page. -/
theorem handlePageChange_in_range_witness :
    ∃ s', pageStateOf (handlePageChange [("a", ⟨2, 3, some 20⟩)] "a" "next") "a" = some s'
      ∧ s'.page < s'.totalPages :=
  let ⟨s', h1, _, _, _, _, h2, _⟩ :=
    (handlePageChange_in_range [("a", ⟨2, 3, some 20⟩)] "a" "next").1 ⟨2, 3, some 20⟩ rfl
      (by decide)
  ⟨s', h1, h2⟩

end DataTreeJsx

namespace DataTreeJsx

theorem slice_take (xs : List JVal) (a b : Nat) :
    slice xs a (min b xs.length) = (xs.take b).drop a := by
  unfold slice
  rcases Nat.le_total b xs.length with h | h
  · rw [Nat.min_eq_left h]
  · rw [Nat.min_eq_right h, List.take_of_length_le (Nat.le_refl _), List.take_of_length_le h]

theorem pages_flatten (xs : List JVal) (k m : Nat) :
    ((List.range m).map (fun p => slice xs (p * k) (min (p * k + k) xs.length))).flatten
      = xs.take (m * k) := by
  induction m with
  | zero => simp
  | succ m ih =>
    rw [List.range_succ, List.map_append, List.flatten_append, ih]
    simp only [List.map_cons, List.map_nil, List.flatten_cons, List.flatten_nil,
      List.append_nil, slice_take]
    have h1 : xs.take (m * k) = (xs.take (m * k + k)).take (m * k) := by
      rw [List.take_take]; congr 1; omega
    rw [h1, List.take_append_drop]
    congr 1
    rw [Nat.succ_mul]

/-- The slices of a list of more than eight entries into pages of eight: there are at least
two, each is non-empty with at most eight entries, and concatenated in order they are the
list. -/
theorem slices_partition (children : List JVal) (h : children.length > ITEMS_PER_PAGE) :
    2 ≤ JS.ceilDiv children.length ITEMS_PER_PAGE
      ∧ (∀ p, p < JS.ceilDiv children.length ITEMS_PER_PAGE →
          slice children (p * ITEMS_PER_PAGE)
              (min (p * ITEMS_PER_PAGE + ITEMS_PER_PAGE) children.length) ≠ []
            ∧ (slice children (p * ITEMS_PER_PAGE)
              (min (p * ITEMS_PER_PAGE + ITEMS_PER_PAGE) children.length)).length
                ≤ ITEMS_PER_PAGE)
      ∧ ((List.range (JS.ceilDiv children.length ITEMS_PER_PAGE)).map (fun p =>
          slice children (p * ITEMS_PER_PAGE)
            (min (p * ITEMS_PER_PAGE + ITEMS_PER_PAGE) children.length))).flatten
        = children := by
  simp only [ITEMS_PER_PAGE, JS.ceilDiv] at h ⊢
  refine ⟨by omega, ?_, ?_⟩
  · intro p hp
    have hlen : (slice children (p * 8) (min (p * 8 + 8) children.length)).length
        = min (p * 8 + 8) children.length - p * 8 := by
      simp only [slice, List.length_drop, List.length_take]
      omega
    constructor
    · intro hnil
      rw [hnil] at hlen
      simp only [List.length_nil] at hlen
      omega
    · rw [hlen]; omega
  · rw [pages_flatten]
    apply List.take_of_length_le
    omega

end DataTreeJsx

namespace Lodash

theorem elemAt_setElem_same (xs : List JVal) (i : Nat) (v : JVal) :
    JVal.elemAt (setElem xs i v) i = v := by
  induction i generalizing xs with
  | zero => cases xs <;> rfl
  | succ i ih => cases xs <;> exact ih _

theorem elemAt_setElem_other (xs : List JVal) (i j : Nat) (v : JVal) (h : j ≠ i) :
    JVal.elemAt (setElem xs i v) j = JVal.elemAt xs j := by
  induction i generalizing xs j with
  | zero =>
    cases j with
    | zero => exact absurd rfl h
    | succ j => cases xs <;> rfl
  | succ i ih =>
    cases j with
    | zero => cases xs <;> rfl
    | succ j =>
      have hj : j ≠ i := fun e => h (by rw [e])
      cases xs with
      | nil =>
        show JVal.elemAt (setElem [] i v) j = JVal.undef
        rw [ih [] j hj]; cases j <;> rfl
      | cons x xs => exact ih xs j hj

theorem assignable_isObject (o : JVal) (k : String) (h : assignable o k = true) :
    isObject o = true ∧ o.isNullish = false := by
  cases o <;> simp [assignable] at h <;> exact ⟨rfl, rfl⟩

theorem getKey_assignValue_same (o : JVal) (k : String) (v : JVal)
    (h : assignable o k = true) :
    (assignValue o k v).isNullish = false ∧ (assignValue o k v).getKey k = v := by
  cases o <;> simp [assignable] at h
  case obj kvs => exact ⟨rfl, JVal.lookup_setField_same kvs k v⟩
  case arr xs =>
    obtain ⟨i, hi⟩ := Option.isSome_iff_exists.1 h
    have hk : k ≠ "length" := by
      rw [JVal.arrayIndex_eq_some k i hi]; exact JVal.repr_ne_length i
    simp only [assignValue, hi]
    refine ⟨rfl, ?_⟩
    simp [JVal.getKey, hk, hi, elemAt_setElem_same]

theorem assignValue_not_assignable (o : JVal) (k : String) (v : JVal)
    (h : assignable o k = false) : assignValue o k v = o := by
  cases o <;> simp [assignable] at h <;> simp [assignValue, h]

theorem getKey_assignValue_other (o : JVal) (k q : String) (v : JVal)
    (hq : q ≠ k) (hlen : q ≠ "length") :
    (assignValue o k v).isNullish = o.isNullish
      ∧ (assignValue o k v).getKey q = o.getKey q := by
  cases o
  case obj kvs => exact ⟨rfl, JVal.lookup_setField_other kvs k q v hq⟩
  case arr xs =>
    simp only [assignValue]
    cases hi : JVal.arrayIndex? k with
    | none => exact ⟨rfl, rfl⟩
    | some i =>
      refine ⟨rfl, ?_⟩
      simp only [JVal.getKey, hlen, if_false]
      cases hj : JVal.arrayIndex? q with
      | none => rfl
      | some j =>
        have hij : j ≠ i := by
          intro e; subst e
          exact hq (by rw [JVal.arrayIndex_eq_some q j hj, JVal.arrayIndex_eq_some k j hi])
        exact elemAt_setElem_other xs i j v hij
  all_goals exact ⟨rfl, rfl⟩

/-- After `set`, `get` along the same path returns the value set. -/
theorem baseGet_baseSet (ks : List String) (o v : JVal) (h : settable o ks = true) :
    baseGet (baseSet o ks v) ks = v := by
  induction ks generalizing o with
  | nil => simp [settable] at h
  | cons k ks ih =>
    cases ks with
    | nil =>
      have ha : assignable o k = true := h
      obtain ⟨h1, h2⟩ := getKey_assignValue_same o k v ha
      simp only [baseSet, (assignable_isObject o k ha).1, if_true, baseGet_cons, h1,
        Bool.false_eq_true, if_false, h2]
      rfl
    | cons k2 ks =>
      simp only [settable, Bool.and_eq_true] at h
      obtain ⟨h1, h2⟩ := h
      obtain ⟨h3, h4⟩ := getKey_assignValue_same o k
        (baseSet (if isObject (o.getKey k) then o.getKey k
          else if (JVal.arrayIndex? k2).isSome then .arr [] else .obj []) (k2 :: ks) v) h1
      simp only [baseSet, (assignable_isObject o k h1).1, if_true]
      rw [baseGet_cons, h3, if_neg (by simp), h4]
      exact ih _ h2

theorem baseGet_primitive (o : JVal) (qs : List String) (ho : isObject o = false)
    (hs : ∀ s, o ≠ .str s) (hne : qs ≠ []) (hlen : "length" ∉ qs) :
    baseGet o qs = JVal.undef := by
  cases qs with
  | nil => exact absurd rfl hne
  | cons q qs =>
    have hq : q ≠ "length" := fun e => hlen (by rw [e]; exact List.mem_cons_self _ _)
    rw [baseGet_cons]
    split
    · rfl
    · have : o.getKey q = JVal.undef := by
        cases o <;> simp [isObject] at ho <;> first
          | exact absurd rfl (hs _)
          | simp [JVal.getKey, hq]
      rw [this, baseGet_undef]

theorem baseGet_fresh (qs : List String) (b : Bool) (hne : qs ≠ []) (hlen : "length" ∉ qs) :
    baseGet (if b then JVal.arr [] else JVal.obj []) qs = JVal.undef := by
  cases qs with
  | nil => exact absurd rfl hne
  | cons q qs =>
    have hq : q ≠ "length" := fun e => hlen (by rw [e]; exact List.mem_cons_self _ _)
    rw [baseGet_cons]
    cases b
    · simp [JVal.isNullish, JVal.getKey, JVal.lookup, baseGet_undef]
    · simp only [JVal.isNullish, JVal.getKey, hq, if_false, Bool.false_eq_true, if_true]
      cases JVal.arrayIndex? q <;> simp [JVal.elemAt, baseGet_undef]

theorem baseGet_fresh_ne_str (qs : List String) (b : Bool) (s : String) :
    baseGet (if b then JVal.arr [] else JVal.obj []) qs ≠ .str s := by
  cases qs with
  | nil => cases b <;> (intro h; cases h)
  | cons q qs =>
    rw [baseGet_cons]
    cases b
    · simp [JVal.isNullish, JVal.getKey, JVal.lookup, baseGet_undef]
    · simp only [JVal.isNullish, JVal.getKey, Bool.false_eq_true, if_false, if_true]
      split
      · cases qs with
        | nil => intro h; cases h
        | cons q2 qs2 =>
          rw [baseGet_cons]
          simp [JVal.isNullish, JVal.getKey, baseGet_undef]
      · cases JVal.arrayIndex? q <;> simp [JVal.elemAt, baseGet_undef]

/-- Frame condition of `set`: when no string lies on the way to the path set, a path that
neither extends nor is extended by the path set, and that reads no `length`, has the same
value afterwards. -/
theorem baseGet_baseSet_other (ks : List String) (o v : JVal) (qs : List String)
    (h1 : ¬ ks <+: qs) (h2 : ¬ qs <+: ks) (hlen : "length" ∉ qs)
    (hstr : ∀ pre, pre <+: ks → pre ≠ ks → ∀ s, baseGet o pre ≠ .str s) :
    baseGet (baseSet o ks v) qs = baseGet o qs := by
  induction ks generalizing o qs with
  | nil => rfl
  | cons k ks ih =>
    cases qs with
    | nil => exact absurd List.nil_prefix h2
    | cons q qs =>
      have hq : q ≠ "length" := fun e => hlen (by rw [e]; exact List.mem_cons_self _ _)
      have hlen' : "length" ∉ qs := fun e => hlen (List.mem_cons_of_mem _ e)
      have htail : q = k → ¬ ks <+: qs ∧ ¬ qs <+: ks := by
        intro e; subst e
        exact ⟨fun h => h1 ((List.prefix_cons_inj q).2 h),
          fun h => h2 ((List.prefix_cons_inj q).2 h)⟩
      cases ks with
      | nil =>
        have hqk : q ≠ k := by
          intro e; exact (htail e).1 List.nil_prefix
        simp only [baseSet]
        split
        · obtain ⟨e1, e2⟩ := getKey_assignValue_other o k q v hqk hq
          rw [baseGet_cons, baseGet_cons, e1, e2]
        · rfl
      | cons k2 ks =>
        simp only [baseSet]
        split
        · rename_i hobj
          by_cases hqk : q = k
          · obtain ⟨t1, t2⟩ := htail hqk
            subst hqk
            have hqs : qs ≠ [] := fun e => t2 (by rw [e]; exact List.nil_prefix)
            by_cases hassign : assignable o q = true
            · have hnn : o.isNullish = false := (assignable_isObject o q hassign).2
              obtain ⟨e1, e2⟩ := getKey_assignValue_same o q
                (baseSet (if isObject (o.getKey q) then o.getKey q
                  else if (JVal.arrayIndex? k2).isSome then .arr [] else .obj [])
                  (k2 :: ks) v) hassign
              rw [baseGet_cons, baseGet_cons, e1, e2, hnn]
              simp only [Bool.false_eq_true, if_false]
              have hsub : ∀ pre, pre <+: k2 :: ks → pre ≠ k2 :: ks → ∀ s,
                  baseGet (if isObject (o.getKey q) then o.getKey q
                    else if (JVal.arrayIndex? k2).isSome then .arr [] else .obj []) pre
                    ≠ .str s := by
                intro pre hp hne s
                by_cases hc : isObject (o.getKey q) = true
                · rw [if_pos hc]
                  have := hstr (q :: pre) ((List.prefix_cons_inj q).2 hp)
                    (fun e => hne (List.cons.inj e).2) s
                  rw [baseGet_cons, hnn] at this
                  simpa using this
                · rw [if_neg hc]
                  exact baseGet_fresh_ne_str _ _ _
              rw [ih _ _ t1 t2 hlen' hsub]
              by_cases hc : isObject (o.getKey q) = true
              · rw [if_pos hc]
              · rw [if_neg hc]
                have hc' : isObject (o.getKey q) = false := by simpa using hc
                have hns : ∀ s, o.getKey q ≠ .str s := by
                  intro s
                  have := hstr [q] ((List.prefix_cons_inj q).2 List.nil_prefix)
                    (fun e => by cases e) s
                  rw [baseGet_cons, hnn] at this
                  simpa [baseGet] using this
                rw [baseGet_primitive _ _ hc' hns hqs hlen', baseGet_fresh _ _ hqs hlen']
            · rw [assignValue_not_assignable o q _ (by simpa using hassign)]
          · obtain ⟨e1, e2⟩ := getKey_assignValue_other o k q
              (baseSet (if isObject (o.getKey k) then o.getKey k
                else if (JVal.arrayIndex? k2).isSome then .arr [] else .obj [])
                (k2 :: ks) v) hqk hq
            rw [baseGet_cons, baseGet_cons, e1, e2]
        · rfl

end Lodash

namespace DataTreeJsx

/-- C28, counterexample: writing 7 at `a[1]` of the working copy with the empty list `a`
extends the list, so the path `a.length`, which is neither `a[1]`, an ancestor of it, nor
below it, reads 2 in the document passed to `onUpdate` and 0 in the previous working copy.
Likewise, writing 7 at `a.b` of the working copy with the string `str` at `a` replaces the
string by an object, so the path `a[0]` reads `undefined` afterwards and `s` before. -/
theorem handleFormUpdate_length_counterexample :
    (handleFormUpdate sampleFormProps (.str "a[1]") (.str "a[1]") (.num 7) JVal.undef).map
        (fun e => match e with
          | .onUpdate updatedObj => (Lodash.get updatedObj (.str "a.length")).strictEq (.num 2)
          | _ => false)
        = [true, false]
      ∧ (Lodash.get sampleFormProps.updatedData (.str "a.length")).strictEq (.num 0) = true
      ∧ (Lodash.castPath (.str "a[1]")).isPrefixOf (Lodash.castPath (.str "a.length")) = false
      ∧ (Lodash.castPath (.str "a.length")).isPrefixOf (Lodash.castPath (.str "a[1]"))
        = false
      ∧ (handleFormUpdate stringFormProps (.str "a.b") (.str "a.b") (.num 7) JVal.undef).map
        (fun e => match e with
          | .onUpdate updatedObj => (Lodash.get updatedObj (.str "a[0]")).isUndef
          | _ => false)
        = [true, false]
      ∧ (Lodash.get stringFormProps.updatedData (.str "a[0]")).strictEq (.str "s") = true
      ∧ (Lodash.castPath (.str "a.b")).isPrefixOf (Lodash.castPath (.str "a[0]")) = false
      ∧ (Lodash.castPath (.str "a[0]")).isPrefixOf (Lodash.castPath (.str "a.b")) = false := by
  decide

/-- C28, amended: `handleFormUpdate` hands `onUpdate` the document `set(copy, dataxpath,
value)` and `onUserChange` the arguments `(xpath, value, validationRes, null)`, each when
provided.  For a `dataxpath` without inherited property names, that document holds `value` at
`dataxpath` whenever the assignment can be made; and when no string lies on the way to
`dataxpath` (at none of its proper prefixes), the document agrees with the previous working
copy at every path that neither extends `dataxpath` nor is extended by it and that reads no
`length` and no inherited property.  The update is made on the copy returned by `cloneDeep`;
the working copy itself is only read. -/
theorem handleFormUpdate_frame (F : FormProps) (xpath dataxpath value validationRes : JVal) :
    handleFormUpdate F xpath dataxpath value validationRes
        = (if F.onUpdate then
            [FormEffect.onUpdate (Lodash.set F.updatedData dataxpath value)] else [])
          ++ (if F.onUserChange then
            [FormEffect.onUserChange xpath value
              (if validationRes.isUndef then JVal.null else validationRes)] else [])
      ∧ ((∀ k ∈ Lodash.castPath dataxpath, k ∉ JVal.inheritedKeys) →
          Lodash.settable F.updatedData (Lodash.castPath dataxpath) = true →
          Lodash.get (Lodash.set F.updatedData dataxpath value) dataxpath = value)
      ∧ ((∀ k ∈ Lodash.castPath dataxpath, k ∉ JVal.inheritedKeys) →
          (∀ n, n < (Lodash.castPath dataxpath).length → ∀ s,
            Lodash.baseGet F.updatedData ((Lodash.castPath dataxpath).take n) ≠ .str s) →
          ∀ q : JVal, ¬ Lodash.castPath dataxpath <+: Lodash.castPath q →
            ¬ Lodash.castPath q <+: Lodash.castPath dataxpath →
            "length" ∉ Lodash.castPath q →
            (∀ k ∈ Lodash.castPath q, k ∉ JVal.inheritedKeys) →
            Lodash.get (Lodash.set F.updatedData dataxpath value) q
              = Lodash.get F.updatedData q) := by
  refine ⟨rfl, ?_, ?_⟩
  · intro _ h
    rw [Lodash.get_def]
    have hne : Lodash.castPath dataxpath ≠ [] := by
      intro e; rw [e] at h; simp [Lodash.settable] at h
    rw [if_neg hne]
    exact Lodash.baseGet_baseSet _ _ _ h
  · intro _ hstr q h1 h2 h3 _
    rw [Lodash.get_def, Lodash.get_def]
    by_cases hq : Lodash.castPath q = []
    · rw [if_pos hq, if_pos hq]
    · rw [if_neg hq, if_neg hq]
      refine Lodash.baseGet_baseSet_other _ _ _ _ h1 h2 h3 ?_
      intro pre hp hne s
      have hlt : pre.length < (Lodash.castPath dataxpath).length := by
        rcases Nat.lt_or_ge pre.length (Lodash.castPath dataxpath).length with h | h
        · exact h
        · exact absurd (hp.eq_of_length (Nat.le_antisymm hp.length_le h)) hne
      have := hstr pre.length hlt s
      rwa [← List.prefix_iff_eq_take.mp hp] at this

/-- Witness of the amended C28: writing at `a[1]` leaves the path `b` as it was. -/
theorem handleFormUpdate_frame_witness :
    Lodash.get (Lodash.set sampleFormProps.updatedData (.str "a[1]") (.num 7)) (.str "a[1]")
        = .num 7
      ∧ Lodash.get (Lodash.set sampleFormProps.updatedData (.str "a[1]") (.num 7)) (.str "b")
        = Lodash.get sampleFormProps.updatedData (.str "b") :=
  ⟨(handleFormUpdate_frame sampleFormProps (.str "a[1]") (.str "a[1]") (.num 7)
      JVal.undef).2.1 (by decide) (by decide),
    (handleFormUpdate_frame sampleFormProps (.str "a[1]") (.str "a[1]") (.num 7)
      JVal.undef).2.2 (by decide)
      (fun n hn s => match n, hn with
        | 0, _ => fun h => by cases h
        | 1, _ => fun h => by cases h)
      (.str "b") (by decide) (by decide) (by decide) (by decide)⟩

end DataTreeJsx

namespace Lodash

/-- The element `i` of the array found at a path is what the path followed by `[i]` reads. -/
theorem get_index (o : JVal) (D : String) (i : Nat) (xs : List JVal) (hD : D.data ≠ [])
    (h : get o (.str D) = .arr xs) :
    get o (.str (D ++ "[" ++ Nat.repr i ++ "]")) = JVal.elemAt xs i := by
  have hd : ∀ c ∈ (Nat.repr i).data, isDelim c = false := by
    intro c hc
    have := JS.isDigit_ne_bracket c ((JS.repr_spec i).2.1 c hc)
    simp [isDelim, this.1, this.2.1, this.2.2.1]
  have hne : (Nat.repr i).data ≠ [] := (JS.repr_spec i).2.2
  rw [get_def] at h ⊢
  simp only [castPath] at h ⊢
  rw [stringToPath_index D _ hD hd hne]
  by_cases hp : stringToPath D = []
  · rw [if_pos hp] at h; cases h
  · rw [if_neg hp] at h
    rw [if_neg (by simp), baseGet_append_one, h]
    simp only [JVal.isNullish, Bool.false_eq_true, if_false]
    exact JVal.getKey_arr_repr xs i

end Lodash

namespace TreeHelper

/-- A document in which a path leads to an array has a key. -/
theorem keys_ne_nil_of_get (dkvs : List (String × JVal)) (p : JVal) (xs : List JVal)
    (h : Lodash.get (.obj dkvs) p = .arr xs) : dkvs ≠ [] := by
  intro e
  subst e
  rw [Lodash.get_def] at h
  split at h
  · cases h
  · rename_i hp
    cases hks : Lodash.castPath p with
    | nil => exact hp hks
    | cons k ks =>
      rw [hks, Lodash.baseGet_cons] at h
      simp only [JVal.isNullish, Bool.false_eq_true, if_false, JVal.getKey, JVal.lookup,
        Lodash.baseGet_undef] at h
      cases h

/-- The guard of `addSimpleNode` lets a leaf through whose value is defined in a document
that has a key. -/
theorem skipSimpleNode_defined (callerProps : CallerProps) (dkvs : List (String × JVal))
    (dataxpath xpath : JVal) (hdata : callerProps.data = .obj dkvs) (hne : dkvs ≠ [])
    (hdef : (Lodash.get callerProps.data dataxpath).isUndef = false) :
    skipSimpleNode callerProps dataxpath xpath = .ok false := by
  have hlen : ¬ (List.map Prod.fst dkvs).length = 0 := by
    cases dkvs with
    | nil => exact absurd rfl hne
    | cons a l => simp
  simp only [skipSimpleNode, hdata, JVal.keys, bind, Except.bind, hlen, if_false, pure,
    Except.pure, Bool.false_or]
  rw [← hdata, hdef]
  simp

/-- A leaf of a primitive type, as `addSimpleNode` pushes it through `addPrimitiveNode`. -/
theorem addSimpleNode_primitive (C : Consts) (U : Utils) (tree : Tree)
    (schema type propname : JVal) (callerProps : CallerProps) (dataxpath xpath : JVal)
    (additionalProps : JVal)
    (hskip : skipSimpleNode callerProps dataxpath xpath = .ok false)
    (hprim : JVal.arrIncludes U.primitiveDataTypes type = true)
    (hprops : additionalProps.isNullish = false) :
    ∃ node, addSimpleNode C U tree schema type propname callerProps dataxpath xpath
          additionalProps = .ok (tree ++ [node])
      ∧ node.getKey "id" = dataxpath
      ∧ node.getKey "xpath" = xpath
      ∧ node.getKey "dataxpath" = dataxpath
      ∧ node.getKey "type" = type
      ∧ node.getKey "value"
          = (if dataxpath.truthy then Lodash.get callerProps.data dataxpath else JVal.undef)
      ∧ isPaginationNode node = false := by
  by_cases henum : type.strictEq (.str C.ENUM) = true
  · simp only [addSimpleNode, hskip, hprim, addPrimitiveNode, JVal.prop, hprops, henum,
      JVal.setProp_obj, bind, Except.bind, pure, Except.pure, Bool.false_eq_true, if_false,
      if_true]
    refine ⟨_, rfl, ?_⟩
    simp [JVal.getKey, JVal.setField, JVal.lookup, isPaginationNode, JVal.strictEq]
  · simp only [addSimpleNode, hskip, hprim, addPrimitiveNode, JVal.prop, hprops, henum,
      JVal.setProp_obj, bind, Except.bind, pure, Except.pure, Bool.false_eq_true, if_false,
      if_true]
    refine ⟨_, rfl, ?_⟩
    simp [JVal.getKey, JVal.setField, JVal.lookup, isPaginationNode, JVal.strictEq]

end TreeHelper

namespace TreeHelper

theorem tpl_bracket (D : String) (i : Nat) :
    tpl (.str D) (bracket (Nat.repr i)) = .ok (D ++ "[" ++ Nat.repr i ++ "]") := by
  simp only [tpl, bracket, JVal.toStr, bind, Except.bind, pure, Except.pure, String.append_assoc]

/-- The leaves that the loops of `handleSimpleArray` create for the defined items at the
positions `indices`: one leaf per position, in order, with the paths of the item. -/
theorem addItemLeaves_spec (C : Consts) (U : Utils) (indices : List Nat) (child : Tree)
    (schema adt : JVal) (callerProps : CallerProps) (D X : String) (ap : JVal)
    (dkvs : List (String × JVal)) (xs : List JVal)
    (hdata : callerProps.data = .obj dkvs) (hD : D.data ≠ [])
    (hitems : Lodash.get callerProps.data (.str D) = .arr xs)
    (hdef : ∀ i ∈ indices, (JVal.elemAt xs i).isUndef = false)
    (hprim : JVal.arrIncludes U.primitiveDataTypes adt = true)
    (hprops : ap.isNullish = false) :
    ∃ leaves, addItemLeaves C U indices child schema adt callerProps (.str D) (.str X) ap
          = .ok (child ++ leaves)
      ∧ List.Forall₂ (fun i node =>
          node.getKey "id" = .str (D ++ "[" ++ Nat.repr i ++ "]")
            ∧ node.getKey "xpath" = .str (X ++ "[" ++ Nat.repr i ++ "]")
            ∧ node.getKey "dataxpath" = .str (D ++ "[" ++ Nat.repr i ++ "]")
            ∧ node.getKey "type" = adt
            ∧ node.getKey "value" = JVal.elemAt xs i
            ∧ isPaginationNode node = false) indices leaves := by
  have hne : dkvs ≠ [] := keys_ne_nil_of_get dkvs (.str D) xs (hdata ▸ hitems)
  induction indices generalizing child with
  | nil => exact ⟨[], by simp [addItemLeaves, pure, Except.pure], List.Forall₂.nil⟩
  | cons i rest ih =>
    have hget := Lodash.get_index callerProps.data D i xs hD hitems
    have hdi : (Lodash.get callerProps.data (.str (D ++ "[" ++ Nat.repr i ++ "]"))).isUndef
        = false := by rw [hget]; exact hdef i (List.mem_cons_self _ _)
    obtain ⟨node, hnode, h1, h2, h3, h4, h5, h6⟩ :=
      addSimpleNode_primitive C U child schema adt .null callerProps
        (.str (D ++ "[" ++ Nat.repr i ++ "]")) (.str (X ++ "[" ++ Nat.repr i ++ "]")) ap
        (skipSimpleNode_defined callerProps dkvs _ _ hdata hne hdi) hprim hprops
    obtain ⟨leaves, hl, hf⟩ := ih (child ++ [node])
      (fun j hj => hdef j (List.mem_cons_of_mem _ hj))
    refine ⟨node :: leaves, ?_, List.Forall₂.cons ⟨h1, h2, h3, h4, ?_, h6⟩ hf⟩
    · simp only [addItemLeaves, List.foldlM_cons, tpl_bracket, bind, Except.bind, hnode]
      simp only [addItemLeaves, tpl_bracket, bind, Except.bind] at hl
      rw [hl]
      simp
    · rw [h5, hget]
      have : (JVal.str (D ++ "[" ++ Nat.repr i ++ "]")).truthy = true := by
        simp [JVal.truthy]
        intro e
        have := congrArg String.length e
        simp only [String.length_append] at this
        have h0 : "]".length = 1 := by decide
        have h00 : "".length = 0 := by decide
        omega
      rw [if_pos this]

/-- The paths of the node that `createSimpleNode` returns. -/
theorem createSimpleNode_paths (U : Utils) (p : String) (D X data currentSchema : JVal)
    (callerProps : CallerProps) (node : JVal)
    (h : createSimpleNode U (.str p) D X data currentSchema callerProps = .ok node) :
    (if X.truthy = true then X.toStr.map (fun s => JVal.str (s ++ "." ++ p))
        else .ok (JVal.str p)) = .ok (node.getKey "xpath")
      ∧ (if D.truthy = true then D.toStr.map (fun s => JVal.str (s ++ "." ++ p))
        else .ok (JVal.str p)) = .ok (node.getKey "dataxpath") := by
  unfold createSimpleNode at h
  obtain ⟨key, hkey, h⟩ := Except.bind_eq_ok' h
  obtain ⟨req, _, h⟩ := Except.bind_eq_ok' h
  obtain ⟨required, _, h⟩ := Except.bind_eq_ok' h
  cases hkey
  simp only [bind, Except.bind, pure, Except.pure] at h
  cases hX : X.truthy <;> cases hD : D.truthy <;>
    simp only [hX, hD, Bool.false_eq_true, if_true, if_false] at h ⊢ <;>
    cases hXs : X.toStr <;> cases hDs : D.toStr <;>
    try simp only [hXs, hDs] at h
  all_goals repeat' split at h
  all_goals first
    | (cases h; done)
    | (cases h; simp [Except.map, JVal.getKey, JVal.lookup])

end TreeHelper

namespace TreeHelper

/-- C12: path bookkeeping of leaves.  A leaf that `createSimpleNode` creates for the property
`p` under a parent with logical path `X` and working-copy path `D` has xpath `X.p` and
dataxpath `D.p`, and both are `p` when the parent has no path; so its xpath and dataxpath are
equal whenever those of its parent are.  The leaf that the loops of `handleSimpleArray` create
for the item `i` of a primitive array with paths `X` and `D` has xpath `X[i]`, and its
dataxpath and id are `D[i]`. -/
theorem leaf_paths (C : Consts) (U : Utils) :
    (∀ (p : String) (D X data currentSchema : JVal) (callerProps : CallerProps) (node : JVal),
      createSimpleNode U (.str p) D X data currentSchema callerProps = .ok node →
        (∀ Xs, X = .str Xs → Xs ≠ "" → node.getKey "xpath" = .str (Xs ++ "." ++ p))
          ∧ (X.truthy = false → node.getKey "xpath" = .str p)
          ∧ (∀ Ds, D = .str Ds → Ds ≠ "" → node.getKey "dataxpath" = .str (Ds ++ "." ++ p))
          ∧ (D.truthy = false → node.getKey "dataxpath" = .str p)
          ∧ (X = D → node.getKey "xpath" = node.getKey "dataxpath"))
      ∧ (∀ (indices : List Nat) (child : Tree) (schema adt : JVal) (callerProps : CallerProps)
          (D X : String) (ap : JVal) (dkvs : List (String × JVal)) (xs : List JVal),
        callerProps.data = .obj dkvs → D.data ≠ [] →
        Lodash.get callerProps.data (.str D) = .arr xs →
        (∀ i ∈ indices, (JVal.elemAt xs i).isUndef = false) →
        JVal.arrIncludes U.primitiveDataTypes adt = true →
        ap.isNullish = false →
        ∃ leaves, addItemLeaves C U indices child schema adt callerProps (.str D) (.str X) ap
              = .ok (child ++ leaves)
          ∧ List.Forall₂ (fun i leaf =>
              leaf.getKey "xpath" = .str (X ++ "[" ++ Nat.repr i ++ "]")
                ∧ leaf.getKey "dataxpath" = .str (D ++ "[" ++ Nat.repr i ++ "]")
                ∧ leaf.getKey "id" = .str (D ++ "[" ++ Nat.repr i ++ "]")) indices leaves) := by
  refine ⟨?_, ?_⟩
  · intro p D X data currentSchema callerProps node h
    obtain ⟨hx, hd⟩ := createSimpleNode_paths U p D X data currentSchema callerProps node h
    have hne : ∀ s : String, s ≠ "" → (JVal.str s).truthy = true := by
      intro s hs; simp [JVal.truthy, hs]
    refine ⟨?_, ?_, ?_, ?_, ?_⟩
    · intro Xs hX hs
      subst hX
      rw [if_pos (hne Xs hs)] at hx
      exact (Except.ok.inj hx).symm
    · intro hX
      rw [hX] at hx
      exact (Except.ok.inj hx).symm
    · intro Ds hD hs
      subst hD
      rw [if_pos (hne Ds hs)] at hd
      exact (Except.ok.inj hd).symm
    · intro hD
      rw [hD] at hd
      exact (Except.ok.inj hd).symm
    · intro hXD
      subst hXD
      exact Except.ok.inj (hx.symm.trans hd)
  · intro indices child schema adt callerProps D X ap dkvs xs hdata hD hitems hdef hprim hprops
    obtain ⟨leaves, hl, hf⟩ := addItemLeaves_spec C U indices child schema adt callerProps D X
      ap dkvs xs hdata hD hitems hdef hprim hprops
    exact ⟨leaves, hl, hf.imp (fun _ _ h => ⟨h.2.1, h.2.2.1, h.1⟩)⟩

/-- Witness of C12: the leaf of the property `p` under the object `a`, and the leaves of the
two items of the list `tags`. -/
theorem leaf_paths_witness :
    (∃ node, createSimpleNode sampleUtils (.str "p") (.str "a") (.str "a") sampleDocument
          sampleTypeSchema (sampleCallerProps sampleDocument) = .ok node
        ∧ node.getKey "xpath" = .str ("a" ++ "." ++ "p"))
      ∧ ∃ leaves, addItemLeaves sampleConsts sampleUtils [0, 1] [] (.obj []) (.str "string")
            (sampleCallerProps tagsDocument) (.str "tags") (.str "tags")
            (.obj [("underlyingtype", .str "string")]) = .ok ([] ++ leaves)
          ∧ List.Forall₂ (fun i leaf =>
              leaf.getKey "xpath" = .str ("tags" ++ "[" ++ Nat.repr i ++ "]")
                ∧ leaf.getKey "dataxpath" = .str ("tags" ++ "[" ++ Nat.repr i ++ "]")
                ∧ leaf.getKey "id" = .str ("tags" ++ "[" ++ Nat.repr i ++ "]")) [0, 1] leaves :=
  ⟨⟨_, rfl, ((leaf_paths sampleConsts sampleUtils).1 "p" (.str "a") (.str "a") sampleDocument
      sampleTypeSchema (sampleCallerProps sampleDocument) _ rfl).1 "a" rfl (by decide)⟩,
    (leaf_paths sampleConsts sampleUtils).2 [0, 1] [] (.obj []) (.str "string")
      (sampleCallerProps tagsDocument) "tags" "tags" (.obj [("underlyingtype", .str "string")])
      [("tags", .arr [.str "x", .str "y"])] [.str "x", .str "y"] rfl (by decide) rfl
      (by decide) (by decide) rfl⟩

end TreeHelper

namespace TreeHelper

theorem prop_eq_getKey (v : JVal) (k : String) (h : v.isNullish = false) :
    v.prop k = .ok (v.getKey k) := by
  simp [JVal.prop, h]

theorem isNullish_of_prop {v r : JVal} {k : String} (h : v.prop k = .ok r) :
    v.isNullish = false := by
  cases hv : v.isNullish
  · rfl
  · simp [JVal.prop, hv] at h

/-- The object `additionalProps` that `buildArrayAdditionalProps` returns is an object. -/
theorem buildArrayAdditionalProps_obj {C : Consts} {schema currentSchema ap : JVal}
    (h : buildArrayAdditionalProps C schema currentSchema = .ok ap) :
    ap.isNullish = false ∧ currentSchema.isNullish = false := by
  unfold buildArrayAdditionalProps at h
  obtain ⟨u, hu, h⟩ := Except.bind_eq_ok' h
  refine ⟨?_, isNullish_of_prop hu⟩
  split at h
  · obtain ⟨_, _, h⟩ := Except.bind_eq_ok' h
    obtain ⟨_, _, h⟩ := Except.bind_eq_ok' h
    obtain ⟨_, _, h⟩ := Except.bind_eq_ok' h
    obtain ⟨_, _, h⟩ := Except.bind_eq_ok' h
    obtain ⟨_, _, h⟩ := Except.bind_eq_ok' h
    obtain ⟨⟨kvs, _, e⟩, _⟩ := JVal.setProp_ok h
    rw [e]; rfl
  · cases h; rfl

/-- The header that `addHeaderNode` returns is an object. -/
theorem addHeaderNode_obj {U : Utils} {currentSchema propname type : JVal}
    {callerProps : CallerProps} {dataxpath xpath ref objectState : JVal}
    {treeState treeState' : TreeState} {H : JVal}
    (h : addHeaderNode U currentSchema propname type callerProps dataxpath xpath ref objectState
      treeState = .ok (H, treeState')) : ∃ kvs, H = .obj kvs := by
  obtain ⟨base, key, _, _, hset, _, _⟩ := addHeaderNode_ok h
  obtain ⟨⟨kvs, _, e⟩, _⟩ := JVal.setProp_ok hset
  exact ⟨_, e⟩

end TreeHelper

namespace TreeHelper

/-- The run of `handleSimpleArray` on a primitive array whose working-copy array, at the path
`D`, has `n` defined items: the container it pushes, the item holder with the leaves of the
first `min(5, n)` items, and the pagination node and record made exactly when `n > 5`. -/
theorem handleSimpleArray_run (C : Consts) (U : Utils) (tree : Tree)
    (schema currentSchema propname type : JVal) (callerProps : CallerProps) (D X : String)
    (treeState ts1 ts2 : TreeState) (dkvs : List (String × JVal)) (xs : List JVal)
    (adt ap H1 H2 : JVal)
    (hdata : callerProps.data = .obj dkvs) (hD : D.data ≠ [])
    (hitems : Lodash.get callerProps.data (.str D) = .arr xs)
    (hdef : ∀ x ∈ xs, x.isUndef = false)
    (hadt : getArrayDataType C currentSchema = .ok adt)
    (hprim : JVal.arrIncludes U.primitiveDataTypes adt = true)
    (hap : buildArrayAdditionalProps C schema currentSchema = .ok ap)
    (h1 : addHeaderNode U currentSchema propname (.str C.ARRAY) callerProps (.str D) (.str X)
      ((currentSchema.getKey "items").optProp "$ref") JVal.undef treeState = .ok (H1, ts1))
    (h2 : addHeaderNode U currentSchema propname (currentSchema.getKey "type") callerProps
      (.str (D ++ "[-1]")) (.str (X ++ "[-1]")) adt
      (.obj [("add", .bool true), ("remove", .bool false)]) ts1 = .ok (H2, ts2)) :
    ∃ container holder leaves,
      handleSimpleArray C U tree schema currentSchema propname callerProps (.str D) type
          (.str X) treeState = .ok (tree ++ [container], ts2)
        ∧ childrenOf container = holder ::
            (if 5 < xs.length then
              [JVal.obj [("id", .str ("pagination_" ++ X)), ("key", .str "pagination"),
                ("name", .str ("Page 1 of " ++ JS.intToString (JS.ceilDiv xs.length 5))),
                ("isPagination", .bool true), ("xpath", .str (X ++ "_pagination")),
                ("prevPage", .num 0), ("nextPage", .num 1), ("onPageChange", .bool true)]]
             else [])
        ∧ childrenOf holder = leaves
        ∧ List.Forall₂ (fun i leaf =>
            leaf.getKey "id" = .str (D ++ "[" ++ Nat.repr i ++ "]")
              ∧ leaf.getKey "xpath" = .str (X ++ "[" ++ Nat.repr i ++ "]")
              ∧ leaf.getKey "value" = JVal.elemAt xs i
              ∧ isPaginationNode leaf = false) (List.range (min 5 xs.length)) leaves
        ∧ (5 < xs.length → holder.getKey "pagination"
            = .obj [("totalItems", .num xs.length),
                ("totalPages", .num (JS.ceilDiv xs.length 5)), ("currentPage", .num 0),
                ("paginationId", .str ("pagination_" ++ X))])
        ∧ (xs.length ≤ 5 → holder.getKey "pagination" = H2.getKey "pagination") := by
  obtain ⟨hapn, hcs⟩ := buildArrayAdditionalProps_obj hap
  obtain ⟨k1, e1⟩ := addHeaderNode_obj h1
  obtain ⟨k2, e2⟩ := addHeaderNode_obj h2
  subst e1 e2
  have hleaves : ∀ m, m ≤ xs.length → ∃ leaves,
      addItemLeaves C U (List.range m) [] schema adt callerProps (.str D) (.str X) ap
          = .ok leaves
        ∧ List.Forall₂ (fun i leaf =>
            leaf.getKey "id" = .str (D ++ "[" ++ Nat.repr i ++ "]")
              ∧ leaf.getKey "xpath" = .str (X ++ "[" ++ Nat.repr i ++ "]")
              ∧ leaf.getKey "value" = JVal.elemAt xs i
              ∧ isPaginationNode leaf = false) (List.range m) leaves := by
    intro m hm
    obtain ⟨leaves, hl, hf⟩ := addItemLeaves_spec C U (List.range m) [] schema adt callerProps
      D X ap dkvs xs hdata hD hitems
      (fun i hi => by
        have hlt : i < xs.length := Nat.lt_of_lt_of_le (List.mem_range.mp hi) hm
        rw [Lodash.elemAt_eq_getElem xs i hlt]
        exact hdef _ (List.getElem_mem _))
      hprim hapn
    exact ⟨leaves, by simpa using hl, hf.imp (fun _ _ h => ⟨h.1, h.2.1, h.2.2.2.2.1, h.2.2.2.2.2⟩)⟩
  have htpl : ∀ (s t : String), tpl (.str s) t = .ok (s ++ t) := fun _ _ => rfl
  by_cases hn : 5 < xs.length
  · obtain ⟨leaves, hl, hf⟩ := hleaves 5 (Nat.le_of_lt hn)
    have hmin : min 5 xs.length = 5 := Nat.min_eq_left (Nat.le_of_lt hn)
    refine ⟨.obj (JVal.setField k1 "children" (.arr [
        .obj (JVal.setField (JVal.setField k2 "pagination"
          (.obj [("totalItems", .num xs.length),
            ("totalPages", .num (JS.ceilDiv xs.length 5)), ("currentPage", .num 0),
            ("paginationId", .str ("pagination_" ++ X))])) "children" (.arr leaves)),
        .obj [("id", .str ("pagination_" ++ X)), ("key", .str "pagination"),
          ("name", .str ("Page 1 of " ++ JS.intToString (JS.ceilDiv xs.length 5))),
          ("isPagination", .bool true), ("xpath", .str (X ++ "_pagination")),
          ("prevPage", .num 0), ("nextPage", .num 1), ("onPageChange", .bool true)]])),
      .obj (JVal.setField (JVal.setField k2 "pagination"
          (.obj [("totalItems", .num xs.length),
            ("totalPages", .num (JS.ceilDiv xs.length 5)), ("currentPage", .num 0),
            ("paginationId", .str ("pagination_" ++ X))])) "children" (.arr leaves)),
      leaves, ?_, ?_, ?_, by rw [hmin]; exact hf, ?_, ?_⟩
    · simp only [handleSimpleArray, hitems, JVal.isUndef, Bool.and_false, Bool.false_eq_true,
        if_false, hadt, hap, prop_eq_getKey _ _ hcs, h1, htpl, h2, JVal.truthy, if_true,
        simpleArrayItems, ITEMS_PER_PAGE, gt_iff_lt, hn, decide_True, paginationInfo,
        paginationNode, JVal.toStr, JVal.setProp_obj, hmin, List.drop_zero, hl, pushHeader,
        bind, Except.bind, pure, Except.pure, List.nil_append]
      rfl
    · simp only [childrenOf, JVal.getKey, JVal.lookup_setField_same, if_pos hn]
    · simp only [childrenOf, JVal.getKey, JVal.lookup_setField_same]
    · intro _
      simp only [JVal.getKey]
      rw [JVal.lookup_setField_other _ _ _ _ (by decide), JVal.lookup_setField_same]
    · intro h; omega
  · have hle : xs.length ≤ 5 := Nat.le_of_not_lt hn
    obtain ⟨leaves, hl, hf⟩ := hleaves xs.length (Nat.le_refl _)
    have hmin : min 5 xs.length = xs.length := Nat.min_eq_right hle
    refine ⟨.obj (JVal.setField k1 "children" (.arr [
        .obj (JVal.setField k2 "children" (.arr leaves))])),
      .obj (JVal.setField k2 "children" (.arr leaves)),
      leaves, ?_, ?_, ?_, by rw [hmin]; exact hf, ?_, ?_⟩
    · simp only [handleSimpleArray, hitems, JVal.isUndef, Bool.and_false, Bool.false_eq_true,
        if_false, hadt, hap, prop_eq_getKey _ _ hcs, h1, htpl, h2, JVal.truthy, if_true,
        simpleArrayItems, ITEMS_PER_PAGE, gt_iff_lt, hn, decide_False, JVal.setProp_obj, hl,
        pushHeader, bind, Except.bind, pure, Except.pure, List.nil_append]
    · simp only [childrenOf, JVal.getKey, JVal.lookup_setField_same, if_neg hn]
    · simp only [childrenOf, JVal.getKey, JVal.lookup_setField_same]
    · intro h; omega
    · intro _
      simp only [JVal.getKey]
      rw [JVal.lookup_setField_other _ _ _ _ (by decide)]

end TreeHelper

namespace TreeHelper

/-- C2: a primitive array property whose working-copy array, at the path `D`, has `n` defined
items.  `handleSimpleArray` pushes one container header whose children are the item-holder
header followed, exactly when `n > 5`, by one pagination node (`isPagination` true, name
`Page 1 of ceil(n/5)`, xpath `X_pagination`, `prevPage` 0, `nextPage` 1).  The children of
the item holder are the leaves of the items `0 .. min(5, n) - 1`, in order, none of them a
pagination node.  When `n > 5` the item holder records `pagination` with `totalItems` `n`,
`totalPages` `ceil(n/5)` and `currentPage` 0; when `n <= 5` its `pagination` is left as
`addHeaderNode` made it. -/
theorem handleSimpleArray_pages (C : Consts) (U : Utils) (tree : Tree)
    (schema currentSchema propname type : JVal) (callerProps : CallerProps) (D X : String)
    (treeState ts1 ts2 : TreeState) (dkvs : List (String × JVal)) (xs : List JVal)
    (adt ap H1 H2 : JVal)
    (hdata : callerProps.data = .obj dkvs) (hD : D.data ≠ [])
    (hitems : Lodash.get callerProps.data (.str D) = .arr xs)
    (hdef : ∀ x ∈ xs, x.isUndef = false)
    (hadt : getArrayDataType C currentSchema = .ok adt)
    (hprim : JVal.arrIncludes U.primitiveDataTypes adt = true)
    (hap : buildArrayAdditionalProps C schema currentSchema = .ok ap)
    (h1 : addHeaderNode U currentSchema propname (.str C.ARRAY) callerProps (.str D) (.str X)
      ((currentSchema.getKey "items").optProp "$ref") JVal.undef treeState = .ok (H1, ts1))
    (h2 : addHeaderNode U currentSchema propname (currentSchema.getKey "type") callerProps
      (.str (D ++ "[-1]")) (.str (X ++ "[-1]")) adt
      (.obj [("add", .bool true), ("remove", .bool false)]) ts1 = .ok (H2, ts2)) :
    ∃ container holder leaves,
      handleSimpleArray C U tree schema currentSchema propname callerProps (.str D) type
          (.str X) treeState = .ok (tree ++ [container], ts2)
        ∧ childrenOf container = holder ::
            (if 5 < xs.length then
              [JVal.obj [("id", .str ("pagination_" ++ X)), ("key", .str "pagination"),
                ("name", .str ("Page 1 of " ++ JS.intToString (JS.ceilDiv xs.length 5))),
                ("isPagination", .bool true), ("xpath", .str (X ++ "_pagination")),
                ("prevPage", .num 0), ("nextPage", .num 1), ("onPageChange", .bool true)]]
             else [])
        ∧ childrenOf holder = leaves
        ∧ List.Forall₂ (fun i leaf =>
            leaf.getKey "id" = .str (D ++ "[" ++ Nat.repr i ++ "]")
              ∧ leaf.getKey "xpath" = .str (X ++ "[" ++ Nat.repr i ++ "]")
              ∧ leaf.getKey "value" = JVal.elemAt xs i
              ∧ isPaginationNode leaf = false) (List.range (min 5 xs.length)) leaves
        ∧ (5 < xs.length → holder.getKey "pagination"
            = .obj [("totalItems", .num xs.length),
                ("totalPages", .num (JS.ceilDiv xs.length 5)), ("currentPage", .num 0),
                ("paginationId", .str ("pagination_" ++ X))])
        ∧ (xs.length ≤ 5 → holder.getKey "pagination" = H2.getKey "pagination") :=
  handleSimpleArray_run C U tree schema currentSchema propname type callerProps D X treeState
    ts1 ts2 dkvs xs adt ap H1 H2 hdata hD hitems hdef hadt hprim hap h1 h2

end TreeHelper

namespace TreeHelper

/-- Witness of C2: the six strings of `tags` give five leaves and one pagination node,
`Page 1 of 2`. -/
theorem handleSimpleArray_pages_witness :
    ∃ container holder leaves ts,
      handleSimpleArray sampleConsts sampleUtils [] (.obj []) tagsSchema (.str "tags")
          (sampleCallerProps sixTagsDocument) (.str "tags") JVal.undef (.str "tags") []
          = .ok ([container], ts)
        ∧ childrenOf container = [holder,
            .obj [("id", .str "pagination_tags"), ("key", .str "pagination"),
              ("name", .str "Page 1 of 2"), ("isPagination", .bool true),
              ("xpath", .str "tags_pagination"), ("prevPage", .num 0), ("nextPage", .num 1),
              ("onPageChange", .bool true)]]
        ∧ (childrenOf holder).length = 5
        ∧ childrenOf holder = leaves
        ∧ holder.getKey "pagination"
            = .obj [("totalItems", .num 6), ("totalPages", .num 2), ("currentPage", .num 0),
                ("paginationId", .str "pagination_tags")] :=
  match handleSimpleArray_pages sampleConsts sampleUtils [] (.obj []) tagsSchema (.str "tags")
      JVal.undef (sampleCallerProps sixTagsDocument) "tags" "tags" [] _ _
      [("tags", .arr sixTags)] sixTags (.str "string") (.obj [("underlyingtype", .str "string")])
      _ _ rfl (by decide) rfl (by decide) rfl (by decide) rfl rfl rfl with
  | ⟨container, holder, leaves, hrun, hc, hh, hf, hp, _⟩ =>
    ⟨container, holder, leaves, _, hrun, by rw [hc]; rfl,
      by rw [hh]; exact hf.length_eq.symm, hh, hp (by decide)⟩

end TreeHelper

namespace TreeHelper

/-- The first loop of `processArrayItems` after `n` rounds: the paths of the baseline elements
`0 .. n - 1`, and one item for each of them that lies in the requested subtree. -/
theorem originalLoop_spec (U : Utils) (callerProps : CallerProps) (X : String) (n : Nat)
    (st : List String × List Item)
    (h : (List.range n).foldlM
      (fun (st : List String × List Item) (i : Nat) => do
        let (paths, itemsToProcess) := st
        let updatedxpath ← tpl (.str X) (bracket (Nat.repr i))
        let childxpath ← U.getDataxpath callerProps.data (.str updatedxpath)
        let paths := paths ++ [updatedxpath]
        if !(← U.isNodeInSubtree callerProps (.str X) (.str updatedxpath)).truthy then
          pure (paths, itemsToProcess)
        else
          pure (paths, itemsToProcess ++ [Item.mk i childxpath updatedxpath true]))
      ([], []) = .ok st) :
    st.1 = (List.range n).map (fun j => X ++ "[" ++ Nat.repr j ++ "]")
      ∧ (∀ item ∈ st.2, item.fromOriginal = true ∧ item.index < n
          ∧ item.updatedxpath = X ++ "[" ++ Nat.repr item.index ++ "]"
          ∧ U.getDataxpath callerProps.data (.str (X ++ "[" ++ Nat.repr item.index ++ "]"))
              = .ok item.childxpath
          ∧ ∃ r, U.isNodeInSubtree callerProps (.str X)
              (.str (X ++ "[" ++ Nat.repr item.index ++ "]")) = .ok r ∧ r.truthy = true)
      ∧ (st.2.map Item.index).Pairwise (fun a b => a < b)
      ∧ ∀ j, j < n → ∀ r, U.isNodeInSubtree callerProps (.str X)
          (.str (X ++ "[" ++ Nat.repr j ++ "]")) = .ok r → r.truthy = true →
          ∃ item ∈ st.2, item.index = j := by
  induction n generalizing st with
  | zero =>
    simp only [List.range_zero, List.foldlM_nil, pure, Except.pure] at h
    cases h
    simp
  | succ n ih =>
    rw [List.range_succ, List.foldlM_append] at h
    obtain ⟨s, hs, h⟩ := Except.bind_eq_ok' h
    obtain ⟨ih1, ih2, ih3, ih4⟩ := ih s hs
    obtain ⟨paths, items⟩ := s
    simp only [List.foldlM_cons, List.foldlM_nil, tpl_bracket, bind, Except.bind, pure,
      Except.pure] at h
    cases hc : U.getDataxpath callerProps.data (.str (X ++ "[" ++ Nat.repr n ++ "]")) with
    | error e => simp only [hc] at h; cases h
    | ok c =>
      cases hr : U.isNodeInSubtree callerProps (.str X)
          (.str (X ++ "[" ++ Nat.repr n ++ "]")) with
      | error e => simp only [hc, hr] at h; cases h
      | ok r =>
        simp only [hc, hr] at h
        simp only at ih1 ih2 ih3 ih4
        cases ht : r.truthy
        · simp only [ht, Bool.not_false, if_true] at h
          cases h
          refine ⟨by simp [List.range_succ, ih1], ?_, ih3, ?_⟩
          · intro item hi
            obtain ⟨a, b, c', d, e⟩ := ih2 item hi
            exact ⟨a, Nat.lt_succ_of_lt b, c', d, e⟩
          · intro j hj r' hr' ht'
            rcases Nat.lt_succ_iff_lt_or_eq.mp hj with hlt | heq
            · exact ih4 j hlt r' hr' ht'
            · subst heq
              rw [hr] at hr'
              cases hr'
              rw [ht] at ht'
              cases ht'
        · simp only [ht, Bool.not_true, Bool.false_eq_true, if_false] at h
          cases h
          refine ⟨by simp [List.range_succ, ih1], ?_, ?_, ?_⟩
          · intro item hi
            rcases List.mem_append.mp hi with hi | hi
            · obtain ⟨a, b, c', d, e⟩ := ih2 item hi
              exact ⟨a, Nat.lt_succ_of_lt b, c', d, e⟩
            · rw [List.mem_singleton] at hi
              subst hi
              exact ⟨rfl, Nat.lt_succ_self n, rfl, hc, r, hr, ht⟩
          · rw [List.map_append, List.pairwise_append]
            refine ⟨ih3, by simp, ?_⟩
            intro a ha b hb
            simp only [List.map_cons, List.map_nil, List.mem_singleton] at hb
            subst hb
            obtain ⟨item, hi, rfl⟩ := List.mem_map.mp ha
            exact (ih2 item hi).2.1
          · intro j hj r' hr' ht'
            rcases Nat.lt_succ_iff_lt_or_eq.mp hj with hlt | heq
            · obtain ⟨item, hi, he⟩ := ih4 j hlt r' hr' ht'
              exact ⟨item, List.mem_append_left _ hi, he⟩
            · subst heq
              exact ⟨_, List.mem_append_right _ (List.mem_singleton_self _), rfl⟩

end TreeHelper

namespace TreeHelper

theorem tpl_bracket_str (D s : String) :
    tpl (.str D) (bracket s) = .ok (D ++ "[" ++ s ++ "]") := by
  simp only [tpl, bracket, JVal.toStr, bind, Except.bind, pure, Except.pure, String.append_assoc]

theorem asStr_ok {v : JVal} {s : String} (h : v.asStr = .ok s) : v = .str s := by
  cases v <;> simp [JVal.asStr] at h
  subst h
  rfl

/-- The second loop of `processArrayItems` over the elements from position `k` on: the items
it adds come from elements that have a property whose name starts with `xpath_`, in their
positional order, and the logical path read from that property was not yet among the
paths. -/
theorem modifiedLoop_spec (U : Utils) (callerProps : CallerProps) (D X : String)
    (ms : List JVal) (k : Nat) (p0 p1 : List String) (it0 it1 : List Item)
    (h : (List.enumFrom k ms).foldlM
      (fun (st : List String × List Item) (entry : Nat × JVal) => do
        let (paths, itemsToProcess) := st
        let (i, childobject) := entry
        match (← childobject.keys).find? (fun key => JS.startsWith key "xpath_") with
        | none => pure (paths, itemsToProcess)
        | some subpropname =>
          let propxpath ← (childobject.getKey subpropname).asStr
          let propindex := JS.substring propxpath (JS.lastIndexOf propxpath '[' + 1)
            (JS.lastIndexOf propxpath ']')
          let updatedxpath ← tpl (.str X) (bracket propindex)
          if paths.contains updatedxpath then pure (paths, itemsToProcess)
          else
            let childxpath ← tpl (.str D) (bracket (Nat.repr i))
            if !(← U.isNodeInSubtree callerProps (.str X) (.str updatedxpath)).truthy then
              pure (paths, itemsToProcess)
            else
              pure (paths ++ [childxpath],
                itemsToProcess ++ [Item.mk i (.str childxpath) updatedxpath false]))
      (p0, it0) = .ok (p1, it1)) :
    ∃ added, it1 = it0 ++ added
      ∧ (∀ q ∈ p0, q ∈ p1)
      ∧ (∀ item ∈ added, item.fromOriginal = false ∧ k ≤ item.index
          ∧ item.childxpath = .str (D ++ "[" ++ Nat.repr item.index ++ "]")
          ∧ item.updatedxpath ∉ p0
          ∧ ∃ element keys key s, ms[item.index - k]? = some element
            ∧ element.keys = .ok keys
            ∧ keys.find? (fun key => JS.startsWith key "xpath_") = some key
            ∧ element.getKey key = .str s
            ∧ item.updatedxpath = X ++ "["
                ++ JS.substring s (JS.lastIndexOf s '[' + 1) (JS.lastIndexOf s ']') ++ "]")
      ∧ (added.map Item.index).Pairwise (fun a b => a < b) := by
  induction ms generalizing k p0 it0 with
  | nil =>
    simp only [List.enumFrom_nil, List.foldlM_nil, pure, Except.pure] at h
    cases h
    exact ⟨[], by simp, fun q hq => hq, by simp, by simp⟩
  | cons m ms ih =>
    rw [List.enumFrom_cons, List.foldlM_cons] at h
    obtain ⟨s, hs, h⟩ := Except.bind_eq_ok' h
    obtain ⟨p, it⟩ := s
    obtain ⟨added, hadd, hsub, hitems, hpair⟩ := ih (k + 1) p it h
    -- items of the rest of the loop, seen from position `k`
    have lift : (∀ q ∈ p0, q ∈ p) → ∀ item ∈ added, item.fromOriginal = false ∧ k ≤ item.index
          ∧ item.childxpath = .str (D ++ "[" ++ Nat.repr item.index ++ "]")
          ∧ item.updatedxpath ∉ p0
          ∧ ∃ element keys key s, (m :: ms)[item.index - k]? = some element
            ∧ element.keys = .ok keys
            ∧ keys.find? (fun key => JS.startsWith key "xpath_") = some key
            ∧ element.getKey key = .str s
            ∧ item.updatedxpath = X ++ "["
                ++ JS.substring s (JS.lastIndexOf s '[' + 1) (JS.lastIndexOf s ']') ++ "]" := by
      intro hp item hi
      obtain ⟨a, b, c, d, element, keys, key, s, e1, e2, e3, e4, e5⟩ := hitems item hi
      refine ⟨a, Nat.le_of_succ_le b, c, fun hmem => d (hp _ hmem), element, keys, key, s, ?_,
        e2, e3, e4, e5⟩
      have : item.index - k = (item.index - (k + 1)) + 1 := by omega
      rw [this, List.getElem?_cons_succ]
      exact e1
    have skip : (p, it) = (p0, it0) → ∃ added, it1 = it0 ++ added
      ∧ (∀ q ∈ p0, q ∈ p1)
      ∧ (∀ item ∈ added, item.fromOriginal = false ∧ k ≤ item.index
          ∧ item.childxpath = .str (D ++ "[" ++ Nat.repr item.index ++ "]")
          ∧ item.updatedxpath ∉ p0
          ∧ ∃ element keys key s, (m :: ms)[item.index - k]? = some element
            ∧ element.keys = .ok keys
            ∧ keys.find? (fun key => JS.startsWith key "xpath_") = some key
            ∧ element.getKey key = .str s
            ∧ item.updatedxpath = X ++ "["
                ++ JS.substring s (JS.lastIndexOf s '[' + 1) (JS.lastIndexOf s ']') ++ "]")
      ∧ (added.map Item.index).Pairwise (fun a b => a < b) := by
      intro e
      cases e
      exact ⟨added, hadd, hsub, lift (fun q hq => hq), hpair⟩
    simp only [bind, Except.bind, pure, Except.pure] at hs
    cases hk : m.keys with
    | error e => simp only [hk] at hs; cases hs
    | ok keys =>
      simp only [hk] at hs
      cases hf : keys.find? (fun key => JS.startsWith key "xpath_") with
      | none => simp only [hf] at hs; exact skip (Except.ok.inj hs).symm
      | some key =>
        simp only [hf] at hs
        cases hv : (m.getKey key).asStr with
        | error e => simp only [hv] at hs; cases hs
        | ok sv =>
          simp only [hv, tpl_bracket_str] at hs
          cases hc : p0.contains (X ++ "["
              ++ JS.substring sv (JS.lastIndexOf sv '[' + 1) (JS.lastIndexOf sv ']') ++ "]")
          · simp only [hc, Bool.false_eq_true, if_false] at hs
            cases hr : U.isNodeInSubtree callerProps (.str X) (.str (X ++ "["
                ++ JS.substring sv (JS.lastIndexOf sv '[' + 1) (JS.lastIndexOf sv ']') ++ "]"))
              with
            | error e => simp only [hr] at hs; cases hs
            | ok r =>
              simp only [hr] at hs
              cases ht : r.truthy
              · simp only [ht, Bool.not_false, if_true] at hs
                exact skip (Except.ok.inj hs).symm
              · simp only [ht, Bool.not_true, Bool.false_eq_true, if_false] at hs
                cases hs
                have hnot : (X ++ "[" ++ JS.substring sv (JS.lastIndexOf sv '[' + 1)
                    (JS.lastIndexOf sv ']') ++ "]") ∉ p0 := by
                  intro hmem
                  have : p0.contains (X ++ "[" ++ JS.substring sv (JS.lastIndexOf sv '[' + 1)
                      (JS.lastIndexOf sv ']') ++ "]") = true := by
                    simpa using hmem
                  rw [hc] at this
                  cases this
                refine ⟨Item.mk k (.str (D ++ "[" ++ Nat.repr k ++ "]")) (X ++ "["
                  ++ JS.substring sv (JS.lastIndexOf sv '[' + 1) (JS.lastIndexOf sv ']') ++ "]")
                  false :: added, ?_, ?_, ?_, ?_⟩
                · rw [hadd]; simp
                · intro q hq
                  exact hsub q (List.mem_append_left _ hq)
                · intro item hi
                  rcases List.mem_cons.mp hi with hi | hi
                  · subst hi
                    refine ⟨rfl, Nat.le_refl _, rfl, hnot, m, keys, key, sv, ?_, hk, hf,
                      asStr_ok hv, rfl⟩
                    simp
                  · exact lift (fun q hq => List.mem_append_left _ hq) item hi
                · rw [List.map_cons, List.pairwise_cons]
                  refine ⟨?_, hpair⟩
                  intro a ha
                  obtain ⟨item, hi, rfl⟩ := List.mem_map.mp ha
                  exact (hitems item hi).2.1
          · simp only [hc, if_true] at hs
            exact skip (Except.ok.inj hs).symm

end TreeHelper

namespace TreeHelper

theorem loopBound_arr (os : List JVal) : loopBound (.arr os) = .ok os.length := by
  simp [loopBound, JVal.getKey]

/-- The two loops of `processArrayItems`, on a baseline array `os` at the logical path and a
working-copy array `ms` at the working-copy path (each may also be absent, and then counts as
empty): the items of the baseline come first, followed by the items added for the
working copy. -/
theorem collectItems_spec (U : Utils) (callerProps : CallerProps) (D X : String)
    (os ms : List JVal) (st : List String × List Item) (paths : List String)
    (items : List Item)
    (horig : Lodash.get callerProps.originalData (.str X) = .arr os
      ∨ ((Lodash.get callerProps.originalData (.str X)).truthy = false ∧ os = []))
    (hmod : Lodash.get callerProps.data (.str D) = .arr ms
      ∨ ((Lodash.get callerProps.data (.str D)).truthy = false ∧ ms = []))
    (h1 : collectOriginalItems U callerProps (.str X) = .ok st)
    (h2 : collectModifiedItems U callerProps (.str D) (.str X) st = .ok (paths, items)) :
    ∃ added, items = st.2 ++ added
      ∧ st.1 = (List.range os.length).map (fun j => X ++ "[" ++ Nat.repr j ++ "]")
      ∧ (∀ item ∈ st.2, item.fromOriginal = true ∧ item.index < os.length
          ∧ item.updatedxpath = X ++ "[" ++ Nat.repr item.index ++ "]"
          ∧ U.getDataxpath callerProps.data (.str (X ++ "[" ++ Nat.repr item.index ++ "]"))
              = .ok item.childxpath
          ∧ ∃ r, U.isNodeInSubtree callerProps (.str X)
              (.str (X ++ "[" ++ Nat.repr item.index ++ "]")) = .ok r ∧ r.truthy = true)
      ∧ (st.2.map Item.index).Pairwise (fun a b => a < b)
      ∧ (∀ j, j < os.length → ∀ r, U.isNodeInSubtree callerProps (.str X)
          (.str (X ++ "[" ++ Nat.repr j ++ "]")) = .ok r → r.truthy = true →
          ∃ item ∈ st.2, item.index = j)
      ∧ (∀ item ∈ added, item.fromOriginal = false ∧ 0 ≤ item.index
          ∧ item.childxpath = .str (D ++ "[" ++ Nat.repr item.index ++ "]")
          ∧ item.updatedxpath ∉ st.1
          ∧ ∃ element keys key s, ms[item.index - 0]? = some element
            ∧ element.keys = .ok keys
            ∧ keys.find? (fun key => JS.startsWith key "xpath_") = some key
            ∧ element.getKey key = .str s
            ∧ item.updatedxpath = X ++ "["
                ++ JS.substring s (JS.lastIndexOf s '[' + 1) (JS.lastIndexOf s ']') ++ "]")
      ∧ (added.map Item.index).Pairwise (fun a b => a < b) := by
  have ho := originalLoop_spec U callerProps X os.length st (by
    rcases horig with horig | ⟨horig, hos⟩
    · simp only [collectOriginalItems, horig, JVal.truthy, if_true, loopBound_arr, bind,
        Except.bind] at h1
      exact h1
    · simp only [collectOriginalItems, horig, Bool.false_eq_true, if_false, pure,
        Except.pure] at h1
      subst hos
      exact h1)
  obtain ⟨p0, it0⟩ := st
  obtain ⟨added, hadd, _, hitems, hpair⟩ :=
    modifiedLoop_spec U callerProps D X ms 0 p0 paths it0 items (by
      rcases hmod with hmod | ⟨hmod, hms⟩
      · simp only [collectModifiedItems, hmod, JVal.truthy, if_true, JVal.asArr, bind,
          Except.bind, List.enum] at h2
        exact h2
      · simp only [collectModifiedItems, hmod, Bool.false_eq_true, if_false, pure,
          Except.pure] at h2
        subst hms
        exact h2)
  exact ⟨added, hadd, ho.1, ho.2.1, ho.2.2.1, ho.2.2.2, hitems, hpair⟩

end TreeHelper

namespace TreeHelper

theorem bracket_inj (X a b : String) (h : X ++ "[" ++ a ++ "]" = X ++ "[" ++ b ++ "]") :
    a = b := by
  have hd := congrArg String.data h
  simp only [String.data_append, List.append_assoc] at hd
  have h1 := List.append_cancel_left (List.append_cancel_left hd)
  exact String.ext (List.append_cancel_right h1)

/-- The paths of the items that `processArrayItems` collects, on a baseline array `os`
at the logical path `X` and a working-copy array `ms` at the working-copy path `D` (each may
be absent).  The item of the baseline element `j` has the logical path `X[j]` and the
working-copy path `getDataxpath(data, X[j])`.  An item produced for the working-copy element
at position `i` comes from a property of that element whose name starts with `xpath_`; with
`k` the text between the last `[` and the last `]` of the value of that property, the item has
the logical path `X[k]`, which is not the path of a baseline element, and the working-copy
path `D[i]`; so for `X = D` the two paths are equal exactly when `k` is the numeral of `i`. -/
theorem collectItems_paths (U : Utils) (callerProps : CallerProps) (D X : String)
    (os ms : List JVal) (st : List String × List Item) (paths : List String)
    (items : List Item)
    (horig : Lodash.get callerProps.originalData (.str X) = .arr os
      ∨ ((Lodash.get callerProps.originalData (.str X)).truthy = false ∧ os = []))
    (hmod : Lodash.get callerProps.data (.str D) = .arr ms
      ∨ ((Lodash.get callerProps.data (.str D)).truthy = false ∧ ms = []))
    (h1 : collectOriginalItems U callerProps (.str X) = .ok st)
    (h2 : collectModifiedItems U callerProps (.str D) (.str X) st = .ok (paths, items))
    (item : Item) (hitem : item ∈ items) :
    (item.fromOriginal = true →
        item.index < os.length
          ∧ item.updatedxpath = X ++ "[" ++ Nat.repr item.index ++ "]"
          ∧ U.getDataxpath callerProps.data (.str (X ++ "[" ++ Nat.repr item.index ++ "]"))
              = .ok item.childxpath)
      ∧ (item.fromOriginal = false →
        item.childxpath = .str (D ++ "[" ++ Nat.repr item.index ++ "]")
          ∧ (∀ j, j < os.length → item.updatedxpath ≠ X ++ "[" ++ Nat.repr j ++ "]")
          ∧ ∃ element keys key s, ms[item.index]? = some element
            ∧ element.keys = .ok keys
            ∧ keys.find? (fun key => JS.startsWith key "xpath_") = some key
            ∧ JS.startsWith key "xpath_" = true
            ∧ element.getKey key = .str s
            ∧ item.updatedxpath = X ++ "["
                ++ JS.substring s (JS.lastIndexOf s '[' + 1) (JS.lastIndexOf s ']') ++ "]"
            ∧ (X = D → (item.childxpath = .str item.updatedxpath
                ↔ JS.substring s (JS.lastIndexOf s '[' + 1) (JS.lastIndexOf s ']')
                    = Nat.repr item.index))) := by
  obtain ⟨added, hadd, hp, ho, _, _, ha, _⟩ :=
    collectItems_spec U callerProps D X os ms st paths items horig hmod h1 h2
  rw [hadd] at hitem
  rcases List.mem_append.mp hitem with hi | hi
  · obtain ⟨a, b, c, d, _⟩ := ho item hi
    exact ⟨fun _ => ⟨b, c, d⟩, fun hf => by rw [a] at hf; cases hf⟩
  · obtain ⟨a, _, c, d, element, keys, key, s, e1, e2, e3, e4, e5⟩ := ha item hi
    refine ⟨fun ht => (by rw [a] at ht; cases ht), fun _ => ⟨c, ?_, element, keys, key, s, e1,
      e2, e3, ?_, e4, e5, ?_⟩⟩
    · intro j hj hje
      apply d
      rw [hp, hje]
      exact List.mem_map.mpr ⟨j, List.mem_range.mpr hj, rfl⟩
    · have := List.find?_some e3
      simpa using this
    · intro hXD
      subst hXD
      rw [c, e5]
      constructor
      · intro h
        exact (bracket_inj X _ _ (JVal.str.inj h)).symm
      · intro h
        rw [h]

/-- An instance of `collectItems_paths`: the element added at position 1 of the working copy
carries the logical index 2, so its item has the working-copy path `items[1]` and the logical
path `items[2]`. -/
theorem collectItems_paths_witness :
    collectModifiedItems sampleUtils editedCallerProps (.str "items") (.str "items")
        (["items[0]", "items[1]"], editedOriginalItems)
      = .ok (["items[0]", "items[1]", "items[1]"], editedOriginalItems ++ [editedAddedItem])
    ∧ editedAddedItem.childxpath = .str ("items" ++ "[" ++ Nat.repr editedAddedItem.index ++ "]")
    ∧ ∀ j, j < 2 → editedAddedItem.updatedxpath ≠ "items" ++ "[" ++ Nat.repr j ++ "]" :=
  ⟨rfl, ((collectItems_paths sampleUtils editedCallerProps "items" "items"
      [sampleItem 0, sampleItem 1] [sampleItem 1, sampleItem 2]
      (["items[0]", "items[1]"], editedOriginalItems) ["items[0]", "items[1]", "items[1]"]
      (editedOriginalItems ++ [editedAddedItem]) (Or.inl rfl) (Or.inl rfl) rfl rfl
      editedAddedItem (List.mem_append_right _ (List.mem_singleton_self _))).2 rfl).1,
    ((collectItems_paths sampleUtils editedCallerProps "items" "items"
      [sampleItem 0, sampleItem 1] [sampleItem 1, sampleItem 2]
      (["items[0]", "items[1]"], editedOriginalItems) ["items[0]", "items[1]", "items[1]"]
      (editedOriginalItems ++ [editedAddedItem]) (Or.inl rfl) (Or.inl rfl) rfl rfl
      editedAddedItem (List.mem_append_right _ (List.mem_singleton_self _))).2 rfl).2.1⟩

/-- C19: the list of items that `processArrayItems` collects is the list of the baseline items
followed by the list of the items added for the working copy.  The baseline items are those
of the baseline elements in the requested subtree, one for each, in increasing index.  The
added items come from working-copy elements in increasing position; each of these elements
has a property whose name starts with `xpath_`, and the logical path read from it is not the
path of a baseline element. -/
theorem collectItems_order (U : Utils) (callerProps : CallerProps) (D X : String)
    (os ms : List JVal) (st : List String × List Item) (paths : List String)
    (items : List Item)
    (horig : Lodash.get callerProps.originalData (.str X) = .arr os
      ∨ ((Lodash.get callerProps.originalData (.str X)).truthy = false ∧ os = []))
    (hmod : Lodash.get callerProps.data (.str D) = .arr ms
      ∨ ((Lodash.get callerProps.data (.str D)).truthy = false ∧ ms = []))
    (h1 : collectOriginalItems U callerProps (.str X) = .ok st)
    (h2 : collectModifiedItems U callerProps (.str D) (.str X) st = .ok (paths, items)) :
    ∃ orig added, items = orig ++ added
      ∧ (∀ item ∈ orig, item.fromOriginal = true ∧ item.index < os.length
          ∧ ∃ r, U.isNodeInSubtree callerProps (.str X)
              (.str (X ++ "[" ++ Nat.repr item.index ++ "]")) = .ok r ∧ r.truthy = true)
      ∧ (orig.map Item.index).Pairwise (fun a b => a < b)
      ∧ (∀ j, j < os.length → ∀ r, U.isNodeInSubtree callerProps (.str X)
          (.str (X ++ "[" ++ Nat.repr j ++ "]")) = .ok r → r.truthy = true →
          ∃ item ∈ orig, item.index = j)
      ∧ (∀ item ∈ added, item.fromOriginal = false ∧ item.index < ms.length
          ∧ (∀ j, j < os.length → item.updatedxpath ≠ X ++ "[" ++ Nat.repr j ++ "]")
          ∧ ∃ element keys key s, ms[item.index]? = some element
            ∧ element.keys = .ok keys
            ∧ keys.find? (fun key => JS.startsWith key "xpath_") = some key
            ∧ JS.startsWith key "xpath_" = true
            ∧ element.getKey key = .str s
            ∧ item.updatedxpath = X ++ "["
                ++ JS.substring s (JS.lastIndexOf s '[' + 1) (JS.lastIndexOf s ']') ++ "]")
      ∧ (added.map Item.index).Pairwise (fun a b => a < b) := by
  obtain ⟨added, hadd, hp, ho, hpo, hall, ha, hpa⟩ :=
    collectItems_spec U callerProps D X os ms st paths items horig hmod h1 h2
  refine ⟨st.2, added, hadd, ?_, hpo, hall, ?_, hpa⟩
  · intro item hi
    obtain ⟨a, b, _, _, e⟩ := ho item hi
    exact ⟨a, b, e⟩
  · intro item hi
    obtain ⟨a, _, c, d, element, keys, key, s, e1, e2, e3, e4, e5⟩ := ha item hi
    refine ⟨a, ?_, ?_, element, keys, key, s, e1, e2, e3, ?_, e4, e5⟩
    · have e1' : ms[item.index]? = some element := e1
      exact (List.getElem?_eq_some.mp e1').1
    · intro j hj hje
      apply d
      rw [hp, hje]
      exact List.mem_map.mpr ⟨j, List.mem_range.mpr hj, rfl⟩
    · have := List.find?_some e3
      simpa using this

/-- Witness of C19: the two baseline items come first, followed by the item of the element
added in the working copy. -/
theorem collectItems_order_witness :
    ∃ orig added, editedOriginalItems ++ [editedAddedItem] = orig ++ added
      ∧ (orig.map Item.index).Pairwise (fun a b => a < b)
      ∧ (added.map Item.index).Pairwise (fun a b => a < b) :=
  match collectItems_order sampleUtils editedCallerProps "items" "items"
      [sampleItem 0, sampleItem 1] [sampleItem 1, sampleItem 2]
      (["items[0]", "items[1]"], editedOriginalItems) ["items[0]", "items[1]", "items[1]"]
      (editedOriginalItems ++ [editedAddedItem]) (Or.inl rfl) (Or.inl rfl) rfl rfl with
  | ⟨orig, added, h, _, hp, _, _, hq⟩ => ⟨orig, added, h, hp, hq⟩

end TreeHelper

namespace TreeHelper

/-- A property of a header that the loops over `fieldProps` and `complexFieldProps` can only
overwrite with the value it already has keeps that value. -/
theorem copyTruthyProps_getKey (props : List (String × String)) (source node node' : JVal)
    (q : String) (v : JVal)
    (hprops : ∀ p ∈ props, p.2 = q → (source.getKey p.1).truthy = true →
      source.getKey p.1 = v)
    (hnode : node.getKey q = v)
    (h : copyTruthyProps props source node = .ok node') : node'.getKey q = v := by
  unfold copyTruthyProps at h
  induction props generalizing node with
  | nil =>
    simp only [List.foldlM_nil, pure, Except.pure] at h
    cases h
    exact hnode
  | cons p props ih =>
    rw [List.foldlM_cons] at h
    obtain ⟨n1, h1, h⟩ := Except.bind_eq_ok' h
    refine ih n1 (fun p' hp' => hprops p' (List.mem_cons_of_mem _ hp')) ?_ h
    obtain ⟨w, hw, h1⟩ := Except.bind_eq_ok' h1
    have hn := isNullish_of_prop hw
    rw [prop_eq_getKey _ _ hn] at hw
    cases hw
    split at h1
    · rename_i ht
      obtain ⟨_, hsame, hother⟩ := JVal.setProp_ok h1
      by_cases hq : p.2 = q
      · subst hq
        rw [hsame]
        exact hprops p (List.mem_cons_self _ _) rfl ht
      · rw [hother q (fun e => hq e.symm)]
        exact hnode
    · cases h1
      exact hnode

end TreeHelper

namespace TreeHelper

theorem copyTruthyProps_obj (props : List (String × String)) (source : JVal)
    (kvs : List (String × JVal)) (node' : JVal)
    (h : copyTruthyProps props source (.obj kvs) = .ok node') : ∃ kvs', node' = .obj kvs' := by
  unfold copyTruthyProps at h
  induction props generalizing kvs with
  | nil =>
    simp only [List.foldlM_nil, pure, Except.pure] at h
    cases h
    exact ⟨kvs, rfl⟩
  | cons p props ih =>
    rw [List.foldlM_cons] at h
    obtain ⟨n1, h1, h⟩ := Except.bind_eq_ok' h
    obtain ⟨w, hw, h1⟩ := Except.bind_eq_ok' h1
    split at h1
    · rw [JVal.setProp_obj] at h1
      cases h1
      exact ih _ h
    · cases h1
      exact ih _ h

set_option maxHeartbeats 800000 in
/-- The fields `key`, `name`, `xpath` and `type` of a header are those that `addHeaderNode` was
called with, provided no entry of `fieldProps` or `complexFieldProps` overwrites them with
something else; and a header made without a reference is marked required. -/
theorem newHeaderNode_fields (U : Utils) (currentSchema propname type : JVal)
    (callerProps : CallerProps) (dataxpath xpath ref objectState base : JVal)
    (hprops : ∀ p ∈ U.fieldProps ++ U.complexFieldProps,
      p.2 ≠ "key" ∧ p.2 ≠ "name" ∧ p.2 ≠ "xpath"
        ∧ (p.2 = "type" → (currentSchema.getKey p.1).truthy = true →
            currentSchema.getKey p.1 = type))
    (h : newHeaderNode U currentSchema propname type callerProps dataxpath xpath ref objectState
      = .ok base) :
    base.getKey "key" = propname ∧ base.getKey "name" = propname
      ∧ base.getKey "xpath" = xpath ∧ base.getKey "type" = type
      ∧ (ref.truthy = false → base.getKey "required" = .bool true) := by
  unfold newHeaderNode at h
  obtain ⟨title, _, g1⟩ := Except.bind_eq_ok' h
  clear h
  obtain ⟨help, _, g2⟩ := Except.bind_eq_ok' g1
  clear g1
  obtain ⟨n1, h1, g3⟩ := Except.bind_eq_ok' g2
  clear g2
  obtain ⟨n2, h2, h⟩ := Except.bind_eq_ok' g3
  clear g3
  obtain ⟨k1, e1⟩ := copyTruthyProps_obj _ _ _ _ h1
  subst e1
  obtain ⟨k2, e2⟩ := copyTruthyProps_obj _ _ _ _ h2
  subst e2
  have hf : ∀ p ∈ U.fieldProps, _ := fun p hp => hprops p (List.mem_append_left _ hp)
  have hc : ∀ p ∈ U.complexFieldProps, _ := fun p hp => hprops p (List.mem_append_right _ hp)
  -- the two loops
  have hloops : ∀ (q : String) (v : JVal),
      (∀ p ∈ U.fieldProps ++ U.complexFieldProps, p.2 = q →
        (currentSchema.getKey p.1).truthy = true → currentSchema.getKey p.1 = v) →
      (JVal.obj [("id", .rand), ("key", propname), ("title", title), ("name", propname),
        ("type", type), ("ref", ref), ("help", help), ("mode", callerProps.mode),
        ("xpath", xpath), ("children", .arr [])]).getKey q = v → JVal.lookup k2 q = v := by
    intro q v hq hinit
    exact copyTruthyProps_getKey _ _ _ _ q v
      (fun p hp => hq p (List.mem_append_right _ hp))
      (copyTruthyProps_getKey _ _ _ _ q v (fun p hp => hq p (List.mem_append_left _ hp))
        hinit h1) h2
  have hkey := hloops "key" propname (fun p hp e => absurd e (hprops p hp).1) rfl
  have hname := hloops "name" propname (fun p hp e => absurd e (hprops p hp).2.1) rfl
  have hxpath := hloops "xpath" xpath (fun p hp e => absurd e (hprops p hp).2.2.1) rfl
  have htype := hloops "type" type (fun p hp e => (hprops p hp).2.2.2 e) rfl
  simp only [JVal.setProp_obj, bind, Except.bind, pure, Except.pure] at h
  have hl : ∀ (l : List (String × JVal)) (a b q : String) (x y : JVal), q ≠ a → q ≠ b →
      JVal.lookup (JVal.setField (JVal.setField l a x) b y) q = JVal.lookup l q := by
    intro l a b q x y ha hb
    rw [JVal.lookup_setField_other _ _ _ _ hb, JVal.lookup_setField_other _ _ _ _ ha]
  have hget : ∀ (l : List (String × JVal)) (q : String),
      (JVal.obj l).getKey q = JVal.lookup l q := fun _ _ => rfl
  have hpres : ∀ q : String, q ≠ "required" → q ≠ "uiUpdateOnly" → q ≠ "data-remove" →
      q ≠ "object-add" → q ≠ "object-remove" →
      (∀ (l : List (String × JVal)) (x : JVal),
          JVal.lookup (JVal.setField l "required" x) q = JVal.lookup l q)
        ∧ (∀ (l : List (String × JVal)) (x : JVal),
          JVal.lookup (JVal.setField l "uiUpdateOnly" x) q = JVal.lookup l q)
        ∧ (∀ (l : List (String × JVal)) (x : JVal),
          JVal.lookup (JVal.setField l "data-remove" x) q = JVal.lookup l q)
        ∧ (∀ (l : List (String × JVal)) (x : JVal),
          JVal.lookup (JVal.setField l "object-add" x) q = JVal.lookup l q)
        ∧ (∀ (l : List (String × JVal)) (x : JVal),
          JVal.lookup (JVal.setField l "object-remove" x) q = JVal.lookup l q) :=
    fun q q1 q2 q3 q4 q5 =>
      ⟨fun l x => JVal.lookup_setField_other l _ q x q1,
        fun l x => JVal.lookup_setField_other l _ q x q2,
        fun l x => JVal.lookup_setField_other l _ q x q3,
        fun l x => JVal.lookup_setField_other l _ q x q4,
        fun l x => JVal.lookup_setField_other l _ q x q5⟩
  have r2 : ∀ (l : List (String × JVal)) (x : JVal),
      JVal.lookup (JVal.setField l "uiUpdateOnly" x) "required" = JVal.lookup l "required" :=
    fun l x => JVal.lookup_setField_other l _ _ x (by decide)
  have r3 : ∀ (l : List (String × JVal)) (x : JVal),
      JVal.lookup (JVal.setField l "data-remove" x) "required" = JVal.lookup l "required" :=
    fun l x => JVal.lookup_setField_other l _ _ x (by decide)
  have r4 : ∀ (l : List (String × JVal)) (x : JVal),
      JVal.lookup (JVal.setField l "object-add" x) "required" = JVal.lookup l "required" :=
    fun l x => JVal.lookup_setField_other l _ _ x (by decide)
  have r5 : ∀ (l : List (String × JVal)) (x : JVal),
      JVal.lookup (JVal.setField l "object-remove" x) "required" = JVal.lookup l "required" :=
    fun l x => JVal.lookup_setField_other l _ _ x (by decide)
  have main : (∀ q : String, q ≠ "required" → q ≠ "uiUpdateOnly" → q ≠ "data-remove" →
        q ≠ "object-add" → q ≠ "object-remove" → base.getKey q = JVal.lookup k2 q)
      ∧ (ref.truthy = false → base.getKey "required" = .bool true) := by
    cases hr : ref.truthy
    · simp only [hr, Bool.not_false, if_true] at h
      repeat' split at h
      all_goals
        cases h
        refine ⟨fun q q1 q2 q3 q4 q5 => ?_, fun _ => ?_⟩
        · obtain ⟨a1, a2, a3, a4, a5⟩ := hpres q q1 q2 q3 q4 q5
          simp only [hget, a1, a2, a3, a4, a5]
        · simp only [hget, r2, r3, r4, r5, JVal.lookup_setField_same]
    · simp only [hr, Bool.not_true, Bool.false_eq_true, if_false] at h
      repeat' split at h
      all_goals first
        | (cases h; done)
        | (cases h
           refine ⟨fun q q1 q2 q3 q4 q5 => ?_, fun hf => by cases hf⟩
           obtain ⟨a1, a2, a3, a4, a5⟩ := hpres q q1 q2 q3 q4 q5
           simp only [hget, a1, a2, a3, a4, a5])
  refine ⟨?_, ?_, ?_, ?_, main.2⟩
  · rw [main.1 "key" (by decide) (by decide) (by decide) (by decide) (by decide), hkey]
  · rw [main.1 "name" (by decide) (by decide) (by decide) (by decide) (by decide), hname]
  · rw [main.1 "xpath" (by decide) (by decide) (by decide) (by decide) (by decide), hxpath]
  · rw [main.1 "type" (by decide) (by decide) (by decide) (by decide) (by decide), htype]

end TreeHelper

namespace TreeHelper

/-- C14: `generateTreeStructure` returns the empty list when the schema is falsy (`null`,
`undefined`) or has no keys.  On a schema with keys, whenever it completes, it returns a list
with exactly one element, the root header: its `key`, `name` and `xpath` are the model name,
its `type` is `object` and it is marked required; every other node that was generated is
beneath it.  The entries of `fieldProps` and `complexFieldProps` are taken not to overwrite
`key`, `name` or `xpath`, nor `type` with anything but `object`. -/
theorem generateTreeStructure_root (C : Consts) (U : Utils) (fuel : Nat)
    (schema currentSchemaName : JVal) (callerProps : CallerProps) (treeState : TreeState) :
    (schema.truthy = false →
        generateTreeStructure C U fuel schema currentSchemaName callerProps treeState
          = .ok ([], treeState))
      ∧ (schema.keys = .ok [] →
        generateTreeStructure C U fuel schema currentSchemaName callerProps treeState
          = .ok ([], treeState))
      ∧ (∀ (tree : Tree) (treeState' : TreeState) (currentSchema : JVal),
        schema.truthy = true → (∀ ks, schema.keys = .ok ks → ks ≠ []) →
        U.getModelSchema currentSchemaName schema = .ok currentSchema →
        (∀ p ∈ U.fieldProps ++ U.complexFieldProps,
          p.2 ≠ "key" ∧ p.2 ≠ "name" ∧ p.2 ≠ "xpath"
            ∧ (p.2 = "type" → (currentSchema.getKey p.1).truthy = true →
                currentSchema.getKey p.1 = .str C.OBJECT)) →
        generateTreeStructure C U fuel schema currentSchemaName callerProps treeState
          = .ok (tree, treeState') →
        ∃ root, tree = [root]
          ∧ root.getKey "key" = currentSchemaName ∧ root.getKey "name" = currentSchemaName
          ∧ root.getKey "xpath" = currentSchemaName ∧ root.getKey "type" = .str C.OBJECT
          ∧ root.getKey "required" = .bool true) := by
  refine ⟨?_, ?_, ?_⟩
  · intro hs
    simp [generateTreeStructure, hs, pure, Except.pure]
  · intro hk
    cases hs : schema.truthy <;>
      simp [generateTreeStructure, hs, hk, pure, Except.pure, bind, Except.bind]
  · intro tree treeState' currentSchema hs hks hcs hprops h
    unfold generateTreeStructure at h
    simp only [hs, Bool.not_true, Bool.false_eq_true, if_false] at h
    obtain ⟨_, _, g0⟩ := Except.bind_eq_ok' h
    clear h
    obtain ⟨ks, hk, g1⟩ := Except.bind_eq_ok' g0
    clear g0
    have hlen : ¬ ks.length = 0 := by
      intro e
      exact hks ks hk (List.length_eq_zero.mp e)
    simp only [hlen, if_false, hcs] at g1
    obtain ⟨_, _, g2⟩ := Except.bind_eq_ok' g1
    clear g1
    obtain ⟨cs', hcs', g3⟩ := Except.bind_eq_ok' g2
    clear g2
    cases hcs'
    obtain ⟨hdr, hhdr, g4⟩ := Except.bind_eq_ok' g3
    clear g3
    obtain ⟨rootHeader, ts1⟩ := hdr
    obtain ⟨pr, _, g5⟩ := Except.bind_eq_ok' g4
    clear g4
    obtain ⟨props, _, g6⟩ := Except.bind_eq_ok' g5
    clear g5
    obtain ⟨st, _, g7⟩ := Except.bind_eq_ok' g6
    clear g6
    obtain ⟨tree1, hpush, g8⟩ := Except.bind_eq_ok' g7
    clear g7
    simp only [pure, Except.pure, Except.ok.injEq, Prod.mk.injEq] at g8
    obtain ⟨e1, _⟩ := g8
    subst e1
    unfold pushHeader at hpush
    obtain ⟨root, hroot, g9⟩ := Except.bind_eq_ok' hpush
    simp only [pure, Except.pure, Except.ok.injEq, List.nil_append] at g9
    subst g9
    obtain ⟨base, key, hbase, _, hopen, _, _⟩ := addHeaderNode_ok hhdr
    obtain ⟨f1, f2, f3, f4, f5⟩ := newHeaderNode_fields U currentSchema currentSchemaName
      (.str C.OBJECT) callerProps currentSchemaName currentSchemaName JVal.undef JVal.undef base
      hprops hbase
    have e1 : ∀ q : String, q ≠ "children" → q ≠ "isOpen" → root.getKey q = base.getKey q := by
      intro q q1 q2
      rw [(JVal.setProp_ok hroot).2.2 q q1, (JVal.setProp_ok hopen).2.2 q q2]
    refine ⟨root, rfl, ?_, ?_, ?_, ?_, ?_⟩
    · rw [e1 "key" (by decide) (by decide), f1]
    · rw [e1 "name" (by decide) (by decide), f2]
    · rw [e1 "xpath" (by decide) (by decide), f3]
    · rw [e1 "type" (by decide) (by decide), f4]
    · rw [e1 "required" (by decide) (by decide), f5 rfl]

end TreeHelper

namespace TreeHelper

/-- Witness of C14: the schema with the one model `a`. -/
theorem generateTreeStructure_root_witness :
    ∃ root treeState',
      generateTreeStructure sampleConsts sampleUtils 2 (.obj [("a", sampleTypeSchema)])
          (.str "a") (sampleCallerProps sampleDocument) [] = .ok ([root], treeState')
        ∧ root.getKey "key" = .str "a" ∧ root.getKey "name" = .str "a"
        ∧ root.getKey "xpath" = .str "a" ∧ root.getKey "type" = .str "object"
        ∧ root.getKey "required" = .bool true
        ∧ (childrenOf root).length = 1 :=
  match (generateTreeStructure_root sampleConsts sampleUtils 2 (.obj [("a", sampleTypeSchema)])
      (.str "a") (sampleCallerProps sampleDocument) []).2.2 _ _ sampleTypeSchema rfl
      (fun ks h => by cases h; decide) rfl
      (fun p hp => by
        simp only [sampleUtils, List.cons_append, List.nil_append, List.mem_cons,
          List.mem_singleton, List.not_mem_nil, or_false] at hp
        rcases hp with h | h | h | h | h | h | h | h | h <;> subst h <;>
          exact ⟨by decide, by decide, by decide, fun h1 h2 => by
            first
              | exact absurd h1 (by decide)
              | exact absurd h2 (by decide)⟩)
      rfl with
  | ⟨root, hroot, h1, h2, h3, h4, h5⟩ =>
    ⟨root, _, by rw [← hroot]; rfl, h1, h2, h3, h4, h5, by
      have := List.cons.inj hroot
      rw [← this.1]
      rfl⟩

end TreeHelper

/-! ## Flattening of the generated tree (`DataTree.jsx`) -/

namespace DataTreeJsx

theorem wellNested_nil (P : JVal) : WellNested P [] [] := by
  refine ⟨?_, by simp⟩
  intro i e h
  simp at h

theorem wellNested_append (P : JVal) (a b : List JVal) (L M : List TreeNode)
    (hL : WellNested P a L) (hM : WellNested P b M) : WellNested P (a ++ b) (L ++ M) := by
  obtain ⟨hL1, hL2⟩ := hL
  obtain ⟨hM1, hM2⟩ := hM
  refine ⟨?_, ?_⟩
  · intro i e h
    by_cases hi : i < L.length
    · rw [List.getElem?_append_left hi] at h
      rcases hL1 i e h with ⟨h1, h2⟩ | ⟨f, hf, h1, h2⟩
      · exact Or.inl ⟨h1, List.mem_append_left _ h2⟩
      · refine Or.inr ⟨f, ?_, h1, h2⟩
        rw [List.take_append_of_le_length (Nat.le_of_lt hi)]
        exact hf
    · have hi' : L.length ≤ i := Nat.le_of_not_lt hi
      rw [List.getElem?_append_right hi'] at h
      rcases hM1 _ e h with ⟨h1, h2⟩ | ⟨f, hf, h1, h2⟩
      · exact Or.inl ⟨h1, List.mem_append_right _ h2⟩
      · refine Or.inr ⟨f, ?_, h1, h2⟩
        rw [List.take_append_eq_append_take, List.take_of_length_le hi']
        exact List.mem_append_right _ hf
  · rw [List.length_append, List.length_append, List.map_append, List.sum_append, hL2, hM2]
    omega

theorem wellNested_cons (P cid : JVal) (ids : List JVal) (e : TreeNode) (sub : List TreeNode)
    (hid : e.id = cid) (hch : e.children = ids) (hp : e.parent = P)
    (hsub : WellNested cid ids sub) : WellNested P [cid] (e :: sub) := by
  obtain ⟨h1, h2⟩ := hsub
  refine ⟨?_, ?_⟩
  · intro i x h
    cases i with
    | zero =>
      simp only [List.getElem?_cons_zero, Option.some.injEq] at h
      subst h
      exact Or.inl ⟨hp, by rw [hid]; exact List.mem_singleton_self _⟩
    | succ i =>
      rw [List.getElem?_cons_succ] at h
      refine Or.inr ?_
      rcases h1 i x h with ⟨g1, g2⟩ | ⟨f, hf, g1, g2⟩
      · exact ⟨e, by simp, by rw [hid, g1], by rw [hch]; exact g2⟩
      · exact ⟨f, by rw [List.take_succ_cons]; exact List.mem_cons_of_mem _ hf, g1, g2⟩
  · simp only [List.length_cons, List.map_cons, List.sum_cons, List.length_nil, hch, h2]
    omega

end DataTreeJsx

namespace DataTreeJsx

/-- The loop over the children of a node: when `processNode` returns on every child, the loop
returns; the ids it pushes are those of the children, in order, and the entries pushed are
well nested under the node. -/
theorem processChildren_spec (random : Nat → String) (pn : ProcessNode) (P : JVal)
    (list : List JVal)
    (hpn : ∀ child ∈ list, ∀ st, ∃ r, pn child P st = .ok r ∧ IsIdOf random r.id child
      ∧ WellNested P [r.id] r.entries)
    (st : FlattenState) :
    ∃ ids nodes entries st', processChildren pn P list st = .ok (ids, nodes, entries, st')
      ∧ List.Forall₂ (IsIdOf random) ids list ∧ WellNested P ids entries := by
  have gen : ∀ (list : List JVal) (ids0 nodes0 : List JVal) (entries0 : List TreeNode)
      (st0 : FlattenState),
      (∀ child ∈ list, ∀ st, ∃ r, pn child P st = .ok r ∧ IsIdOf random r.id child
        ∧ WellNested P [r.id] r.entries) →
      ∃ ids nodes entries st',
        list.foldlM
          (fun (acc : List JVal × List JVal × List TreeNode × FlattenState)
              (childNode : JVal) => do
            let (ids, nodes, entries, st) := acc
            let r ← pn childNode P st
            pure (ids ++ [r.id], nodes ++ [r.node], entries ++ r.entries, r.state))
          (ids0, nodes0, entries0, st0)
          = .ok (ids0 ++ ids, nodes0 ++ nodes, entries0 ++ entries, st')
        ∧ List.Forall₂ (IsIdOf random) ids list ∧ WellNested P ids entries := by
    intro list
    induction list with
    | nil =>
      intro ids0 nodes0 entries0 st0 _
      exact ⟨[], [], [], st0, by simp [pure, Except.pure], List.Forall₂.nil, wellNested_nil P⟩
    | cons child rest ih =>
      intro ids0 nodes0 entries0 st0 h
      obtain ⟨r, hr, hid, hw⟩ := h child (List.mem_cons_self _ _) st0
      obtain ⟨ids, nodes, entries, st', hrun, hf, hwn⟩ :=
        ih (ids0 ++ [r.id]) (nodes0 ++ [r.node]) (entries0 ++ r.entries) r.state
          (fun c hc => h c (List.mem_cons_of_mem _ hc))
      refine ⟨r.id :: ids, r.node :: nodes, r.entries ++ entries, st', ?_,
        List.Forall₂.cons hid hf, ?_⟩
      · rw [List.foldlM_cons]
        simp only [hr, bind, Except.bind, pure, Except.pure]
        simp only [bind, Except.bind, pure, Except.pure] at hrun
        rw [hrun]
        simp
      · exact wellNested_append P [r.id] ids r.entries entries hw hwn
  obtain ⟨ids, nodes, entries, st', hrun, hf, hw⟩ := gen list [] [] [] st hpn
  exact ⟨ids, nodes, entries, st', by simpa [processChildren] using hrun, hf, hw⟩

end DataTreeJsx

namespace DataTreeJsx

/-- One call of `processNode` on a node object whose `xpath` is a string or falsy and whose
`children` are an array or falsy, the recursive calls on the children returning: the call
returns; it pushes the entry of the node, with the id of the node and the given parent,
followed by the entries of the visible children, which are well nested under the node.  With
more than `ITEMS_PER_PAGE` children the visible children are those of the current page and
`pagination` is written to the node; otherwise all children are visible and `pagination` is
left as it was. -/
theorem processNodeBody_spec (random : Nat → String) (paginatedNodes : PaginatedNodes)
    (pn : ProcessNode) (kvs : List (String × JVal)) (children : List JVal) (P : JVal)
    (st : FlattenState)
    (hx : (∃ s, JVal.lookup kvs "xpath" = .str s) ∨ (JVal.lookup kvs "xpath").truthy = false)
    (hc : JVal.lookup kvs "children" = .arr children
      ∨ ((JVal.lookup kvs "children").truthy = false ∧ children = []))
    (hrec : ∀ child ∈ children, ∀ cid st, ∃ r, pn child cid st = .ok r
      ∧ IsIdOf random r.id child ∧ WellNested cid [r.id] r.entries) :
    ∃ r key e sub, processNodeBody random paginatedNodes pn (.obj kvs) P st = .ok r
      ∧ r.id = .str key ∧ IsIdOf random r.id (.obj kvs)
      ∧ r.entries = e :: sub ∧ e.id = r.id ∧ e.parent = P ∧ WellNested r.id e.children sub
      ∧ (ITEMS_PER_PAGE < children.length →
          List.Forall₂ (IsIdOf random) e.children
              (slice children
                (((pageStateOf paginatedNodes key).map PageState.page).getD 0 * ITEMS_PER_PAGE)
                (min (((pageStateOf paginatedNodes key).map PageState.page).getD 0
                  * ITEMS_PER_PAGE + ITEMS_PER_PAGE) children.length))
            ∧ e.metadata.getKey "pagination"
              = paginationMeta (((pageStateOf paginatedNodes key).map PageState.page).getD 0)
                  children.length)
      ∧ (children.length ≤ ITEMS_PER_PAGE →
          List.Forall₂ (IsIdOf random) e.children children
            ∧ e.metadata.getKey "pagination" = JVal.lookup kvs "pagination") := by
  -- the id of the node
  have hid : ∃ key st1,
      (if (JVal.lookup kvs "xpath").truthy = true then (JVal.lookup kvs "xpath", st)
        else (JVal.str (random st.randomCalls),
          { st with randomCalls := st.randomCalls + 1 })) = (JVal.str key, st1)
        ∧ IsIdOf random (.str key) (.obj kvs) := by
    cases ht : (JVal.lookup kvs "xpath").truthy
    · exact ⟨random st.randomCalls, { st with randomCalls := st.randomCalls + 1 }, by simp,
        Or.inr ⟨ht, st.randomCalls, rfl⟩⟩
    · rcases hx with ⟨s, hs⟩ | hf
      · exact ⟨s, st, by simp [hs], Or.inl ⟨ht, hs.symm⟩⟩
      · rw [ht] at hf; cases hf
  obtain ⟨key, st1, hid, hidof⟩ := hid
  have hprop : (JVal.obj kvs).prop "xpath" = .ok (JVal.lookup kvs "xpath") := rfl
  have hget : ∀ q, (JVal.obj kvs).getKey q = JVal.lookup kvs q := fun _ => rfl
  rcases hc with hc | ⟨hc, hnil⟩
  · by_cases hn : ITEMS_PER_PAGE < children.length
    · obtain ⟨ids, nodes, entries, st', hpc, hf, hw⟩ :=
        processChildren_spec random pn (.str key)
          (slice children
            (((pageStateOf paginatedNodes key).map PageState.page).getD 0 * ITEMS_PER_PAGE)
            (min (((pageStateOf paginatedNodes key).map PageState.page).getD 0
              * ITEMS_PER_PAGE + ITEMS_PER_PAGE) children.length))
          (fun child hm st => hrec child
            (List.mem_of_mem_take (List.mem_of_mem_drop hm)) (.str key) st)
          { st1 with nextPaginated := initPagination st1.nextPaginated key children.length }
      refine ⟨⟨.str key, (.obj (JVal.setField (JVal.setField kvs "children"
          (.arr (children.take ((((pageStateOf paginatedNodes key).map PageState.page).getD 0) * ITEMS_PER_PAGE) ++ nodes
            ++ children.drop (max ((((pageStateOf paginatedNodes key).map PageState.page).getD 0) * ITEMS_PER_PAGE)
              (min ((((pageStateOf paginatedNodes key).map PageState.page).getD 0) * ITEMS_PER_PAGE + ITEMS_PER_PAGE) children.length)))))
          "pagination" (paginationMeta (((pageStateOf paginatedNodes key).map PageState.page).getD 0) children.length))),
        ⟨((JVal.lookup kvs "name").or (JVal.lookup kvs "key")).or (.str ""), ids, .str key, P,
          (.obj (JVal.setField (JVal.setField kvs "children"
          (.arr (children.take ((((pageStateOf paginatedNodes key).map PageState.page).getD 0) * ITEMS_PER_PAGE) ++ nodes
            ++ children.drop (max ((((pageStateOf paginatedNodes key).map PageState.page).getD 0) * ITEMS_PER_PAGE)
              (min ((((pageStateOf paginatedNodes key).map PageState.page).getD 0) * ITEMS_PER_PAGE + ITEMS_PER_PAGE) children.length)))))
          "pagination" (paginationMeta (((pageStateOf paginatedNodes key).map PageState.page).getD 0) children.length)))⟩ :: entries, st'⟩, key, _, entries, ?_, rfl, hidof,
        rfl, rfl, rfl, hw, fun _ => ⟨hf, ?_⟩, fun h => absurd hn (by omega)⟩
      · simp only [processNodeBody, hprop, hget, hid, hc, gt_iff_lt, hn, JVal.toStr, hpc,
          JVal.setProp_obj, bind, Except.bind, pure, Except.pure, if_true]
      · exact JVal.lookup_setField_same _ _ _
    · have hle : children.length ≤ ITEMS_PER_PAGE := Nat.le_of_not_lt hn
      obtain ⟨ids, nodes, entries, st', hpc, hf, hw⟩ :=
        processChildren_spec random pn (.str key) children
          (fun child hm st => hrec child hm (.str key) st) st1
      by_cases h0 : 0 < children.length
      · refine ⟨⟨.str key, (.obj (JVal.setField kvs "children" (.arr nodes))),
          ⟨((JVal.lookup kvs "name").or (JVal.lookup kvs "key")).or (.str ""), ids, .str key,
            P, (.obj (JVal.setField kvs "children" (.arr nodes)))⟩ :: entries, st'⟩, key, _, entries, ?_, rfl, hidof,
          rfl, rfl, rfl, hw, fun h => absurd h hn, fun _ => ⟨hf, ?_⟩⟩
        · simp only [processNodeBody, hprop, hget, hid, hc, gt_iff_lt, hn, h0, hpc,
            JVal.setProp_obj, bind, Except.bind, pure, Except.pure, if_true, if_false]
        · exact JVal.lookup_setField_other _ _ _ _ (by decide)
      · have hnil : children = [] := List.length_eq_zero.mp (by omega)
        subst hnil
        refine ⟨⟨.str key, .obj kvs, [⟨((JVal.lookup kvs "name").or
          (JVal.lookup kvs "key")).or (.str ""), [], .str key, P, .obj kvs⟩], st1⟩, key, _, [],
          ?_, rfl, hidof, rfl, rfl, rfl, wellNested_nil _, fun h => absurd h hn,
          fun _ => ⟨List.Forall₂.nil, rfl⟩⟩
        simp only [processNodeBody, hprop, hget, hid, hc, gt_iff_lt, hn, h0, bind,
          Except.bind, pure, Except.pure, if_false]
  · subst hnil
    refine ⟨⟨.str key, .obj kvs, [⟨((JVal.lookup kvs "name").or (JVal.lookup kvs "key")).or
      (.str ""), [], .str key, P, .obj kvs⟩], st1⟩, key, _, [], ?_, rfl, hidof, rfl, rfl, rfl,
      wellNested_nil _, fun h => absurd h (by decide), fun _ => ⟨List.Forall₂.nil, rfl⟩⟩
    simp only [processNodeBody, hprop, hget, hid, bind, Except.bind, pure, Except.pure]
    cases hl : JVal.lookup kvs "children" with
    | arr xs => rw [hl] at hc; cases hc
    | _ => simp_all

end DataTreeJsx

namespace DataTreeJsx

/-- On a node that is well formed down to depth `fuel`, `processNode` with fuel `fuel`
returns; the id it returns is the id of the node, and the entries it pushes are well nested
under the parent. -/
theorem processNode_spec (random : Nat → String) (paginatedNodes : PaginatedNodes) :
    ∀ (fuel : Nat) (node P : JVal) (st : FlattenState), wellFormedNode fuel node = true →
      ∃ r, processNode random paginatedNodes fuel node P st = .ok r
        ∧ IsIdOf random r.id node ∧ WellNested P [r.id] r.entries := by
  intro fuel
  induction fuel with
  | zero => intro node P st h; simp [wellFormedNode] at h
  | succ fuel ih =>
    intro node P st h
    cases node with
    | obj kvs =>
      simp only [wellFormedNode, Bool.and_eq_true] at h
      obtain ⟨h1, h2⟩ := h
      have hx : (∃ s, JVal.lookup kvs "xpath" = .str s)
          ∨ (JVal.lookup kvs "xpath").truthy = false := by
        cases hl : JVal.lookup kvs "xpath" <;> rw [hl] at h1 <;>
          first
            | exact Or.inl ⟨_, rfl⟩
            | exact Or.inr rfl
            | cases h1
      have hc : ∃ children, (JVal.lookup kvs "children" = .arr children
          ∨ ((JVal.lookup kvs "children").truthy = false ∧ children = []))
          ∧ ∀ child ∈ children, wellFormedNode fuel child = true := by
        cases hl : JVal.lookup kvs "children" with
        | arr cs =>
          rw [hl] at h2
          exact ⟨cs, Or.inl rfl, fun c hc => List.all_eq_true.mp h2 c hc⟩
        | _ =>
          rw [hl] at h2
          refine ⟨[], Or.inr ⟨?_, rfl⟩, fun c hc => by cases hc⟩
          simpa using h2
      obtain ⟨children, hc, hall⟩ := hc
      obtain ⟨r, key, e, sub, hrun, _, hid, hent, he1, he2, hw, _⟩ :=
        processNodeBody_spec random paginatedNodes (processNode random paginatedNodes fuel) kvs
          children P st hx hc (fun child hm cid st' => ih child cid st' (hall child hm))
      refine ⟨r, hrun, hid, ?_⟩
      rw [hent]
      exact wellNested_cons P r.id e.children e sub he1 rfl he2 hw
    | _ => simp [wellFormedNode] at h

end DataTreeJsx

namespace DataTreeJsx

/-- C3: `processNode` on a well-formed node with `n` children, `p` being the page recorded for
the id of the node in `paginatedNodes` (0 when none is recorded).  The call returns and
pushes the entry of the node first.  When `n > 8` the child ids of that entry are the ids of
`children[8p .. min(8p + 8, n))`, in their order, and `metadata.pagination` has `currentPage`
`p`, `totalPages` `ceil(n / 8)` and `totalItems` `n`.  When `1 <= n <= 8` the child ids are
the ids of all the children, in their order, and `pagination` is left as it was. -/
theorem processNode_pages (random : Nat → String) (paginatedNodes : PaginatedNodes)
    (fuel : Nat) (kvs : List (String × JVal)) (children : List JVal) (P : JVal)
    (st : FlattenState)
    (hwf : wellFormedNode (fuel + 1) (.obj kvs) = true)
    (hch : JVal.lookup kvs "children" = .arr children) :
    ∃ r key e sub,
      processNode random paginatedNodes (fuel + 1) (.obj kvs) P st = .ok r
        ∧ r.id = .str key ∧ IsIdOf random r.id (.obj kvs)
        ∧ r.entries = e :: sub ∧ e.id = r.id ∧ e.parent = P
        ∧ (8 < children.length →
            List.Forall₂ (IsIdOf random) e.children
                ((children.take (min
                  (((pageStateOf paginatedNodes key).map PageState.page).getD 0 * 8 + 8)
                  children.length)).drop
                  (((pageStateOf paginatedNodes key).map PageState.page).getD 0 * 8))
              ∧ (e.metadata.getKey "pagination").getKey "currentPage"
                  = .num (((pageStateOf paginatedNodes key).map PageState.page).getD 0)
              ∧ (e.metadata.getKey "pagination").getKey "totalPages"
                  = .num (JS.ceilDiv children.length 8)
              ∧ (e.metadata.getKey "pagination").getKey "totalItems"
                  = .num children.length)
        ∧ (1 ≤ children.length → children.length ≤ 8 →
            List.Forall₂ (IsIdOf random) e.children children
              ∧ e.metadata.getKey "pagination" = JVal.lookup kvs "pagination") := by
  have h := hwf
  simp only [wellFormedNode, Bool.and_eq_true, hch] at h
  obtain ⟨h1, h2⟩ := h
  have hx : (∃ s, JVal.lookup kvs "xpath" = .str s)
      ∨ (JVal.lookup kvs "xpath").truthy = false := by
    cases hl : JVal.lookup kvs "xpath" <;> rw [hl] at h1 <;>
      first
        | exact Or.inl ⟨_, rfl⟩
        | exact Or.inr rfl
        | cases h1
  obtain ⟨r, key, e, sub, hrun, hkey, hid, hent, he1, he2, _, hpag, hall⟩ :=
    processNodeBody_spec random paginatedNodes (processNode random paginatedNodes fuel) kvs
      children P st hx (Or.inl hch)
      (fun child hm cid st' => processNode_spec random paginatedNodes fuel child cid st'
        (List.all_eq_true.mp h2 child hm))
  refine ⟨r, key, e, sub, hrun, hkey, hid, hent, he1, he2, ?_, fun _ hle => hall hle⟩
  intro hn
  obtain ⟨hf, hm⟩ := hpag hn
  refine ⟨hf, ?_, ?_, ?_⟩ <;> rw [hm] <;> rfl

/-- Witness of C3: the node `list` with nine children, on its second page. -/
theorem processNode_pages_witness :
    ∃ r e sub,
      processNode sampleRandom secondPage 2 (.obj listNode) (.str "root") ⟨0, []⟩ = .ok r
        ∧ r.entries = e :: sub
        ∧ (e.metadata.getKey "pagination").getKey "totalPages" = .num (JS.ceilDiv 9 8)
        ∧ (e.metadata.getKey "pagination").getKey "totalItems" = .num 9 :=
  match processNode_pages sampleRandom secondPage 1 listNode nineChildren (.str "root") ⟨0, []⟩
      (by decide) rfl with
  | ⟨r, _, e, sub, hrun, _, _, hent, _, _, hpag, _⟩ =>
    ⟨r, e, sub, hrun, hent, (hpag (by decide)).2.2.1, (hpag (by decide)).2.2.2⟩

/-- C26: the flat list that `flattenTree` builds from a tree of well-formed nodes is a
well-formed tree in pre-order.  Its first entry is the synthetic root, with id `root`, parent
`null` and metadata `null`.  Every other entry has a parent id that is the id of an entry
before it in the list, and its own id is in the children list of that entry.  The number of
entries other than the root is the sum of the lengths of all children lists. -/
theorem flattenTree_wellFormed (random : Nat → String) (paginatedNodes : PaginatedNodes)
    (fuel : Nat) (modelName : JVal) (generatedTree : List JVal) (st : FlattenState)
    (hwf : ∀ node ∈ generatedTree, wellFormedNode fuel node = true) :
    ∃ entries st',
      flattenTree random paginatedNodes fuel modelName generatedTree st = .ok (entries, st')
        ∧ (∃ ids, entries.head? = some ⟨modelName, ids, .str "root", .null, .null⟩)
        ∧ (∀ i e, entries[i]? = some e → 0 < i →
            ∃ f ∈ entries.take i, f.id = e.parent ∧ e.id ∈ f.children)
        ∧ entries.length - 1 = (entries.map (fun e => e.children.length)).sum := by
  obtain ⟨ids, nodes, entries, st', hpc, _, hw1, hw2⟩ :=
    processChildren_spec random (processNode random paginatedNodes fuel) (.str "root")
      generatedTree
      (fun child hm st => processNode_spec random paginatedNodes fuel child _ st (hwf child hm))
      st
  refine ⟨⟨modelName, ids, .str "root", .null, .null⟩ :: entries, st', ?_, ⟨ids, rfl⟩, ?_, ?_⟩
  · simp only [flattenTree, hpc, bind, Except.bind, pure, Except.pure]
  · intro i e h hi
    cases i with
    | zero => cases hi
    | succ i =>
      rw [List.getElem?_cons_succ] at h
      rcases hw1 i e h with ⟨g1, g2⟩ | ⟨f, hf, g1, g2⟩
      · exact ⟨⟨modelName, ids, .str "root", .null, .null⟩, by simp, g1.symm, g2⟩
      · exact ⟨f, by rw [List.take_succ_cons]; exact List.mem_cons_of_mem _ hf, g1, g2⟩
  · simp only [List.length_cons, List.map_cons, List.sum_cons, hw2]
    omega

/-- Witness of C26: the tree with the one node `list`. -/
theorem flattenTree_wellFormed_witness :
    ∃ entries st',
      flattenTree sampleRandom secondPage 2 (.str "model") [.obj listNode] ⟨0, []⟩
          = .ok (entries, st')
        ∧ (∃ ids, entries.head? = some ⟨.str "model", ids, .str "root", .null, .null⟩)
        ∧ entries.length - 1 = (entries.map (fun e => e.children.length)).sum :=
  match flattenTree_wellFormed sampleRandom secondPage 2 (.str "model") [.obj listNode] ⟨0, []⟩
      (by decide) with
  | ⟨entries, st', hrun, hroot, _, hcount⟩ => ⟨entries, st', hrun, hroot, hcount⟩

end DataTreeJsx

namespace TreeHelper

/-- What every round of a loop keeps, the loop keeps. -/
theorem foldlM_preserves {α β : Type} (f : β → α → Except Err β) (I : β → Prop)
    (l : List α) (hstep : ∀ a ∈ l, ∀ x y, I x → f x a = .ok y → I y) :
    ∀ (b b' : β), l.foldlM f b = .ok b' → I b → I b' := by
  induction l with
  | nil =>
    intro b b' h hb
    simp only [List.foldlM_nil, pure, Except.pure] at h
    cases h
    exact hb
  | cons a l ih =>
    intro b b' h hb
    rw [List.foldlM_cons] at h
    obtain ⟨c, hc, h⟩ := Except.bind_eq_ok' h
    exact ih (fun a' ha' => hstep a' (List.mem_cons_of_mem _ ha')) c b' h
      (hstep a (List.mem_cons_self _ _) b c hb hc)

/-- The loop of `addNodeProperties` over `fieldProps` writes usage names only. -/
theorem fieldPropsLoop_getKey (props : List (String × String)) (attributes node node' : JVal)
    (q : String) (hq : ∀ p ∈ props, p.2 ≠ q)
    (h : props.foldlM (fun node (p : String × String) => do
      if ← attributes.hasOwnProperty p.1 then node.setProp p.2 (attributes.getKey p.1)
      else pure node) node = .ok node') :
    node'.getKey q = node.getKey q := by
  refine foldlM_preserves _ (fun n => n.getKey q = node.getKey q) props ?_ node node' h rfl
  intro p hp x y hx hxy
  simp only [] at hxy
  obtain ⟨b, _, hxy⟩ := Except.bind_eq_ok' hxy
  split at hxy
  · rw [(JVal.setProp_ok hxy).2.2 q (fun e => hq p hp e.symm), hx]
  · cases hxy; exact hx

/-- The loop `for (const field in dict)` writes the usage name only. -/
theorem applyMappingDict_getKey (node dict node' : JVal) (usageName q : String)
    (hq : usageName ≠ q) (h : applyMappingDict node dict usageName = .ok node') :
    node'.getKey q = node.getKey q := by
  unfold applyMappingDict at h
  split at h
  · rename_i kvs
    refine foldlM_preserves _ (fun n => n.getKey q = node.getKey q) kvs ?_ node node' h rfl
    intro kv _ x y hx hxy
    simp only [] at hxy
    obtain ⟨_, _, hxy⟩ := Except.bind_eq_ok' hxy
    obtain ⟨_, _, hxy⟩ := Except.bind_eq_ok' hxy
    split at hxy
    · rw [(JVal.setProp_ok hxy).2.2 q (fun e => hq e.symm), hx]
    · cases hxy; exact hx
  all_goals first
    | (cases h; rfl)
    | cases h

end TreeHelper

namespace TreeHelper

theorem obj_of_options_truthy (leaf : JVal) (h : (leaf.getKey "options").truthy = true) :
    ∃ kvs, leaf = .obj kvs := by
  cases leaf with
  | obj kvs => exact ⟨kvs, rfl⟩
  | arr xs =>
    have e : (JVal.arr xs).getKey "options" = JVal.undef := by
      have h1 : JVal.arrayIndex? "options" = none := by decide
      simp [JVal.getKey, h1]
    rw [e] at h; cases h
  | str s =>
    have e : (JVal.str s).getKey "options" = JVal.undef := by
      have h1 : JVal.arrayIndex? "options" = none := by decide
      simp [JVal.getKey, h1]
    rw [e] at h; cases h
  | _ => cases h

set_option maxHeartbeats 1600000 in
/-- What a successful run of the branch `propertyName === 'auto_complete'` went through: the
dictionary, the node as `setAutocompleteValue` left it, and a result that differs from that
node at most in `options`, `value`, `customComponentType` and
`onAutocompleteOptionChange`. -/
theorem applyAutocomplete_ok (C : Consts) (U : Utils) (node propertyValue schema data : JVal)
    (callerProps : CallerProps) (usageName : String) (result : JVal)
    (h : applyAutocomplete C U node propertyValue schema data callerProps usageName
      = .ok result) :
    ∃ dict leaf, U.getAutocompleteDict propertyValue = .ok dict
      ∧ node.isNullish = false
      ∧ U.setAutocompleteValue schema node dict (node.getKey "key") usageName = .ok leaf
      ∧ ∀ q : String, q ≠ "options" → q ≠ "value" → q ≠ "customComponentType" →
          q ≠ "onAutocompleteOptionChange" → result.getKey q = leaf.getKey q := by
  unfold applyAutocomplete at h
  obtain ⟨dict, hd, g1⟩ := Except.bind_eq_ok' h
  clear h
  obtain ⟨key, hkey, g2⟩ := Except.bind_eq_ok' g1
  clear g1
  obtain ⟨leaf, hleaf, g3⟩ := Except.bind_eq_ok' g2
  clear g2
  obtain ⟨opts, hopts, h⟩ := Except.bind_eq_ok' g3
  clear g3
  have hnn := isNullish_of_prop hkey
  rw [prop_eq_getKey _ _ hnn] at hkey
  cases hkey
  have hln := isNullish_of_prop hopts
  rw [prop_eq_getKey _ _ hln] at hopts
  cases hopts
  refine ⟨dict, leaf, hd, hnn, hleaf, ?_⟩
  intro q q1 q2 q3 q4
  cases ht : (leaf.getKey "options").truthy
  · simp only [ht, Bool.false_eq_true, if_false, pure, Except.pure] at h
    cases h; rfl
  · obtain ⟨kvs, e⟩ := obj_of_options_truthy leaf ht
    subst e
    have a1 : ∀ (l : List (String × JVal)) (x : JVal),
        JVal.lookup (JVal.setField l "options" x) q = JVal.lookup l q :=
      fun l x => JVal.lookup_setField_other l _ q x q1
    have a2 : ∀ (l : List (String × JVal)) (x : JVal),
        JVal.lookup (JVal.setField l "value" x) q = JVal.lookup l q :=
      fun l x => JVal.lookup_setField_other l _ q x q2
    have a3 : ∀ (l : List (String × JVal)) (x : JVal),
        JVal.lookup (JVal.setField l "customComponentType" x) q = JVal.lookup l q :=
      fun l x => JVal.lookup_setField_other l _ q x q3
    have a4 : ∀ (l : List (String × JVal)) (x : JVal),
        JVal.lookup (JVal.setField l "onAutocompleteOptionChange" x) q = JVal.lookup l q :=
      fun l x => JVal.lookup_setField_other l _ q x q4
    have hget : ∀ (l : List (String × JVal)) (k : String),
        (JVal.obj l).getKey k = JVal.lookup l k := fun _ _ => rfl
    simp only [ht, if_true, JVal.hasOwnProperty, JVal.setProp_obj, bind, Except.bind, pure,
      Except.pure] at h
    repeat' split at h
    all_goals first
      | (cases h; done)
      | (cases h; simp only [hget, a1, a2, a3, a4])

end TreeHelper

namespace TreeHelper

/-- One round of the loop of `addNodeProperties` over `complexFieldProps` writes the usage
name of the entry only, apart from what the branch `auto_complete` writes. -/
theorem complexStep_getKey (C : Consts) (U : Utils) (attributes currentSchema schema data : JVal)
    (callerProps : CallerProps) (p : String × String) (x y : JVal) (q : String)
    (hq : p.2 ≠ q)
    (hauto : p.1 ≠ "auto_complete"
      ∨ (q ≠ "options" ∧ q ≠ "value" ∧ q ≠ "customComponentType"
        ∧ q ≠ "onAutocompleteOptionChange"
        ∧ ∀ n dict key u leaf, U.setAutocompleteValue schema n dict key u = .ok leaf →
            leaf.getKey q = n.getKey q))
    (h : (do
      let present ← if ← currentSchema.hasOwnProperty p.1 then pure true
        else attributes.hasOwnProperty p.1
      if present then
        let propertyValue := (attributes.getKey p.1).or (currentSchema.getKey p.1)
        if p.1 = "auto_complete" then
          applyAutocomplete C U x propertyValue schema data callerProps p.2
        else if p.1 = "mapping_underlying_meta_field" then
          applyMappingDict x (← U.getMetaFieldDict propertyValue) p.2
        else if p.1 = "mapping_src" then
          applyMappingDict x (← U.getMappingSrcDict propertyValue) p.2
        else x.setProp p.2 propertyValue
      else pure x : Except Err JVal) = .ok y) :
    y.getKey q = x.getKey q := by
  obtain ⟨b, _, g⟩ := Except.bind_eq_ok' h
  clear h
  have main : ∀ present : Bool,
      (if present = true then
        if p.1 = "auto_complete" then
          applyAutocomplete C U x ((attributes.getKey p.1).or (currentSchema.getKey p.1))
            schema data callerProps p.2
        else if p.1 = "mapping_underlying_meta_field" then do
          applyMappingDict x (← U.getMetaFieldDict
            ((attributes.getKey p.1).or (currentSchema.getKey p.1))) p.2
        else if p.1 = "mapping_src" then do
          applyMappingDict x (← U.getMappingSrcDict
            ((attributes.getKey p.1).or (currentSchema.getKey p.1))) p.2
        else x.setProp p.2 ((attributes.getKey p.1).or (currentSchema.getKey p.1))
      else pure x : Except Err JVal) = .ok y → y.getKey q = x.getKey q := by
    intro present h
    cases present
    · simp only [Bool.false_eq_true, if_false, pure, Except.pure] at h
      cases h; rfl
    · simp only [if_true] at h
      split at h
      · rename_i ha
        obtain ⟨dict, leaf, _, _, hleaf, hres⟩ := applyAutocomplete_ok _ _ _ _ _ _ _ _ _ h
        rcases hauto with hauto | ⟨q1, q2, q3, q4, hset⟩
        · exact absurd ha hauto
        · rw [hres q q1 q2 q3 q4, hset _ _ _ _ _ hleaf]
      · split at h
        · obtain ⟨dict, _, h⟩ := Except.bind_eq_ok' h
          exact applyMappingDict_getKey _ _ _ _ _ hq h
        · split at h
          · obtain ⟨dict, _, h⟩ := Except.bind_eq_ok' h
            exact applyMappingDict_getKey _ _ _ _ _ hq h
          · exact (JVal.setProp_ok h).2.2 q (fun e => hq e.symm)
  cases b
  · simp only [Bool.false_eq_true, if_false] at g
    obtain ⟨present, _, g⟩ := Except.bind_eq_ok' g
    exact main present g
  · simp only [if_true, pure, Except.pure, bind, Except.bind] at g
    exact main true g

/-- The loop of `addNodeProperties` over `complexFieldProps` writes usage names only, apart
from what the branch `auto_complete` writes. -/
theorem complexPropsLoop_getKey (C : Consts) (U : Utils)
    (attributes currentSchema schema data : JVal) (callerProps : CallerProps)
    (props : List (String × String)) (node node' : JVal) (q : String)
    (hq : ∀ p ∈ props, p.2 ≠ q)
    (hauto : (∀ p ∈ props, p.1 ≠ "auto_complete")
      ∨ (q ≠ "options" ∧ q ≠ "value" ∧ q ≠ "customComponentType"
        ∧ q ≠ "onAutocompleteOptionChange"
        ∧ ∀ n dict key u leaf, U.setAutocompleteValue schema n dict key u = .ok leaf →
            leaf.getKey q = n.getKey q))
    (h : props.foldlM (fun node (p : String × String) => do
      let present ← if ← currentSchema.hasOwnProperty p.1 then pure true
        else attributes.hasOwnProperty p.1
      if present then
        let propertyValue := (attributes.getKey p.1).or (currentSchema.getKey p.1)
        if p.1 = "auto_complete" then
          applyAutocomplete C U node propertyValue schema data callerProps p.2
        else if p.1 = "mapping_underlying_meta_field" then
          applyMappingDict node (← U.getMetaFieldDict propertyValue) p.2
        else if p.1 = "mapping_src" then
          applyMappingDict node (← U.getMappingSrcDict propertyValue) p.2
        else node.setProp p.2 propertyValue
      else pure node) node = .ok node') :
    node'.getKey q = node.getKey q := by
  refine foldlM_preserves _ (fun n => n.getKey q = node.getKey q) props ?_ node node' h rfl
  intro p hp x y hx hxy
  rw [← hx]
  refine complexStep_getKey C U attributes currentSchema schema data callerProps p x y q
    (hq p hp) ?_ hxy
  rcases hauto with hauto | hauto
  · exact Or.inl (hauto p hp)
  · exact Or.inr hauto

end TreeHelper

namespace TreeHelper

/-- What a successful run of `addNodeProperties` went through: the node after the loop over
`fieldProps`, the node after the loop over `complexFieldProps`, the node after the checkbox
handler, the node after the enum handler, and the result after the date handler. -/
theorem addNodeProperties_ok (C : Consts) (U : Utils)
    (node attributes currentSchema schema data : JVal) (callerProps : CallerProps) (out : JVal)
    (h : addNodeProperties C U node attributes currentSchema schema data callerProps
      = .ok out) :
    ∃ n1 n2 n3 n4,
      U.fieldProps.foldlM (fun node (p : String × String) => do
          if ← attributes.hasOwnProperty p.1 then node.setProp p.2 (attributes.getKey p.1)
          else pure node) node = .ok n1
        ∧ U.complexFieldProps.foldlM (fun node (p : String × String) => do
          let present ← if ← currentSchema.hasOwnProperty p.1 then pure true
            else attributes.hasOwnProperty p.1
          if present then
            let propertyValue := (attributes.getKey p.1).or (currentSchema.getKey p.1)
            if p.1 = "auto_complete" then
              applyAutocomplete C U node propertyValue schema data callerProps p.2
            else if p.1 = "mapping_underlying_meta_field" then
              applyMappingDict node (← U.getMetaFieldDict propertyValue) p.2
            else if p.1 = "mapping_src" then
              applyMappingDict node (← U.getMappingSrcDict propertyValue) p.2
            else node.setProp p.2 propertyValue
          else pure node) n1 = .ok n2
        ∧ (n3 = n2 ∨ n2.setProp "onCheckboxChange" callerProps.onCheckboxChange = .ok n3)
        ∧ (((attributes.getKey "type").strictEq (.str C.ENUM) = true
              ∧ applyEnum C U n3 attributes schema callerProps = .ok n4)
            ∨ ((attributes.getKey "type").strictEq (.str C.ENUM) = false ∧ n4 = n3))
        ∧ (out = n4 ∨ n4.setProp "onDateTimeChange" callerProps.onDateTimeChange = .ok out) := by
  unfold addNodeProperties at h
  obtain ⟨n1, h1, g1⟩ := Except.bind_eq_ok' h
  clear h
  obtain ⟨n2, h2, g⟩ := Except.bind_eq_ok' g1
  clear g1
  refine ⟨n1, n2, ?_⟩
  have hdate : ∀ n4 : JVal,
      (if (attributes.getKey "type").strictEq (.str C.DATE_TIME) = true
        then n4.setProp "onDateTimeChange" callerProps.onDateTimeChange else pure n4) = .ok out →
      out = n4 ∨ n4.setProp "onDateTimeChange" callerProps.onDateTimeChange = .ok out := by
    intro n4 hh
    split at hh
    · exact Or.inr hh
    · cases hh; exact Or.inl rfl
  have henum : ∀ n3 : JVal,
      ((if (attributes.getKey "type").strictEq (.str C.ENUM) = true
        then applyEnum C U n3 attributes schema callerProps else pure n3) >>= fun n4 =>
        (if (attributes.getKey "type").strictEq (.str C.DATE_TIME) = true
          then n4.setProp "onDateTimeChange" callerProps.onDateTimeChange else pure n4))
        = .ok out →
      ∃ n4, (((attributes.getKey "type").strictEq (.str C.ENUM) = true
              ∧ applyEnum C U n3 attributes schema callerProps = .ok n4)
            ∨ ((attributes.getKey "type").strictEq (.str C.ENUM) = false ∧ n4 = n3))
        ∧ (out = n4 ∨ n4.setProp "onDateTimeChange" callerProps.onDateTimeChange = .ok out) := by
    intro n3 hh
    obtain ⟨n4, h4, hh⟩ := Except.bind_eq_ok' hh
    refine ⟨n4, ?_, hdate n4 hh⟩
    cases he : (attributes.getKey "type").strictEq (.str C.ENUM)
    · rw [he] at h4
      simp only [Bool.false_eq_true, if_false, pure, Except.pure] at h4
      cases h4
      exact Or.inr ⟨rfl, rfl⟩
    · rw [he] at h4
      simp only [if_true] at h4
      exact Or.inl ⟨rfl, h4⟩
  have hall : ((if (attributes.getKey "type").strictEq (.str C.BOOLEAN) = true
        then n2.setProp "onCheckboxChange" callerProps.onCheckboxChange else pure n2)
      >>= fun n3 =>
        ((if (attributes.getKey "type").strictEq (.str C.ENUM) = true
          then applyEnum C U n3 attributes schema callerProps else pure n3) >>= fun n4 =>
          (if (attributes.getKey "type").strictEq (.str C.DATE_TIME) = true
            then n4.setProp "onDateTimeChange" callerProps.onDateTimeChange else pure n4)))
      = .ok out := by
    rw [← g]
    cases (attributes.getKey "type").strictEq (.str C.BOOLEAN) <;>
      cases (attributes.getKey "type").strictEq (.str C.ENUM) <;>
      cases (attributes.getKey "type").strictEq (.str C.DATE_TIME) <;> rfl
  obtain ⟨n3, h3, hh⟩ := Except.bind_eq_ok' hall
  obtain ⟨n4, e4, d4⟩ := henum n3 hh
  refine ⟨n3, n4, h1, h2, ?_, e4, d4⟩
  split at h3
  · exact Or.inr h3
  · cases h3; exact Or.inl rfl

end TreeHelper

namespace TreeHelper

/-- What a successful run of the enum handler of `addNodeProperties` did: the node is an
object, the option list is resolved from the inline `enum`, else from `$ref`, else from
`items.$ref`, else left as it was, and nothing but `onSelectItemChange` and
`dropdowndataset` is written. -/
theorem applyEnum_ok (C : Consts) (U : Utils) (n3 attributes schema : JVal)
    (callerProps : CallerProps) (n4 : JVal)
    (h : applyEnum C U n3 attributes schema callerProps = .ok n4) :
    ((attributes.getKey "enum").truthy = true →
        n4.getKey "dropdowndataset" = attributes.getKey "enum")
      ∧ ((attributes.getKey "enum").truthy = false →
        ∀ ref, attributes.getKey "$ref" = .str ref → ref ≠ "" →
          ∃ values, U.getEnumValues schema (JS.split ref '/') (.str C.ENUM) = .ok values
            ∧ n4.getKey "dropdowndataset" = values)
      ∧ ((attributes.getKey "enum").truthy = false →
        (attributes.getKey "$ref").truthy = false →
        (attributes.getKey "items").truthy = true →
        ∀ ref, (attributes.getKey "items").getKey "$ref" = .str ref → ref ≠ "" →
          ∃ values, U.getEnumValues schema (JS.split ref '/') (.str C.ENUM) = .ok values
            ∧ n4.getKey "dropdowndataset" = values)
      ∧ ((attributes.getKey "enum").truthy = false →
        (attributes.getKey "$ref").truthy = false →
        ((attributes.getKey "items").truthy
          && ((attributes.getKey "items").getKey "$ref").truthy) = false →
        n4.getKey "dropdowndataset" = n3.getKey "dropdowndataset")
      ∧ (∀ q : String, q ≠ "onSelectItemChange" → q ≠ "dropdowndataset" →
          n4.getKey q = n3.getKey q) := by
  unfold applyEnum at h
  obtain ⟨m, hm, g⟩ := Except.bind_eq_ok' h
  clear h
  obtain ⟨⟨k3, e3, em⟩, _, hother⟩ := JVal.setProp_ok hm
  subst e3 em
  have htr : ∀ r : String, r ≠ "" → (JVal.str r).truthy = true := by
    intro r hr; simp [JVal.truthy, hr]
  have hget : ∀ (l : List (String × JVal)) (k : String),
      (JVal.obj l).getKey k = JVal.lookup l k := fun _ _ => rfl
  refine ⟨?_, ?_, ?_, ?_, ?_⟩
  · intro he
    simp only [he, if_true, JVal.setProp_obj] at g
    cases g
    exact JVal.lookup_setField_same _ _ _
  · intro he ref hr hne
    simp only [he, hr, htr ref hne, Bool.false_eq_true, if_false, if_true, JVal.asStr, bind,
      Except.bind] at g
    cases hv : U.getEnumValues schema (JS.split ref '/') (.str C.ENUM) with
    | error e => rw [hv] at g; cases g
    | ok values =>
      rw [hv] at g
      simp only [JVal.setProp_obj] at g
      cases g
      exact ⟨values, rfl, JVal.lookup_setField_same _ _ _⟩
  · intro he hr hi ref hir hne
    simp only [he, hr, hi, hir, htr ref hne, Bool.false_eq_true, if_false, if_true,
      Bool.and_self, JVal.asStr, bind, Except.bind] at g
    cases hv : U.getEnumValues schema (JS.split ref '/') (.str C.ENUM) with
    | error e => rw [hv] at g; cases g
    | ok values =>
      rw [hv] at g
      simp only [JVal.setProp_obj] at g
      cases g
      exact ⟨values, rfl, JVal.lookup_setField_same _ _ _⟩
  · intro he hr hi
    simp only [he, hr, hi, Bool.false_eq_true, if_false, pure, Except.pure] at g
    cases g
    exact JVal.lookup_setField_other _ _ _ _ (by decide)
  · intro q q1 q2
    have a1 : ∀ (l : List (String × JVal)) (x : JVal),
        JVal.lookup (JVal.setField l "onSelectItemChange" x) q = JVal.lookup l q :=
      fun l x => JVal.lookup_setField_other l _ q x q1
    have a2 : ∀ (l : List (String × JVal)) (x : JVal),
        JVal.lookup (JVal.setField l "dropdowndataset" x) q = JVal.lookup l q :=
      fun l x => JVal.lookup_setField_other l _ q x q2
    simp only [JVal.setProp_obj, bind, Except.bind, pure, Except.pure] at g
    repeat' split at g
    all_goals first
      | (cases g; done)
      | (cases g; simp only [hget, a1, a2])

/-- C15: the option list of an enum-typed leaf built by `addNodeProperties`.  Whenever
`addNodeProperties` returns for a property of type enum, `dropdowndataset` of the node it
returns is the inline `enum` of the property when present; otherwise the values obtained
through the property's `$ref`; otherwise those obtained through its `items.$ref`; and when
none of the three is present it is what the node handed in had (unset, for a node made by
`createSimpleNode`), no usage name of `fieldProps` or `complexFieldProps` being
`dropdowndataset`.  An inline `enum` wins over a `$ref`. -/
theorem addNodeProperties_enum (C : Consts) (U : Utils)
    (node attributes currentSchema schema data : JVal) (callerProps : CallerProps) (out : JVal)
    (htype : (attributes.getKey "type").strictEq (.str C.ENUM) = true)
    (h : addNodeProperties C U node attributes currentSchema schema data callerProps
      = .ok out) :
    ((attributes.getKey "enum").truthy = true →
        out.getKey "dropdowndataset" = attributes.getKey "enum")
      ∧ ((attributes.getKey "enum").truthy = false →
        ∀ ref, attributes.getKey "$ref" = .str ref → ref ≠ "" →
          ∃ values, U.getEnumValues schema (JS.split ref '/') (.str C.ENUM) = .ok values
            ∧ out.getKey "dropdowndataset" = values)
      ∧ ((attributes.getKey "enum").truthy = false →
        (attributes.getKey "$ref").truthy = false →
        (attributes.getKey "items").truthy = true →
        ∀ ref, (attributes.getKey "items").getKey "$ref" = .str ref → ref ≠ "" →
          ∃ values, U.getEnumValues schema (JS.split ref '/') (.str C.ENUM) = .ok values
            ∧ out.getKey "dropdowndataset" = values)
      ∧ ((attributes.getKey "enum").truthy = false →
        (attributes.getKey "$ref").truthy = false →
        ((attributes.getKey "items").truthy
          && ((attributes.getKey "items").getKey "$ref").truthy) = false →
        (∀ p ∈ U.fieldProps ++ U.complexFieldProps, p.2 ≠ "dropdowndataset") →
        (∀ n dict key u leaf, U.setAutocompleteValue schema n dict key u = .ok leaf →
          leaf.getKey "dropdowndataset" = n.getKey "dropdowndataset") →
        out.getKey "dropdowndataset" = node.getKey "dropdowndataset") := by
  obtain ⟨n1, n2, n3, n4, h1, h2, h3, h4, h5⟩ :=
    addNodeProperties_ok C U node attributes currentSchema schema data callerProps out h
  have e5 : out.getKey "dropdowndataset" = n4.getKey "dropdowndataset" := by
    rcases h5 with h5 | h5
    · rw [h5]
    · exact (JVal.setProp_ok h5).2.2 _ (by decide)
  have e3 : n3.getKey "dropdowndataset" = n2.getKey "dropdowndataset" := by
    rcases h3 with h3 | h3
    · rw [h3]
    · exact (JVal.setProp_ok h3).2.2 _ (by decide)
  have h4' : applyEnum C U n3 attributes schema callerProps = .ok n4 := by
    rcases h4 with ⟨_, h4⟩ | ⟨hf, _⟩
    · exact h4
    · rw [htype] at hf; cases hf
  obtain ⟨c1, c2, c3, c4, _⟩ := applyEnum_ok C U n3 attributes schema callerProps n4 h4'
  refine ⟨fun he => e5.trans (c1 he), ?_, ?_, ?_⟩
  · intro he ref hr hne
    obtain ⟨values, hv, e⟩ := c2 he ref hr hne
    exact ⟨values, hv, e5.trans e⟩
  · intro he hr hi ref hir hne
    obtain ⟨values, hv, e⟩ := c3 he hr hi ref hir hne
    exact ⟨values, hv, e5.trans e⟩
  · intro he hr hi hprops hset
    rw [e5, c4 he hr hi, e3,
      complexPropsLoop_getKey C U attributes currentSchema schema data callerProps _ n1 n2
        "dropdowndataset" (fun p hp => hprops p (List.mem_append_right _ hp))
        (Or.inr ⟨by decide, by decide, by decide, by decide, hset⟩) h2,
      fieldPropsLoop_getKey _ attributes node n1 "dropdowndataset"
        (fun p hp => hprops p (List.mem_append_left _ hp)) h1]

end TreeHelper

namespace TreeHelper

/-- Witness of C15: a property that has both an inline `enum` and a `$ref` gets the inline
values. -/
theorem addNodeProperties_enum_witness :
    ∃ out, addNodeProperties sampleConsts sampleUtils (.obj [("key", .str "c")])
          (.obj [("type", .str "enum"), ("enum", .arr [.str "A"]),
            ("$ref", .str "#/definitions/color")])
          (.obj []) (.obj []) (.obj []) (sampleCallerProps (.obj [])) = .ok out
      ∧ out.getKey "dropdowndataset" = .arr [.str "A"] :=
  ⟨_, rfl, (addNodeProperties_enum sampleConsts sampleUtils (.obj [("key", .str "c")])
    (.obj [("type", .str "enum"), ("enum", .arr [.str "A"]),
      ("$ref", .str "#/definitions/color")])
    (.obj []) (.obj []) (.obj []) (sampleCallerProps (.obj [])) _ (by decide) rfl).1 rfl⟩

end TreeHelper

namespace TreeHelper

/-- The branch `propertyName === 'auto_complete'` on a leaf that, as `setAutocompleteValue`
left it, has options and its own `dynamic_autocomplete` property. -/
theorem applyAutocomplete_dynamic_ok (C : Consts) (U : Utils)
    (node propertyValue schema data : JVal) (callerProps : CallerProps) (usageName : String)
    (result dict leaf : JVal) (a : String)
    (h : applyAutocomplete C U node propertyValue schema data callerProps usageName
      = .ok result)
    (hd : U.getAutocompleteDict propertyValue = .ok dict)
    (hs : U.setAutocompleteValue schema node dict (node.getKey "key") usageName = .ok leaf)
    (hopt : (leaf.getKey "options").truthy = true)
    (hdyn : leaf.hasOwnProperty "dynamic_autocomplete" = .ok true)
    (hauto : leaf.getKey "autocomplete" = .str a) :
    ((Lodash.get data (.str (JS.substringFrom a (JS.indexOf a '.' + 1)))).truthy = false →
        result.getKey "options" = leaf.getKey "options"
          ∧ result.getKey "value" = leaf.getKey "value")
      ∧ (∀ tbl vs,
        (Lodash.get data (.str (JS.substringFrom a (JS.indexOf a '.' + 1)))).truthy = true →
        (Lodash.get data (.str (JS.substringFrom a (JS.indexOf a '.' + 1)))).toStr = .ok vs →
        schema.prop "autocomplete" = .ok (.obj tbl) →
        JVal.hasKey tbl vs = false →
        result.getKey "options" = leaf.getKey "options"
          ∧ result.getKey "value" = leaf.getKey "value")
      ∧ (∀ tbl vs w opts,
        (Lodash.get data (.str (JS.substringFrom a (JS.indexOf a '.' + 1)))).truthy = true →
        (Lodash.get data (.str (JS.substringFrom a (JS.indexOf a '.' + 1)))).toStr = .ok vs →
        schema.prop "autocomplete" = .ok (.obj tbl) →
        JVal.hasKey tbl vs = true →
        (JVal.lookup tbl vs).toStr = .ok w →
        JVal.lookup tbl w = .arr opts →
        result.getKey "options" = .arr opts
          ∧ result.getKey "value"
              = if (!(JVal.arrIncludes opts (leaf.getKey "value"))
                  && callerProps.mode.strictEq (.str C.EDIT)
                  && !(leaf.getKey "ormNoUpdate").truthy
                  && !(leaf.getKey "serverPopulate").truthy) = true
                then JVal.null else leaf.getKey "value") := by
  obtain ⟨_, _, _, hnn, _, _⟩ := applyAutocomplete_ok _ _ _ _ _ _ _ _ _ h
  obtain ⟨kvs, e⟩ := obj_of_options_truthy leaf hopt
  subst e
  have hdyn' : JVal.hasKey kvs "dynamic_autocomplete" = true := by
    simpa [JVal.hasOwnProperty] using hdyn
  have hget : ∀ (l : List (String × JVal)) (k : String),
      (JVal.obj l).getKey k = JVal.lookup l k := fun _ _ => rfl
  have hp : ∀ (l : List (String × JVal)) (k : String),
      (JVal.obj l).prop k = .ok (JVal.lookup l k) := fun _ _ => rfl
  rw [hget] at hopt hauto
  have hfin : ∀ (l : List (String × JVal)) (x y : JVal) (q : String),
      q ≠ "customComponentType" → q ≠ "onAutocompleteOptionChange" →
      JVal.lookup (JVal.setField (JVal.setField l "customComponentType" x)
        "onAutocompleteOptionChange" y) q = JVal.lookup l q := by
    intro l x y q h1 h2
    rw [JVal.lookup_setField_other _ _ _ _ h2, JVal.lookup_setField_other _ _ _ _ h1]
  have e1 : ∀ x : JVal, JVal.lookup (JVal.setField kvs "options" x) "value"
      = JVal.lookup kvs "value" := fun x => JVal.lookup_setField_other _ _ _ _ (by decide)
  have e2 : ∀ x : JVal, JVal.lookup (JVal.setField kvs "options" x) "ormNoUpdate"
      = JVal.lookup kvs "ormNoUpdate" := fun x => JVal.lookup_setField_other _ _ _ _ (by decide)
  have e3 : ∀ x : JVal, JVal.lookup (JVal.setField kvs "options" x) "serverPopulate"
      = JVal.lookup kvs "serverPopulate" :=
    fun x => JVal.lookup_setField_other _ _ _ _ (by decide)
  refine ⟨?_, ?_, ?_⟩
  · intro hv
    simp only [applyAutocomplete, hd, prop_eq_getKey _ _ hnn, hs, hp, hget, hopt,
      JVal.hasOwnProperty, hdyn', hauto, JVal.asStr, hv, JVal.setProp_obj, bind, Except.bind,
      pure, Except.pure, Bool.false_eq_true, if_false, if_true] at h
    cases h
    exact ⟨hfin _ _ _ _ (by decide) (by decide), hfin _ _ _ _ (by decide) (by decide)⟩
  · intro tbl vs hv hvs htbl hk
    simp only [applyAutocomplete, hd, prop_eq_getKey _ _ hnn, hs, hp, hget, hopt,
      JVal.hasOwnProperty, hdyn', hauto, JVal.asStr, hv, hvs, htbl, hk, JVal.setProp_obj, bind,
      Except.bind, pure, Except.pure, Bool.false_eq_true, if_false, if_true] at h
    cases h
    exact ⟨hfin _ _ _ _ (by decide) (by decide), hfin _ _ _ _ (by decide) (by decide)⟩
  · intro tbl vs w opts hv hvs htbl hk hw ho
    by_cases hc : (!(JVal.arrIncludes opts (JVal.lookup kvs "value"))
        && callerProps.mode.strictEq (.str C.EDIT)
        && !(JVal.lookup kvs "ormNoUpdate").truthy
        && !(JVal.lookup kvs "serverPopulate").truthy) = true
    · simp only [applyAutocomplete, hd, prop_eq_getKey _ _ hnn, hs, hp, hget, hopt,
        JVal.hasOwnProperty, hdyn', hauto, JVal.asStr, hv, hvs, htbl, hk, hw, ho,
        JVal.includes, e1, e2, e3, hc, JVal.setProp_obj, bind, Except.bind, pure, Except.pure,
        Bool.false_eq_true, if_false, if_true] at h
      cases h
      refine ⟨?_, ?_⟩
      · rw [hget, hfin _ _ _ _ (by decide) (by decide),
          JVal.lookup_setField_other _ _ _ _ (by decide), JVal.lookup_setField_same]
      · simp only [hget]
        rw [hfin _ _ _ _ (by decide) (by decide), JVal.lookup_setField_same, if_pos hc]
    · simp only [applyAutocomplete, hd, prop_eq_getKey _ _ hnn, hs, hp, hget, hopt,
        JVal.hasOwnProperty, hdyn', hauto, JVal.asStr, hv, hvs, htbl, hk, hw, ho,
        JVal.includes, e1, e2, e3, hc, JVal.setProp_obj, bind, Except.bind, pure, Except.pure,
        Bool.false_eq_true, if_false, if_true] at h
      cases h
      refine ⟨?_, ?_⟩
      · rw [hget, hfin _ _ _ _ (by decide) (by decide), JVal.lookup_setField_same]
      · simp only [hget]
        rw [hfin _ _ _ _ (by decide) (by decide), e1, if_neg hc]

end TreeHelper

namespace TreeHelper

/-- The round of the loop over `complexFieldProps` for the entry `auto_complete`, the
property being present on the type or on the property schema: the branch `auto_complete` is
run. -/
theorem complexStep_autocomplete (C : Consts) (U : Utils)
    (attributes currentSchema schema data : JVal) (callerProps : CallerProps) (u : String)
    (x y : JVal)
    (hpresent : currentSchema.hasOwnProperty "auto_complete" = .ok true
      ∨ attributes.hasOwnProperty "auto_complete" = .ok true)
    (h : (do
      let present ← if ← currentSchema.hasOwnProperty "auto_complete" then pure true
        else attributes.hasOwnProperty "auto_complete"
      if present then
        let propertyValue :=
          (attributes.getKey "auto_complete").or (currentSchema.getKey "auto_complete")
        if "auto_complete" = "auto_complete" then
          applyAutocomplete C U x propertyValue schema data callerProps u
        else if "auto_complete" = "mapping_underlying_meta_field" then
          applyMappingDict x (← U.getMetaFieldDict propertyValue) u
        else if "auto_complete" = "mapping_src" then
          applyMappingDict x (← U.getMappingSrcDict propertyValue) u
        else x.setProp u propertyValue
      else pure x : Except Err JVal) = .ok y) :
    applyAutocomplete C U x
      ((attributes.getKey "auto_complete").or (currentSchema.getKey "auto_complete"))
      schema data callerProps u = .ok y := by
  obtain ⟨b, hb, g⟩ := Except.bind_eq_ok' h
  clear h
  cases b
  · simp only [Bool.false_eq_true, if_false] at g
    obtain ⟨present, hp, g⟩ := Except.bind_eq_ok' g
    rcases hpresent with hpresent | hpresent
    · rw [hb] at hpresent; cases hpresent
    · rw [hp] at hpresent
      cases hpresent
      simpa using g
  · simp only [if_true, pure, Except.pure, bind, Except.bind] at g
    simpa using g

/-- C16: an autocomplete leaf built by `addNodeProperties`, the property `auto_complete` being
present on the type or on the property schema.  Whenever `addNodeProperties` returns, the
entry `auto_complete` of `complexFieldProps` was reached with some node `mid` (the node handed
in, when no entry comes before), and `setAutocompleteValue` turned it into a leaf.  If that
leaf has options and its own `dynamic_autocomplete` property, let `v` be the working-copy value
at the path that drops the text up to the first `.` of its `autocomplete`.  If `v` is falsy,
or is not an own key of `schema.autocomplete`, the node returned has the `options` and the
`value` of the leaf.  If `v` is truthy and an own key of `schema.autocomplete`, its `options`
are `schema.autocomplete[schema.autocomplete[v]]`, and its `value` is `null` exactly when the
value of the leaf is not among those options, the mode is edit, and the leaf is neither
`ormNoUpdate` nor `serverPopulate`; otherwise it is the value of the leaf.  The entries of
`complexFieldProps` after `auto_complete` are taken not to write `options` or `value`. -/
theorem addNodeProperties_autocomplete (C : Consts) (U : Utils)
    (node attributes currentSchema schema data : JVal) (callerProps : CallerProps) (out : JVal)
    (pre post : List (String × String)) (u : String)
    (hcfp : U.complexFieldProps = pre ++ ("auto_complete", u) :: post)
    (hpost : ∀ p ∈ post, p.1 ≠ "auto_complete" ∧ p.2 ≠ "options" ∧ p.2 ≠ "value")
    (hpresent : currentSchema.hasOwnProperty "auto_complete" = .ok true
      ∨ attributes.hasOwnProperty "auto_complete" = .ok true)
    (h : addNodeProperties C U node attributes currentSchema schema data callerProps
      = .ok out) :
    ∃ mid dict leaf,
      U.getAutocompleteDict
          ((attributes.getKey "auto_complete").or (currentSchema.getKey "auto_complete"))
        = .ok dict
      ∧ U.setAutocompleteValue schema mid dict (mid.getKey "key") u = .ok leaf
      ∧ (U.fieldProps = [] → pre = [] → mid = node)
      ∧ ((leaf.getKey "options").truthy = true →
        leaf.hasOwnProperty "dynamic_autocomplete" = .ok true →
        ∀ a, leaf.getKey "autocomplete" = .str a →
          ((Lodash.get data (.str (JS.substringFrom a (JS.indexOf a '.' + 1)))).truthy = false →
              out.getKey "options" = leaf.getKey "options"
                ∧ out.getKey "value" = leaf.getKey "value")
            ∧ (∀ tbl vs,
              (Lodash.get data (.str (JS.substringFrom a (JS.indexOf a '.' + 1)))).truthy
                = true →
              (Lodash.get data (.str (JS.substringFrom a (JS.indexOf a '.' + 1)))).toStr
                = .ok vs →
              schema.prop "autocomplete" = .ok (.obj tbl) →
              JVal.hasKey tbl vs = false →
              out.getKey "options" = leaf.getKey "options"
                ∧ out.getKey "value" = leaf.getKey "value")
            ∧ (∀ tbl vs w opts,
              (Lodash.get data (.str (JS.substringFrom a (JS.indexOf a '.' + 1)))).truthy
                = true →
              (Lodash.get data (.str (JS.substringFrom a (JS.indexOf a '.' + 1)))).toStr
                = .ok vs →
              schema.prop "autocomplete" = .ok (.obj tbl) →
              JVal.hasKey tbl vs = true →
              (JVal.lookup tbl vs).toStr = .ok w →
              JVal.lookup tbl w = .arr opts →
              out.getKey "options" = .arr opts
                ∧ out.getKey "value"
                    = if (!(JVal.arrIncludes opts (leaf.getKey "value"))
                        && callerProps.mode.strictEq (.str C.EDIT)
                        && !(leaf.getKey "ormNoUpdate").truthy
                        && !(leaf.getKey "serverPopulate").truthy) = true
                      then JVal.null else leaf.getKey "value")) := by
  obtain ⟨n1, n2, n3, n4, h1, h2, h3, h4, h5⟩ :=
    addNodeProperties_ok C U node attributes currentSchema schema data callerProps out h
  rw [hcfp, List.foldlM_append] at h2
  obtain ⟨mid, hmid, h2⟩ := Except.bind_eq_ok' h2
  rw [List.foldlM_cons] at h2
  obtain ⟨result, hstep, hrest⟩ := Except.bind_eq_ok' h2
  have hrun := complexStep_autocomplete C U attributes currentSchema schema data callerProps u
    mid result hpresent hstep
  obtain ⟨dict, leaf, hd, _, hs, _⟩ := applyAutocomplete_ok _ _ _ _ _ _ _ _ _ hrun
  -- what comes after the branch keeps `options` and `value`
  have hkeep : ∀ q : String, (∀ p ∈ post, p.2 ≠ q) → q ≠ "onCheckboxChange" →
      q ≠ "onSelectItemChange" → q ≠ "dropdowndataset" → q ≠ "onDateTimeChange" →
      out.getKey q = result.getKey q := by
    intro q hq q1 q2 q3 q4
    have e2 : n2.getKey q = result.getKey q :=
      complexPropsLoop_getKey C U attributes currentSchema schema data callerProps post
        result n2 q hq (Or.inl (fun p hp => (hpost p hp).1)) hrest
    have e3 : n3.getKey q = n2.getKey q := by
      rcases h3 with h3 | h3
      · rw [h3]
      · exact (JVal.setProp_ok h3).2.2 q q1
    have e4 : n4.getKey q = n3.getKey q := by
      rcases h4 with ⟨_, h4⟩ | ⟨_, h4⟩
      · exact (applyEnum_ok C U n3 attributes schema callerProps n4 h4).2.2.2.2 q q2 q3
      · rw [h4]
    have e5 : out.getKey q = n4.getKey q := by
      rcases h5 with h5 | h5
      · rw [h5]
      · exact (JVal.setProp_ok h5).2.2 q q4
    rw [e5, e4, e3, e2]
  have ko := hkeep "options" (fun p hp => (hpost p hp).2.1) (by decide) (by decide)
    (by decide) (by decide)
  have kv := hkeep "value" (fun p hp => (hpost p hp).2.2) (by decide) (by decide)
    (by decide) (by decide)
  refine ⟨mid, dict, leaf, hd, hs, ?_, ?_⟩
  · intro hf hp
    rw [hf] at h1
    rw [hp] at hmid
    simp only [List.foldlM_nil, pure, Except.pure] at h1 hmid
    cases h1
    cases hmid
    rfl
  · intro hopt hdyn a hauto
    obtain ⟨c1, c2, c3⟩ := applyAutocomplete_dynamic_ok C U mid _ schema data callerProps u
      result dict leaf a hrun hd hs hopt hdyn hauto
    rw [ko, kv]
    exact ⟨c1, c2, c3⟩

end TreeHelper

namespace TreeHelper

/-- Witness of C16: in edit mode the value `Z`, which is not a city of `IN`, is reset, and the
options become the cities of `IN`. -/
theorem addNodeProperties_autocomplete_witness :
    ∃ out, addNodeProperties sampleConsts autocompleteUtils (.obj autocompleteNode)
          autocompleteAttributes (.obj []) autocompleteSchema countryDocument
          (sampleCallerProps countryDocument) = .ok out
      ∧ out.getKey "options" = .arr [.str "Delhi"]
      ∧ out.getKey "value" = .null := by
  obtain ⟨mid, dict, leaf, _, hs, hpin, hcases⟩ :=
    addNodeProperties_autocomplete sampleConsts autocompleteUtils (.obj autocompleteNode)
      autocompleteAttributes (.obj []) autocompleteSchema countryDocument
      (sampleCallerProps countryDocument) _ [] [] "autocomplete" rfl
      (fun p hp => by cases hp) (Or.inr rfl) rfl
  have hm := hpin rfl rfl
  subst hm
  have hl : JVal.obj autocompleteNode = leaf := Except.ok.inj hs
  subst hl
  obtain ⟨h1, h2⟩ := (hcases (by decide) rfl "CityList.country" rfl).2.2
    [("IN", .str "IN_cities"), ("IN_cities", .arr [.str "Delhi"])] "IN" "IN_cities"
    [.str "Delhi"] (by decide) rfl rfl (by decide) rfl rfl
  exact ⟨_, rfl, h1, by rw [h2]; rfl⟩

end TreeHelper

namespace TreeHelper

/-- C13, the code at a failing input: a list without baseline whose working copy holds the
element with logical index 1 at position 0 and the element with logical index 0 at position
1.  Both elements have a property whose name starts with `xpath_`, and neither logical path is
the path of a baseline element.  The second loop of `processArrayItems` lists the first element
(logical path `items[1]`, working-copy path `items[0]`) and pushes its working-copy path onto
`paths`, where the first loop pushes logical paths; the logical path `items[0]` of the second
element is then found in `paths` and the element is dropped: the tree has one element node,
at `items[1]`.  With the same two elements in the other order both are listed. -/
theorem collectModifiedItems_drops_element :
    (collectOriginalItems sampleUtils swappedCallerProps (.str "items")).toOption.map
        (fun r => (r.1, r.2.length)) = some ([], 0)
      ∧ (collectModifiedItems sampleUtils swappedCallerProps (.str "items") (.str "items")
          ([], [])).toOption.map
        (fun r => (r.1, r.2.map (fun item =>
          (item.index, item.updatedxpath, (item.childxpath.strictEq (.str "items[0]"))))))
        = some (["items[0]"], [(0, "items[1]", true)])
      ∧ (addNode sampleConsts sampleUtils 3 [] sampleSchema sampleArraySchema (.str "items")
          swappedCallerProps (.str "items") .null (.str "items") []).toOption.map
        (fun r => (r.1.map childrenOf).map (fun cs =>
          cs.map (fun c => ((c.getKey "xpath").strictEq (.str "items[1]"),
            (c.getKey "xpath").strictEq (.str "items[0]")))))
        = some [[(true, false)]]
      ∧ (collectModifiedItems sampleUtils
          { swappedCallerProps with data := .obj [("items", .arr [sampleItem 0, sampleItem 1])] }
          (.str "items") (.str "items") ([], [])).toOption.map
        (fun r => r.2.map (fun item => (item.index, item.updatedxpath)))
        = some [(0, "items[0]"), (1, "items[1]")] := by
  decide

end TreeHelper

namespace DataTreeJsx

/-- C21, the code at a failing input: a list of six objects, generated through `addNode` of
`treeHelper.js`, is not paginated although it has more than five entries: the container has
six element nodes and no pagination node.  A list of six strings is paginated by
`handleSimpleArray`, with five leaves on the page and a pagination node.  A node with six
children is not paginated by `processNode` (all six child ids are emitted and no `pagination`
is written), and a node with nine children is (eight child ids, `pagination` written). -/
theorem six_objects_not_paginated :
    (TreeHelper.addNode sampleConsts TreeHelper.sampleUtils 3 [] TreeHelper.sampleSchema
        TreeHelper.sampleArraySchema (.str "items")
        (TreeHelper.sampleCallerProps TreeHelper.sixItemsDocument) (.str "items") .null
        (.str "items") []).toOption.map
      (fun r => (r.1.map TreeHelper.childrenOf).map (fun cs =>
        (cs.length, cs.any TreeHelper.isPaginationNode)))
      = some [(6, false)]
    ∧ (TreeHelper.handleSimpleArray sampleConsts TreeHelper.sampleUtils [] (.obj [])
        TreeHelper.tagsSchema (.str "tags")
        (TreeHelper.sampleCallerProps TreeHelper.sixTagsDocument) (.str "tags") JVal.undef
        (.str "tags") []).toOption.map
      (fun r => (r.1.map TreeHelper.childrenOf).map (fun cs =>
        (cs.map TreeHelper.isPaginationNode,
          (cs.map TreeHelper.childrenOf).map List.length)))
      = some [([false, true], [5, 0])]
    ∧ (processNode sampleRandom [] 2
        (.obj [("xpath", .str "list"), ("children", .arr (nineChildren.take 6))])
        (.str "root") ⟨0, []⟩).toOption.map
      (fun r => r.entries.head?.map (fun e =>
        (e.children.length, (e.metadata.getKey "pagination").isUndef)))
      = some (some (6, true))
    ∧ (processNode sampleRandom [] 2 (.obj listNode) (.str "root") ⟨0, []⟩).toOption.map
      (fun r => r.entries.head?.map (fun e =>
        (e.children.length, (e.metadata.getKey "pagination").isUndef)))
      = some (some (8, false)) := by
  decide

end DataTreeJsx

namespace DataTreeJsx

/-- C23: the pages computed by `processNode` partition the children of a node.  On a well
formed node with a non-empty `xpath` and `n > 8` children, the number of pages `ceil(n/8)` is
at least two.  Whatever page `p` the state `paginatedNodes` holds for the node, `processNode`
returns, and the entry it pushes for the node lists the ids of exactly the children in the
slice from `8p` to `min(8p + 8, n)`, in order, and records `currentPage = p` and
`totalPages = ceil(n/8)`; for `p` below the number of pages that slice is non-empty and has at
most eight entries.  The slices of the pages `0` to `ceil(n/8) - 1`, concatenated in order,
are the children list. -/
theorem processNode_pages_partition (random : Nat → String) (fuel : Nat)
    (kvs : List (String × JVal)) (children : List JVal) (x : String) (P : JVal)
    (st : FlattenState)
    (hwf : wellFormedNode (fuel + 1) (.obj kvs) = true)
    (hch : JVal.lookup kvs "children" = .arr children)
    (hx : JVal.lookup kvs "xpath" = .str x) (hxne : x ≠ "")
    (hn : children.length > ITEMS_PER_PAGE) :
    2 ≤ JS.ceilDiv children.length ITEMS_PER_PAGE
      ∧ (∀ (paginatedNodes : PaginatedNodes) (p : Nat),
          ((pageStateOf paginatedNodes x).map PageState.page).getD 0 = p →
          ∃ r e sub, processNode random paginatedNodes (fuel + 1) (.obj kvs) P st = .ok r
            ∧ r.id = .str x ∧ r.entries = e :: sub ∧ e.id = .str x
            ∧ List.Forall₂ (IsIdOf random) e.children
                (slice children (p * ITEMS_PER_PAGE)
                  (min (p * ITEMS_PER_PAGE + ITEMS_PER_PAGE) children.length))
            ∧ (e.metadata.getKey "pagination").getKey "currentPage" = .num p
            ∧ (e.metadata.getKey "pagination").getKey "totalPages"
                = .num (JS.ceilDiv children.length ITEMS_PER_PAGE)
            ∧ (p < JS.ceilDiv children.length ITEMS_PER_PAGE →
                0 < e.children.length ∧ e.children.length ≤ ITEMS_PER_PAGE))
      ∧ ((List.range (JS.ceilDiv children.length ITEMS_PER_PAGE)).map (fun p =>
          slice children (p * ITEMS_PER_PAGE)
            (min (p * ITEMS_PER_PAGE + ITEMS_PER_PAGE) children.length))).flatten
        = children := by
  obtain ⟨h2, hpages, hflat⟩ := slices_partition children hn
  refine ⟨h2, ?_, hflat⟩
  intro paginatedNodes p hp
  have hwf' := hwf
  simp only [wellFormedNode, Bool.and_eq_true, hch] at hwf'
  have hall : ∀ child ∈ children, wellFormedNode fuel child = true :=
    fun c hc => List.all_eq_true.mp hwf'.2 c hc
  obtain ⟨r, key, e, sub, hrun, hrid, hid, hent, he1, _, _, hpag, _⟩ :=
    processNodeBody_spec random paginatedNodes (processNode random paginatedNodes fuel) kvs
      children P st (Or.inl ⟨x, hx⟩) (Or.inl hch)
      (fun child hm cid st' => processNode_spec random paginatedNodes fuel child cid st'
        (hall child hm))
  have hkey : key = x := by
    have hg : (JVal.obj kvs).getKey "xpath" = .str x := hx
    rcases hid with ⟨_, h⟩ | ⟨h, _⟩
    · rw [hrid, hg] at h
      injection h
    · rw [hg] at h
      simp [JVal.truthy, hxne] at h
  subst hkey
  obtain ⟨hf, hm⟩ := hpag hn
  rw [hp] at hf hm
  refine ⟨r, e, sub, hrun, hrid, hent, he1.trans hrid, hf, ?_, ?_, ?_⟩
  · rw [hm]; rfl
  · rw [hm]; rfl
  · intro hlt
    have hlen := hf.length_eq
    obtain ⟨hne, hle⟩ := hpages p hlt
    rw [hlen]
    exact ⟨List.length_pos.mpr hne, hle⟩

/-- Witness of C23: the node `list` with nine children, on its second page, yields an entry
with the id of the ninth child only. -/
theorem processNode_pages_partition_witness :
    ∃ r e sub, processNode sampleRandom secondPage 2 (.obj listNode) (.str "root") ⟨0, []⟩
        = .ok r
      ∧ r.id = .str "list" ∧ r.entries = e :: sub ∧ e.id = .str "list"
      ∧ List.Forall₂ (IsIdOf sampleRandom) e.children
          (slice nineChildren (1 * ITEMS_PER_PAGE)
            (min (1 * ITEMS_PER_PAGE + ITEMS_PER_PAGE) nineChildren.length))
      ∧ (e.metadata.getKey "pagination").getKey "currentPage" = .num (1 : Nat)
      ∧ (e.metadata.getKey "pagination").getKey "totalPages"
          = .num (JS.ceilDiv nineChildren.length ITEMS_PER_PAGE)
      ∧ (1 < JS.ceilDiv nineChildren.length ITEMS_PER_PAGE →
          0 < e.children.length ∧ e.children.length ≤ ITEMS_PER_PAGE) :=
  (processNode_pages_partition sampleRandom 1 listNode nineChildren "list" (.str "root")
    ⟨0, []⟩ (by decide) rfl rfl (by decide) (by decide)).2.1 secondPage 1 (by decide)

end DataTreeJsx

namespace DataTreeJsx

/-- The two pagination sites on lists of the same length `n`: `handleSimpleArray` of
`treeHelper.js` on a primitive array of `n` defined items, and `processNode` of `DataTree.jsx`
on a well formed node with `n` children.  `handleSimpleArray` makes a pagination node exactly
when `n > 5`, with `min(5, n)` leaves and `ceil(n/5)` pages recorded; `processNode` emits fewer
than `n` child ids exactly when `n > 8`, and then records `ceil(n/8)` pages.  So for `n` from
6 to 8 only `handleSimpleArray` paginates, and for `n > 8` the page counts recorded differ
whenever `ceil(n/5)` and `ceil(n/8)` do. -/
theorem pagination_sites (C : Consts) (U : TreeHelper.Utils)
    (tree : TreeHelper.Tree) (schema currentSchema propname type : JVal)
    (callerProps : TreeHelper.CallerProps) (D X : String)
    (treeState ts1 ts2 : TreeHelper.TreeState) (dkvs : List (String × JVal)) (xs : List JVal)
    (adt ap H1 H2 : JVal)
    (hdata : callerProps.data = .obj dkvs) (hD : D.data ≠ [])
    (hitems : Lodash.get callerProps.data (.str D) = .arr xs)
    (hdef : ∀ x ∈ xs, x.isUndef = false)
    (hadt : TreeHelper.getArrayDataType C currentSchema = .ok adt)
    (hprim : JVal.arrIncludes U.primitiveDataTypes adt = true)
    (hap : TreeHelper.buildArrayAdditionalProps C schema currentSchema = .ok ap)
    (h1 : TreeHelper.addHeaderNode U currentSchema propname (.str C.ARRAY) callerProps (.str D)
      (.str X) ((currentSchema.getKey "items").optProp "$ref") JVal.undef treeState
        = .ok (H1, ts1))
    (h2 : TreeHelper.addHeaderNode U currentSchema propname (currentSchema.getKey "type")
      callerProps (.str (D ++ "[-1]")) (.str (X ++ "[-1]")) adt
      (.obj [("add", .bool true), ("remove", .bool false)]) ts1 = .ok (H2, ts2))
    (random : Nat → String) (paginatedNodes : PaginatedNodes) (fuel : Nat)
    (kvs : List (String × JVal)) (children : List JVal) (P : JVal) (st : FlattenState)
    (hwf : wellFormedNode (fuel + 1) (.obj kvs) = true)
    (hch : JVal.lookup kvs "children" = .arr children)
    (hlen : children.length = xs.length) :
    ∃ container holder r e sub,
      TreeHelper.handleSimpleArray C U tree schema currentSchema propname callerProps (.str D)
          type (.str X) treeState = .ok (tree ++ [container], ts2)
        ∧ processNode random paginatedNodes (fuel + 1) (.obj kvs) P st = .ok r
        ∧ r.entries = e :: sub ∧ e.id = r.id
        ∧ ((∃ pg, TreeHelper.childrenOf container = [holder, pg]
              ∧ TreeHelper.isPaginationNode pg = true) ↔ 5 < xs.length)
        ∧ (xs.length ≤ 5 → TreeHelper.childrenOf container = [holder])
        ∧ (TreeHelper.childrenOf holder).length = min 5 xs.length
        ∧ (5 < xs.length → (holder.getKey "pagination").getKey "totalPages"
            = .num (JS.ceilDiv xs.length 5))
        ∧ (e.children.length < xs.length ↔ 8 < xs.length)
        ∧ (xs.length ≤ 8 → e.children.length = xs.length
            ∧ e.metadata.getKey "pagination" = JVal.lookup kvs "pagination")
        ∧ (8 < xs.length → (e.metadata.getKey "pagination").getKey "totalPages"
            = .num (JS.ceilDiv xs.length 8))
        ∧ (6 ≤ xs.length → xs.length ≤ 8 →
            (∃ pg, TreeHelper.childrenOf container = [holder, pg]
              ∧ TreeHelper.isPaginationNode pg = true)
            ∧ (TreeHelper.childrenOf holder).length = 5 ∧ e.children.length = xs.length)
        ∧ (8 < xs.length → JS.ceilDiv xs.length 5 ≠ JS.ceilDiv xs.length 8 →
            (holder.getKey "pagination").getKey "totalPages"
              ≠ (e.metadata.getKey "pagination").getKey "totalPages") := by
  obtain ⟨container, holder, leaves, hrun, hc, hh, hf, hp, _⟩ :=
    TreeHelper.handleSimpleArray_run C U tree schema currentSchema propname type callerProps D X
      treeState ts1 ts2 dkvs xs adt ap H1 H2 hdata hD hitems hdef hadt hprim hap h1 h2
  have hwf' := hwf
  simp only [wellFormedNode, Bool.and_eq_true, hch] at hwf'
  have hx : (∃ s, JVal.lookup kvs "xpath" = .str s)
      ∨ (JVal.lookup kvs "xpath").truthy = false := by
    have h1 := hwf'.1
    cases hl : JVal.lookup kvs "xpath" <;> rw [hl] at h1 <;>
      first
        | exact Or.inl ⟨_, rfl⟩
        | exact Or.inr rfl
        | cases h1
  have hall : ∀ child ∈ children, wellFormedNode fuel child = true :=
    fun c hc => List.all_eq_true.mp hwf'.2 c hc
  obtain ⟨r, key, e, sub, hrun2, _, _, hent, he1, _, _, hpag, hnopag⟩ :=
    processNodeBody_spec random paginatedNodes (processNode random paginatedNodes fuel) kvs
      children P st hx (Or.inl hch)
      (fun child hm cid st' => processNode_spec random paginatedNodes fuel child cid st'
        (hall child hm))
  have hleaves : (TreeHelper.childrenOf holder).length = min 5 xs.length := by
    rw [hh, ← hf.length_eq, List.length_range]
  have hpg : (∃ pg, TreeHelper.childrenOf container = [holder, pg]
      ∧ TreeHelper.isPaginationNode pg = true) ↔ 5 < xs.length := by
    constructor
    · rintro ⟨pg, hpg, _⟩
      by_contra hn
      rw [hc, if_neg hn] at hpg
      cases hpg
    · intro hn
      rw [hc, if_pos hn]
      exact ⟨_, rfl, rfl⟩
  have hsmall : xs.length ≤ 8 → e.children.length = xs.length
      ∧ e.metadata.getKey "pagination" = JVal.lookup kvs "pagination" := by
    intro hn
    obtain ⟨hf2, hm⟩ := hnopag (by rw [hlen]; exact hn)
    exact ⟨by rw [hf2.length_eq, hlen], hm⟩
  have hbig : 8 < xs.length → e.children.length ≤ 8 ∧ e.metadata.getKey "pagination"
      = paginationMeta (((pageStateOf paginatedNodes key).map PageState.page).getD 0)
          xs.length := by
    intro hn
    obtain ⟨hf2, hm⟩ := hpag (by rw [hlen]; exact hn)
    refine ⟨?_, by rw [hm, hlen]⟩
    rw [hf2.length_eq]
    simp only [slice, List.length_drop, List.length_take, ITEMS_PER_PAGE]
    omega
  have htot5 : 5 < xs.length → (holder.getKey "pagination").getKey "totalPages"
      = .num (JS.ceilDiv xs.length 5) := by
    intro hn
    rw [hp hn]
    rfl
  have htot8 : 8 < xs.length → (e.metadata.getKey "pagination").getKey "totalPages"
      = .num (JS.ceilDiv xs.length 8) := by
    intro hn
    rw [(hbig hn).2]
    rfl
  refine ⟨container, holder, r, e, sub, hrun, hrun2, hent, he1, hpg, ?_, hleaves, htot5, ?_,
    hsmall, htot8, ?_, ?_⟩
  · intro hn
    rw [hc, if_neg (by omega)]
  · constructor
    · intro hlt
      by_contra hn
      have := (hsmall (by omega)).1
      omega
    · intro hn
      have := (hbig hn).1
      omega
  · intro h6 h8
    refine ⟨hpg.mpr (by omega), ?_, (hsmall h8).1⟩
    rw [hleaves]
    omega
  · intro h8 hne
    rw [htot5 (by omega), htot8 h8]
    intro heq
    have heq' : JVal.num (JS.ceilDiv xs.length 5) = JVal.num (JS.ceilDiv xs.length 8) := heq
    injection heq' with heq'
    exact hne (by exact_mod_cast heq')

end DataTreeJsx
